import Mathlib

/-!
# ONERA image codec (otbONERAImageIO.cxx): embedding and verified properties

The codec reads and writes a raster of complex pixels (two 4-byte floats each)
stored in a pair of files: a text header `<root>.ent` and a binary data file
`<root>.dat`.

Modelling conventions.

* A file is a list of bytes; the file system maps a path to the contents of the
  file stored there. Contents are the ones observed once the stream that wrote
  them has been flushed. A `std::fstream` keeps the last bytes written in its
  buffer until a seek, a close, the destructor of the instance or the next open
  by the same instance: a stream of another instance finds these bytes in the
  file only after that. Properties that read back what an instance wrote are
  therefore stated for the instance itself, whose open closes the stream first,
  or for another instance after `destructor` has run on the writer.
* The two `std::fstream` members are explicit stream records (open file, mode,
  joint file position, error bits, count of the last unformatted read) with the
  C++11 library semantics.
* The host is little-endian: the in-memory bytes of an integer or a float are
  its on-disk bytes, and the range byte swapper of ITK is the identity.
* `short` and `unsigned int` conversions wrap explicitly; `int`, `long` and
  `unsigned long` arithmetic is exact integer arithmetic (a file held in a list
  is far too short for it to overflow).
* Storage that the source leaves uninitialised is a parameter of the operation
  that reads it.
* `System::GetRootName` is not part of the source file and is a parameter.
-/

namespace otb

/-! ## Bytes and little-endian integers -/

/-- One byte of a file or of memory. -/
abbrev Byte := UInt8

/-- Magic number `ONERA_MAGIC_NUMBER`. -/
def ONERA_MAGIC_NUMBER : Int := 33554433

/-- Length `ONERA_HEADER_LENGTH` of the magic number at the start of the data file. -/
def ONERA_HEADER_LENGTH : Nat := 4

/-- Value of a C `short` that receives the integer `n` (two-complement, 16 bits). -/
def toShort (n : Int) : Int := (n + 32768) % 65536 - 32768

/-- Value of a C `int` that receives the integer `n` (two-complement, 32 bits). -/
def toInt32 (n : Int) : Int := (n + 2147483648) % 4294967296 - 2147483648

/-- Value of a C `unsigned int` that receives the integer `n`. -/
def toUInt32 (n : Int) : Nat := (n % 4294967296).toNat

/-- Unsigned value of a little-endian byte sequence (first byte least significant). -/
def leValue : List Byte → Nat
  | [] => 0
  | b :: bs => b.toNat + 256 * leValue bs

/-- The `k` little-endian bytes of the natural number `v` (low `8*k` bits). -/
def leBytes : Nat → Nat → List Byte
  | 0, _ => []
  | k + 1, v => UInt8.ofNat (v % 256) :: leBytes k (v / 256)

/-- In-memory bytes of a two-complement integer of `k` bytes holding `n`. -/
def intBytes (k : Nat) (n : Int) : List Byte :=
  leBytes k (n % (256 ^ k : Nat)).toNat

/-- Bytes of a string as they are written to a text file. -/
def stringBytes (s : String) : List Byte := s.toUTF8.data.toList

/-- Uninitialised storage: the byte found at each index of a fresh object. -/
abbrev Uninit := Nat → Byte

/-- Bytes of an `n`-byte object whose storage held `junk` before `data` was
stored at its start (a read that obtains fewer than `n` bytes leaves the rest). -/
def stored (junk : Uninit) (n : Nat) (data : List Byte) : List Byte :=
  (List.range n).map (fun i => (data[i]?).getD (junk i))

/-! ## File system -/

/-- File system: contents of each existing file, the paths that can be created
or truncated, and how many times each path has been opened with truncation. -/
structure FileSystem where
  files : String → Option (List Byte)
  writable : String → Bool
  truncations : String → Nat

/-- Bytes `[off, off + n)` of a file, clipped at the end of the file. -/
def readAt (f : List Byte) (off n : Nat) : List Byte := (f.drop off).take n

/-- File after `d` has been written at offset `off`: bytes are overwritten,
the file grows when needed, and a gap past the old end reads as zeros. -/
def writeAt (f : List Byte) (off : Nat) (d : List Byte) : List Byte :=
  if d = [] then f
  else (f ++ List.replicate (off - f.length) 0).take off ++ d ++ f.drop (off + d.length)

/-- File system in which `path` holds `c`. -/
def FileSystem.store (fs : FileSystem) (path : String) (c : List Byte) : FileSystem :=
  { fs with files := fun p => if p = path then some c else fs.files p }

/-- File system after `path` was opened with truncation. -/
def FileSystem.truncate (fs : FileSystem) (path : String) : FileSystem :=
  { files := fun p => if p = path then some [] else fs.files p
    writable := fs.writable
    truncations := fun p => if p = path then fs.truncations p + 1 else fs.truncations p }

/-- Contents of `path`, empty when there is no such file. -/
def FileSystem.contents (fs : FileSystem) (path : String) : List Byte :=
  (fs.files path).getD []

/-! ## File streams -/

/-- Open modes used by the codec: `ios::in`, and `ios::out | ios::trunc | ios::binary`. -/
inductive OpenMode where
  | input
  | output
  deriving DecidableEq, Repr

/-- A `std::fstream`: the file it is open on (if any), the joint file position,
the error state (`failbit` stands for failbit or badbit) and `gcount`. -/
structure FStream where
  file : Option (String × OpenMode)
  pos : Nat
  failbit : Bool
  eofbit : Bool
  gcount : Nat

/-- A default-constructed stream: closed, no error. -/
def FStream.closed : FStream :=
  { file := none, pos := 0, failbit := false, eofbit := false, gcount := 0 }

/-- Member `is_open()`. -/
def FStream.is_open (s : FStream) : Bool := s.file.isSome

/-- Member `fail()`. -/
def FStream.fail (s : FStream) : Bool := s.failbit

/-- Member `good()`. -/
def FStream.good (s : FStream) : Bool := !s.failbit && !s.eofbit

/-- Member `close()`: closing a stream that is not open sets failbit. -/
def FStream.close (s : FStream) : FStream :=
  match s.file with
  | none => { s with failbit := true }
  | some _ => { s with file := none }

/-- Member `open(path, mode)`: fails when the stream is already open, when a
file to read does not exist, or when a file to write cannot be created; on
success the error state is cleared and the position is the start of the file. -/
def FStream.open (fs : FileSystem) (s : FStream) (path : String) (mode : OpenMode) :
    FileSystem × FStream :=
  match s.file with
  | some _ => (fs, { s with failbit := true })
  | none =>
    match mode with
    | OpenMode.input =>
      match fs.files path with
      | none => (fs, { s with failbit := true })
      | some _ =>
        (fs, { s with file := some (path, OpenMode.input), pos := 0, failbit := false, eofbit := false })
    | OpenMode.output =>
      if fs.writable path then
        (fs.truncate path,
          { s with file := some (path, OpenMode.output), pos := 0, failbit := false, eofbit := false })
      else (fs, { s with failbit := true })

/-- Member `seekg(off, ios::beg)`: clears eofbit; does nothing more on a failed
stream; fails on a closed stream or a negative offset. -/
def FStream.seekg (s : FStream) (off : Int) : FStream :=
  let s1 := { s with eofbit := false }
  if s1.failbit then s1
  else if s1.file.isNone || decide (off < 0) then { s1 with failbit := true }
  else { s1 with pos := off.toNat }

/-- Member `seekg(0, ios::end)`. -/
def FStream.seekgEnd (fs : FileSystem) (s : FStream) : FStream :=
  let s1 := { s with eofbit := false }
  if s1.failbit then s1
  else
    match s1.file with
    | none => { s1 with failbit := true }
    | some (p, _) => { s1 with pos := (fs.contents p).length }

/-- Member `tellg()`: `-1` on a failed or closed stream. -/
def FStream.tellg (s : FStream) : Int :=
  if s.failbit || s.file.isNone then -1 else (s.pos : Int)

/-- Member `read(buf, n)`: the bytes obtained. Nothing is read from a stream
that is not good or not open for input; obtaining fewer than `n` bytes sets
eofbit and failbit. `gcount` is the number of bytes obtained. -/
def FStream.read (fs : FileSystem) (s : FStream) (n : Nat) : FStream × List Byte :=
  if !s.good then ({ s with failbit := true, gcount := 0 }, [])
  else
    let data :=
      match s.file with
      | some (p, OpenMode.input) => readAt (fs.contents p) s.pos n
      | _ => []
    let s1 := { s with pos := s.pos + data.length, gcount := data.length }
    if data.length = n then (s1, data)
    else ({ s1 with failbit := true, eofbit := true }, data)

/-- Member `write(buf, n)` with the `n` bytes `d`: nothing is written through a
stream that is not good; writing through a stream not open for output fails.
The file system receives the bytes at once: it holds the contents of the file
as they are once the stream is flushed. -/
def FStream.write (fs : FileSystem) (s : FStream) (d : List Byte) : FileSystem × FStream :=
  if !s.good then (fs, { s with failbit := true })
  else if d = [] then (fs, s)
  else
    match s.file with
    | some (p, OpenMode.output) =>
      (fs.store p (writeAt (fs.contents p) s.pos d), { s with pos := s.pos + d.length })
    | _ => (fs, { s with failbit := true })

/-- Formatted output `stream << text` of a string. -/
def FStream.put (fs : FileSystem) (s : FStream) (text : String) : FileSystem × FStream :=
  FStream.write fs s (stringBytes text)

/-- Character extraction of `getline`: with room for `room` more characters,
gives the characters stored, the number of bytes consumed, whether the end of
the file was met and whether the room ran out before a line end. -/
def getlineScan : Nat → List Byte → List Byte × Nat × Bool × Bool
  | _, [] => ([], 0, true, false)
  | room, c :: cs =>
    if c = 10 then ([], 1, false, false)
    else
      match room with
      | 0 => ([], 0, false, true)
      | r + 1 =>
        let res := getlineScan r cs
        (c :: res.1, res.2.1 + 1, res.2.2.1, res.2.2.2)

/-- Member `getline(buf, n)` for `n > 0`: the characters stored in `buf` before
its terminating NUL. A stream that is not good yields the empty string. Failbit
is set when no byte was consumed or the line did not fit. -/
def FStream.getline (fs : FileSystem) (s : FStream) (n : Nat) : FStream × List Byte :=
  if !s.good then ({ s with failbit := true, gcount := 0 }, [])
  else
    let inputBytes :=
      match s.file with
      | some (p, OpenMode.input) => (fs.contents p).drop s.pos
      | _ => []
    let res := getlineScan (n - 1) inputBytes
    ({ s with pos := s.pos + res.2.1, gcount := res.2.1, eofbit := res.2.2.1,
              failbit := res.2.2.2 || decide (res.2.1 = 0) }, res.1)

/-- The `std::string` built from a NUL-terminated character buffer. -/
def cString (buf : List Byte) : List Byte := buf.takeWhile (fun b => b != 0)

/-! ## The codec instance -/

/-- Pixel kinds of the image IO base class that the codec distinguishes. -/
inductive IOPixelType where
  | UNKNOWNPIXELTYPE
  | SCALAR
  | COMPLEX
  deriving DecidableEq, Repr

/-- Component kinds of the image IO base class that the codec distinguishes. -/
inductive IOComponentType where
  | UNKNOWNCOMPONENTTYPE
  | SHORT
  | FLOAT
  | DOUBLE
  deriving DecidableEq, Repr

/-- The region of one transfer (`GetIORegion()`): `index0`, `size0` are the first
column and the number of columns, `index1`, `size1` the first row and the number
of rows. -/
structure ImageIORegion where
  index0 : Nat
  index1 : Nat
  size0 : Nat
  size1 : Nat
  deriving DecidableEq, Repr

/-- Members of one codec instance. `m_Dimensions0`, `m_Dimensions1`,
`m_NumberOfComponents`, `m_FileName` and `m_IORegion` belong to the base class
and are set by the caller. -/
structure ONERAImageIO where
  m_FileName : String
  m_Dimensions0 : Nat
  m_Dimensions1 : Nat
  m_NumberOfComponents : Nat
  m_PixelType : IOPixelType
  m_ComponentType : IOComponentType
  m_IORegion : ImageIORegion
  m_NbOctetPixel : Nat
  m_width : Int
  m_height : Int
  m_FlagWriteImageInformation : Bool
  m_Datafile : FStream
  m_Headerfile : FStream

/-- A codec instance together with the file system it works on. -/
structure World where
  fs : FileSystem
  codec : ONERAImageIO

/-- Outcomes other than a normal return. The first four are the exceptions
raised with the messages "Cannot read requested file" (an I/O error), "data
format not supported by OTB" and "Unknown image dimension" (format errors), and
"Can Read the specified Region" (the short-read error). `badAlloc` is the
failure of `new char[n]` for a negative `n`; `divisionByZero` is an integer
division by zero, which has no defined behaviour. -/
inductive Failure where
  | cannotReadRequestedFile
  | dataFormatNotSupported
  | unknownImageDimension
  | cannotReadRegion
  | badAlloc
  | divisionByZero
  deriving DecidableEq, Repr

/-- Constructor `ONERAImageIO::ONERAImageIO()`. It does not initialise `m_width`
and `m_height`, whose initial values `width0`, `height0` are arbitrary. The
base-class members start empty (one component, no dimensions, no file name). -/
def construct (width0 height0 : Int) : ONERAImageIO :=
  { m_FileName := ""
    m_Dimensions0 := 0
    m_Dimensions1 := 0
    m_NumberOfComponents := 1
    m_PixelType := IOPixelType.COMPLEX
    m_ComponentType := IOComponentType.FLOAT
    m_IORegion := { index0 := 0, index1 := 0, size0 := 0, size1 := 0 }
    m_NbOctetPixel := 4
    m_width := width0
    m_height := height0
    m_FlagWriteImageInformation := true
    m_Datafile := FStream.closed
    m_Headerfile := FStream.closed }

/-- Destructor `ONERAImageIO::~ONERAImageIO()`: each of the two streams is closed
when it is open, which flushes the bytes it still holds. -/
def destructor (w : World) : World :=
  let df := if w.codec.m_Datafile.is_open then w.codec.m_Datafile.close else w.codec.m_Datafile
  let hf := if w.codec.m_Headerfile.is_open then w.codec.m_Headerfile.close
    else w.codec.m_Headerfile
  { fs := w.fs, codec := { w.codec with m_Datafile := df, m_Headerfile := hf } }

/-- `ByteSwapper<float>::SwapRangeFromSystemToLittleEndian(p, n)` on the `n`
floats at `p`: the identity on a little-endian host. -/
def SwapRangeFromSystemToLittleEndian (p : List Byte) (_n : Nat) : List Byte := p

section Codec

variable (GetRootName : String → String)

/-- `ONERAImageIO::OpenOneraDataFileForReading`. The test `filename == ""`
compares addresses and never holds. -/
def OpenOneraDataFileForReading (filename : String) (w : World) : Bool × World :=
  let df := if w.codec.m_Datafile.is_open then w.codec.m_Datafile.close else w.codec.m_Datafile
  let DataFileName := GetRootName filename ++ ".dat"
  let r := FStream.open w.fs df DataFileName OpenMode.input
  let w1 : World := { fs := r.1, codec := { w.codec with m_Datafile := r.2 } }
  if r.2.fail then (false, w1) else (true, w1)

/-- `ONERAImageIO::OpenOneraHeaderFileForReading`. -/
def OpenOneraHeaderFileForReading (filename : String) (w : World) : Bool × World :=
  let hf := if w.codec.m_Headerfile.is_open then w.codec.m_Headerfile.close else w.codec.m_Headerfile
  let HeaderFileName := GetRootName filename ++ ".ent"
  let r := FStream.open w.fs hf HeaderFileName OpenMode.input
  let w1 : World := { fs := r.1, codec := { w.codec with m_Headerfile := r.2 } }
  if r.2.fail then (false, w1) else (true, w1)

/-- `ONERAImageIO::OpenOneraDataFileForWriting`. -/
def OpenOneraDataFileForWriting (filename : String) (w : World) : Bool × World :=
  let df := if w.codec.m_Datafile.is_open then w.codec.m_Datafile.close else w.codec.m_Datafile
  let DataFileName := GetRootName filename ++ ".dat"
  let r := FStream.open w.fs df DataFileName OpenMode.output
  let w1 : World := { fs := r.1, codec := { w.codec with m_Datafile := r.2 } }
  if r.2.fail then (false, w1) else (true, w1)

/-- `ONERAImageIO::OpenOneraHeaderFileForWriting`. -/
def OpenOneraHeaderFileForWriting (filename : String) (w : World) : Bool × World :=
  let hf := if w.codec.m_Headerfile.is_open then w.codec.m_Headerfile.close else w.codec.m_Headerfile
  let HeaderFileName := GetRootName filename ++ ".ent"
  let r := FStream.open w.fs hf HeaderFileName OpenMode.output
  let w1 : World := { fs := r.1, codec := { w.codec with m_Headerfile := r.2 } }
  if r.2.fail then (false, w1) else (true, w1)

/-- `ONERAImageIO::CanReadFile`. The local `magicNumber` is not initialised:
`magicNumber0` is what its four bytes hold before the read. -/
def CanReadFile (magicNumber0 : Uninit) (FileNameToRead : String) (w : World) : Bool × World :=
  let filename := FileNameToRead
  let df := if w.codec.m_Datafile.is_open then w.codec.m_Datafile.close else w.codec.m_Datafile
  let hf := if w.codec.m_Headerfile.is_open then w.codec.m_Headerfile.close else w.codec.m_Headerfile
  let HeaderFileName := GetRootName filename ++ ".ent"
  let DataFileName := GetRootName filename ++ ".dat"
  let rh := FStream.open w.fs hf HeaderFileName OpenMode.input
  if rh.2.fail then
    (false, { fs := rh.1, codec := { w.codec with m_Datafile := df, m_Headerfile := rh.2 } })
  else
    let rd := FStream.open rh.1 df DataFileName OpenMode.input
    if rd.2.fail then
      (false, { fs := rd.1, codec := { w.codec with m_Datafile := rd.2, m_Headerfile := rh.2 } })
    else
      let df1 := rd.2.seekg 0
      let rr := df1.read rd.1 4
      let magicNumber := toInt32 (leValue (stored magicNumber0 4 rr.2))
      let hf2 := rh.2.close
      let df2 := rr.1.close
      (decide (magicNumber = ONERA_MAGIC_NUMBER),
        { fs := rd.1, codec := { w.codec with m_Datafile := df2, m_Headerfile := hf2 } })

/-- The row loop of `ONERAImageIO::Read`, for the `count` rows from `LineNo` on:
seek to the row, read `numberOfBytesToBeRead` bytes, raise the short-read error
when fewer were obtained, else append them to the output. -/
def ReadLines (fs : FileSystem) (headerLength numberOfBytesPerLines : Int)
    (NbOctetPixel lPremiereColonne numberOfBytesToBeRead : Nat) :
    Nat → Nat → FStream → Except Failure (FStream × List Byte)
  | 0, _, df => Except.ok (df, [])
  | count + 1, LineNo, df =>
    let offset : Int := headerLength + numberOfBytesPerLines * (LineNo : Int)
    let offset1 : Int := offset + ((NbOctetPixel * lPremiereColonne : Nat) : Int)
    let df1 := df.seekg offset1
    let rr := df1.read fs numberOfBytesToBeRead
    let numberOfBytesRead := rr.1.gcount
    if numberOfBytesRead ≠ numberOfBytesToBeRead then Except.error Failure.cannotReadRegion
    else
      (ReadLines fs headerLength numberOfBytesPerLines NbOctetPixel lPremiereColonne
          numberOfBytesToBeRead count (LineNo + 1) rr.1).map (fun r => (r.1, rr.2 ++ r.2))

/-- `ONERAImageIO::Read`: the bytes stored in the caller buffer. An exception
raised by the row loop propagates. -/
def Read (w : World) : Except Failure (List Byte × World) :=
  let lNbLignes := w.codec.m_IORegion.size1
  let lNbColonnes := w.codec.m_IORegion.size0
  let lPremiereLigne := w.codec.m_IORegion.index1
  let lPremiereColonne := w.codec.m_IORegion.index0
  let r := OpenOneraDataFileForReading GetRootName w.codec.m_FileName w
  if !r.1 then Except.error Failure.cannotReadRequestedFile
  else
    let w1 := r.2
    let numberOfBytesPerLines : Int := 2 * w1.codec.m_width * (w1.codec.m_NbOctetPixel : Int)
    let headerLength : Int := (ONERA_HEADER_LENGTH : Int) + numberOfBytesPerLines
    let numberOfBytesToBeRead : Nat := 2 * w1.codec.m_NbOctetPixel * lNbColonnes
    (ReadLines w1.fs headerLength numberOfBytesPerLines w1.codec.m_NbOctetPixel
        lPremiereColonne numberOfBytesToBeRead lNbLignes lPremiereLigne w1.codec.m_Datafile).map
      (fun r =>
        let p := r.2
        let cpt := p.length
        let buffer :=
          if w1.codec.m_ComponentType = IOComponentType.FLOAT then
            SwapRangeFromSystemToLittleEndian p cpt
          else p
        (buffer, { fs := w1.fs, codec := { w1.codec with m_Datafile := r.1 } }))

/-- The call `SwapRangeFromSystemToLittleEndian(buffer, cpt)` that ends
`ONERAImageIO::Read`: the element count it receives, when the row loop has
completed and the component type is `FLOAT` (there is no call otherwise). The
counter `cpt` is advanced by `2 * m_NbOctetPixel` with each `memcpy` of as many
bytes, so it holds the number of bytes copied into the caller buffer. -/
def ReadSwapCount (w : World) : Except Failure (Option Nat) :=
  let lNbLignes := w.codec.m_IORegion.size1
  let lNbColonnes := w.codec.m_IORegion.size0
  let lPremiereLigne := w.codec.m_IORegion.index1
  let lPremiereColonne := w.codec.m_IORegion.index0
  let r := OpenOneraDataFileForReading GetRootName w.codec.m_FileName w
  if !r.1 then Except.error Failure.cannotReadRequestedFile
  else
    let w1 := r.2
    let numberOfBytesPerLines : Int := 2 * w1.codec.m_width * (w1.codec.m_NbOctetPixel : Int)
    let headerLength : Int := (ONERA_HEADER_LENGTH : Int) + numberOfBytesPerLines
    let numberOfBytesToBeRead : Nat := 2 * w1.codec.m_NbOctetPixel * lNbColonnes
    (ReadLines w1.fs headerLength numberOfBytesPerLines w1.codec.m_NbOctetPixel
        lPremiereColonne numberOfBytesToBeRead lNbLignes lPremiereLigne w1.codec.m_Datafile).map
      (fun r =>
        let p := r.2
        let cpt := p.length
        if w1.codec.m_ComponentType = IOComponentType.FLOAT then some cpt else none)

/-- `ONERAImageIO::InternalReadImageInformation`. The header stream is the one
the instance holds: the function opens the data file twice and never the header
file. The local `NbCol` is not initialised: `NbCol0` is what its two bytes hold
before the read. The magic number is read and not looked at. -/
def InternalReadImageInformation (NbCol0 : Uninit) (w : World) : Except Failure World :=
  let r1 := OpenOneraDataFileForReading GetRootName w.codec.m_FileName w
  if !r1.1 then Except.error Failure.cannotReadRequestedFile
  else
    let r2 := OpenOneraDataFileForReading GetRootName r1.2.codec.m_FileName r1.2
    if !r2.1 then Except.error Failure.cannotReadRequestedFile
    else
      let w2 := r2.2
      let g1 := w2.codec.m_Headerfile.getline w2.fs 1024
      let g2 := g1.1.getline w2.fs 1024
      let g3 := g2.1.getline w2.fs 1024
      let sPixelType := cString g3.2
      if sPixelType ≠ stringBytes "cmplx_real_4" then
        let df1 := w2.codec.m_Datafile.seekg 0
        let rm := df1.read w2.fs 4
        let df2 := rm.1.seekg ((ONERA_HEADER_LENGTH : Int) + 2)
        let rc := df2.read w2.fs 2
        let NbCol : Int := toShort (leValue (stored NbCol0 2 rc.2))
        let df3 := rc.1.seekgEnd w2.fs
        let gcountHead : Int := (ONERA_HEADER_LENGTH : Int) + 2 * 4 * NbCol
        let gcount : Int := df3.tellg
        let m_width : Int := NbCol
        if 4 * 2 * NbCol = 0 then Except.error Failure.divisionByZero
        else
          let m_height : Int := Int.tdiv (gcount - gcountHead) (4 * 2 * NbCol)
          if m_width = 0 ∨ m_height = 0 then Except.error Failure.unknownImageDimension
          else
            Except.ok
              { fs := w2.fs
                codec :=
                  { w2.codec with
                    m_NumberOfComponents := 2
                    m_PixelType := IOPixelType.COMPLEX
                    m_ComponentType := IOComponentType.FLOAT
                    m_NbOctetPixel := 4
                    m_width := m_width
                    m_height := m_height
                    m_Dimensions0 := toUInt32 m_width
                    m_Dimensions1 := toUInt32 m_height
                    m_Headerfile := g3.1
                    m_Datafile := df3 } }
      else Except.error Failure.dataFormatNotSupported

/-- `ONERAImageIO::ReadImageInformation`. -/
def ReadImageInformation (NbCol0 : Uninit) (w : World) : Except Failure World :=
  InternalReadImageInformation GetRootName NbCol0 w

/-- `ONERAImageIO::CanWriteFile`. The body uses no member of the instance and
no stream: the instance and the file system are handed back as they came. -/
def CanWriteFile (FileNameToWrite : String) (w : World) : Bool × World :=
  let filename := FileNameToWrite
  let HeaderFileName := GetRootName filename ++ ".ent"
  if filename = HeaderFileName then (true, w) else (false, w)

/-- The loop of `WriteImageInformation` that writes the row buffer `tab`
`count` times at the current position. -/
def WriteTab (tab : List Byte) : Nat → FileSystem × FStream → FileSystem × FStream
  | 0, st => st
  | count + 1, st => WriteTab tab count (FStream.write st.1 st.2 tab)

/-- Successive formatted outputs `stream << text` of the given texts. -/
def PutAll (texts : List String) (st : FileSystem × FStream) : FileSystem × FStream :=
  texts.foldl (fun acc t => FStream.put acc.1 acc.2 t) st

/-- The lines that `WriteImageInformation` sends to the header file before it
checks the pixel format. -/
def headerTextHead (DataFileName : String) : List String :=
  [ "#                    [fichier en-tete produit par les routines de otb (Orfeo ToolBox) ]\n",
    "# Nom du look :\n",
    "Look.dat= \t" ++ DataFileName ++ "\n",
    "\n",
    "# Structure du fichier et codage des pixels :\n",
    "# 4 octets precedent la premiere ligne : ils correspondent a un nombre magique [I4= 33554433] \n",
    "# [dans ordre LSBfirst = big-endian]\n" ]

/-- The lines that `WriteImageInformation` sends to the header file after the
check of the pixel format. -/
def headerTextTail (sPixelType : String) (dimension0 dimension1 : Nat) : List String :=
  [ "Format_valeurs_look=    \t" ++ sPixelType ++ "\n",
    "Nb_case_par_ligne_look= \t" ++ toString dimension0 ++ "\n",
    "Nb_ligne_look=          \t" ++ toString dimension1 ++
      " + 1 ligne en-tete en binaire (entiers 16 bit) \n" ]

/-- The part of `WriteImageInformation` that fills the data file: the magic
number at offset 0, then `NbRow + 1` copies of the row buffer `tab` of
`ByteSizeCol` bytes, then the column count at offset `ONERA_HEADER_LENGTH + 2`.
The row buffer is allocated and not initialised: `tab0` is what it holds. -/
def WriteDataHeader (tab0 : Uninit) (dimension0 dimension1 : Nat) (fs : FileSystem)
    (m_Datafile : FStream) : Except Failure (FileSystem × FStream) :=
  let magicNumber : Int := ONERA_MAGIC_NUMBER
  let NbCol : Int := toShort (dimension0 : Int)
  let NbRow : Int := toShort (dimension1 : Int)
  let ByteSizeCol : Int := NbCol * 4 * 2
  let df1 := m_Datafile.seekg 0
  let d1 := FStream.write fs df1 (intBytes 4 magicNumber)
  if ByteSizeCol < 0 then Except.error Failure.badAlloc
  else
    let tab := stored tab0 ByteSizeCol.toNat []
    let d2 := WriteTab tab (NbRow + 1).toNat d1
    let df3 := d2.2.seekg ((ONERA_HEADER_LENGTH : Int) + 2)
    Except.ok (FStream.write d2.1 df3 (intBytes 2 NbCol))

/-- `ONERAImageIO::WriteImageInformation`: both files are opened with
truncation, the text header is written, then the data file is filled by
`WriteDataHeader`. -/
def WriteImageInformation (tab0 : Uninit) (w : World) : Except Failure World :=
  let rh := OpenOneraHeaderFileForWriting GetRootName w.codec.m_FileName w
  if !rh.1 then Except.error Failure.cannotReadRequestedFile
  else
    let rd := OpenOneraDataFileForWriting GetRootName rh.2.codec.m_FileName rh.2
    if !rd.1 then Except.error Failure.cannotReadRequestedFile
    else
      let w1 := rd.2
      let DataFileName := GetRootName w1.codec.m_FileName ++ ".dat"
      let h1 := PutAll (headerTextHead DataFileName) (w1.fs, w1.codec.m_Headerfile)
      if w1.codec.m_PixelType = IOPixelType.COMPLEX ∧
          w1.codec.m_ComponentType = IOComponentType.FLOAT then
        let sPixelType := "cmplx_real_4"
        let h2 := PutAll (headerTextTail sPixelType w1.codec.m_Dimensions0 w1.codec.m_Dimensions1) h1
        (WriteDataHeader tab0 w1.codec.m_Dimensions0 w1.codec.m_Dimensions1 h2.1
            w1.codec.m_Datafile).map
          (fun d3 =>
            { fs := d3.1, codec := { w1.codec with m_Headerfile := h2.2, m_Datafile := d3.2 } })
      else Except.error Failure.dataFormatNotSupported

/-- The row loop of `ONERAImageIO::Write`: row `i` of the region (line
`lPremiereLigne + i` of the image) is taken at `numberOfBytesPerLines * i` in
the scratch copy and written after a seek to its offset. -/
def WriteLines (headerLength numberOfBytesPerLines NbOctetPixel lPremiereLigne
    lPremiereColonne : Nat) (tempmemory : List Byte) (lNbLignes : Nat)
    (st : FileSystem × FStream) : FileSystem × FStream :=
  (List.range lNbLignes).foldl
    (fun acc i =>
      let LineNo := lPremiereLigne + i
      let value := (tempmemory.drop (numberOfBytesPerLines * (LineNo - lPremiereLigne))).take
        numberOfBytesPerLines
      let offset := headerLength + numberOfBytesPerLines * LineNo
      let offset1 := offset + NbOctetPixel * lPremiereColonne
      FStream.write acc.1 (acc.2.seekg (offset1 : Nat)) value)
    st

/-- The part of `ONERAImageIO::Write` that follows the header gate. -/
def WriteBody (buffer : List Byte) (w : World) : World :=
  let step := w.codec.m_NumberOfComponents
  let numberOfComponents := w.codec.m_Dimensions0 * w.codec.m_Dimensions1 * w.codec.m_NumberOfComponents
  let lNbLignes := w.codec.m_IORegion.size1
  let lNbColonnes := w.codec.m_IORegion.size0
  let full := decide (lNbLignes = w.codec.m_Dimensions1) && decide (lNbColonnes = w.codec.m_Dimensions0)
  let lPremiereLigne := if full then 0 else w.codec.m_IORegion.index1
  let lPremiereColonne := if full then 0 else w.codec.m_IORegion.index0
  let numberOfBytesPerLines := step * lNbColonnes * w.codec.m_NbOctetPixel
  let headerLength := ONERA_HEADER_LENGTH + numberOfBytesPerLines
  let numberOfBytesRegion := step * w.codec.m_NbOctetPixel * lNbColonnes * lNbLignes
  let tempmemory0 := buffer.take numberOfBytesRegion
  let tempmemory :=
    if w.codec.m_ComponentType = IOComponentType.FLOAT then
      SwapRangeFromSystemToLittleEndian tempmemory0 numberOfComponents
    else tempmemory0
  let r := WriteLines headerLength numberOfBytesPerLines w.codec.m_NbOctetPixel lPremiereLigne
    lPremiereColonne tempmemory lNbLignes (w.fs, w.codec.m_Datafile)
  { fs := r.1, codec := { w.codec with m_Datafile := r.2 } }

/-- `ONERAImageIO::Write`: the header is written first when the flag
`m_FlagWriteImageInformation` is still set, and the flag is then cleared. -/
def Write (tab0 : Uninit) (buffer : List Byte) (w : World) : Except Failure World :=
  if w.codec.m_FlagWriteImageInformation = true then
    (WriteImageInformation GetRootName tab0 w).map
      (fun w1 =>
        WriteBody buffer
          { fs := w1.fs, codec := { w1.codec with m_FlagWriteImageInformation := false } })
  else Except.ok (WriteBody buffer w)

/-- The base-class setter `SetIORegion`: the caller sets the region of the next
transfer. -/
def SetIORegion (region : ImageIORegion) (w : World) : World :=
  { fs := w.fs, codec := { w.codec with m_IORegion := region } }

/-- A sequence of `Write` calls on one instance. Before each call the caller
sets the region of the transfer; the call gets its own buffer (and its own
uninitialised row buffer, should it write the header). An exception ends the
sequence. -/
def WriteAll : List (Uninit × ImageIORegion × List Byte) → World → Except Failure World
  | [], w => Except.ok w
  | call :: rest, w =>
    (Write GetRootName call.1 call.2.2 (SetIORegion call.2.1 w)).bind (WriteAll rest)

end Codec

/-! ## Auxiliary definitions of the verification -/

/-- The stream is open on `p` in mode `m` and no error bit is set. -/
def FStream.goodOn (s : FStream) (p : String) (m : OpenMode) : Prop :=
  s.file = some (p, m) ∧ s.failbit = false ∧ s.eofbit = false

/-- Same file system apart from the contents of `p`. -/
def FileSystem.sameOff (fs fs' : FileSystem) (p : String) : Prop :=
  (∀ q, q ≠ p → fs'.files q = fs.files q) ∧ fs'.writable = fs.writable ∧
    fs'.truncations = fs.truncations

/-- Contents of the data file right after `WriteImageInformation` for the
dimensions `d0` x `d1`, with `tab0` the uninitialised contents of the row buffer. -/
def dataHeader (tab0 : Uninit) (d0 d1 : Nat) : List Byte :=
  writeAt
    (intBytes 4 ONERA_MAGIC_NUMBER ++
      (List.replicate (toShort (d1 : Int) + 1).toNat
        (stored tab0 (toShort (d0 : Int) * 4 * 2).toNat [])).flatten)
    6 (intBytes 2 (toShort (d0 : Int)))

/-- Data file `F` after the row loop of `Write` has written the first `k` rows
of the scratch copy `temp`: row `i` goes to offset
`headerLength + nbpl * (first + i) + off0`. -/
def writeRows (headerLength nbpl off0 first : Nat) (temp : List Byte) :
    Nat → List Byte → List Byte
  | 0, F => F
  | k + 1, F =>
    writeAt (writeRows headerLength nbpl off0 first temp k F)
      (headerLength + nbpl * (first + k) + off0) ((temp.drop (nbpl * k)).take nbpl)

/-- Data file produced from `F` by the part of `Write` that follows the header
gate, for the instance `c` and the caller buffer `buffer`. -/
def bodyFile (buffer : List Byte) (c : ONERAImageIO) (F : List Byte) : List Byte :=
  let full := decide (c.m_IORegion.size1 = c.m_Dimensions1) &&
    decide (c.m_IORegion.size0 = c.m_Dimensions0)
  let nbpl := c.m_NumberOfComponents * c.m_IORegion.size0 * c.m_NbOctetPixel
  writeRows (ONERA_HEADER_LENGTH + nbpl) nbpl
    (c.m_NbOctetPixel * (if full then 0 else c.m_IORegion.index0))
    (if full then 0 else c.m_IORegion.index1)
    (buffer.take (c.m_NumberOfComponents * c.m_NbOctetPixel * c.m_IORegion.size0 *
      c.m_IORegion.size1))
    c.m_IORegion.size1 F

/-- Offset of line `LineNo` as the row loop of `Read` computes it. -/
def rowOffset (headerLength nbpl : Int) (nb col LineNo : Nat) : Int :=
  headerLength + nbpl * (LineNo : Int) + ((nb * col : Nat) : Int)

/-- The pieces of `n` bytes found at the offsets of the `count` lines from
`LineNo` on, one after the other. -/
def regionBytes (F : List Byte) (headerLength nbpl : Int) (nb col n : Nat) :
    Nat → Nat → List Byte
  | 0, _ => []
  | count + 1, LineNo =>
    readAt F (rowOffset headerLength nbpl nb col LineNo).toNat n ++
      regionBytes F headerLength nbpl nb col n count (LineNo + 1)

/-- The string that `InternalReadImageInformation` compares with the pixel
format token: what the third `getline` on the header stream stores. -/
def headerToken (fs : FileSystem) (hf : FStream) : List Byte :=
  cString (((hf.getline fs 1024).1.getline fs 1024).1.getline fs 1024).2

/-- Result of a successful `InternalReadImageInformation` on `w` that found the
column count `c` and computed the height `h`. -/
def headerRead (w : World) (c h : Int) (hs ds : FStream) : World :=
  { fs := w.fs
    codec :=
      { w.codec with
        m_NumberOfComponents := 2
        m_PixelType := IOPixelType.COMPLEX
        m_ComponentType := IOComponentType.FLOAT
        m_NbOctetPixel := 4
        m_width := c
        m_height := h
        m_Dimensions0 := toUInt32 c
        m_Dimensions1 := toUInt32 h
        m_Headerfile := hs
        m_Datafile := ds } }

/-- The region that covers a whole image of `width` x `height` pixels. -/
def fullExtent (width height : Nat) : ImageIORegion :=
  { index0 := 0, index1 := 0, size0 := width, size1 := height }

/-- A freshly constructed instance that its caller has prepared for writing an
image of `width` x `height` complex pixels to `FileName`: the file name, the
dimensions, the two components per pixel and the region of the next transfer
are set through the base class. -/
def writer (FileName : String) (width height : Nat) (region : ImageIORegion)
    (width0 height0 : Int) : ONERAImageIO :=
  { construct width0 height0 with
    m_FileName := FileName
    m_Dimensions0 := width
    m_Dimensions1 := height
    m_NumberOfComponents := 2
    m_IORegion := region }


/-- A freshly constructed instance whose caller has set the file name. -/
def reader (FileName : String) (width0 height0 : Int) : ONERAImageIO :=
  { construct width0 height0 with m_FileName := FileName }

/-- The exception, if any, that an operation raised. -/
def failureOf {α : Type} : Except Failure α → Option Failure
  | Except.error e => some e
  | Except.ok _ => none

/-- The contents of `path` after an operation, when it returned normally. -/
def fileAfter (r : Except Failure World) (path : String) : Option (List Byte) :=
  match r with
  | Except.error _ => none
  | Except.ok w => w.fs.files path

/-- The geometry `(m_width, m_height)` held by the instance after an operation,
when it returned normally. -/
def geometryAfter (r : Except Failure World) : Option (Int × Int) :=
  match r with
  | Except.error _ => none
  | Except.ok w => some (w.codec.m_width, w.codec.m_height)

/-- Write a whole image with a fresh instance, read its header with another
fresh instance, then read `region` with that instance: the bytes obtained. -/
def writeThenRead (GetRootName : String → String) (junk : Uninit) (fs : FileSystem)
    (FileName : String) (width height : Nat) (buffer : List Byte) (region : ImageIORegion) :
    Except Failure (List Byte) :=
  match Write GetRootName junk buffer
      { fs := fs, codec := writer FileName width height (fullExtent width height) 0 0 } with
  | Except.error e => Except.error e
  | Except.ok w2 =>
    match ReadImageInformation GetRootName junk { fs := w2.fs, codec := reader FileName 0 0 } with
    | Except.error e => Except.error e
    | Except.ok w3 => (Read GetRootName (SetIORegion region w3)).map (fun r => r.1)

/-- The sub-rectangle `region` of a row-major buffer of complex pixels of 8 bytes
for an image `width` pixels wide: pixel `(i, j)` of the result is pixel
`(region.index1 + i, region.index0 + j)` of the buffer. -/
def subRectangle (buffer : List Byte) (width : Nat) (region : ImageIORegion) : List Byte :=
  (List.range region.size1).flatMap (fun i =>
    (buffer.drop (8 * (width * (region.index1 + i) + region.index0))).take (8 * region.size0))

/-! ### Sample data for the examples -/

/-- A root-name function for the examples: the path without its last extension. -/
def rootSample (path : String) : String :=
  if path.data.contains '.' then
    String.mk ((path.data.reverse.dropWhile (fun c => c != '.')).drop 1).reverse
  else path

/-- A disk without files on which every file can be created. -/
def emptyDisk : FileSystem :=
  { files := fun _ => none, writable := fun _ => true, truncations := fun _ => 0 }

/-- Uninitialised storage in which every byte is `0xAA`. -/
def junkAA : Uninit := fun _ => 170

/-- A buffer of `n` bytes `100, 101, ...`. -/
def sampleBuffer (n : Nat) : List Byte := (List.range n).map (fun i => UInt8.ofNat (i + 100))

/-- A well-formed data file for a 2 x 1 image: magic number, a header row of 16
bytes with the column count 2 at offset 6, one pixel row of 16 bytes. -/
def sampleData : List Byte :=
  [1, 0, 0, 2, 0, 0, 2, 0] ++ List.replicate 12 0 ++ sampleBuffer 16

/-- A disk that holds `img.dat` with the contents `data` and a header file
`img.ent` whose third line is `third`. -/
def sampleDisk (third : String) (data : List Byte) : FileSystem :=
  (emptyDisk.store "img.ent" (stringBytes ("# first line\n# second line\n" ++ third ++ "\n"))).store
    "img.dat" data

/-- Number of bytes that a read of `n` bytes obtains from the file `F` after a
seek to the offset `off`: none when the offset is negative (the seek fails and
the read does nothing), else what the file holds from `off` on, up to `n`. -/
def bytesObtained (F : List Byte) (off : Int) (n : Nat) : Nat :=
  if off < 0 then 0 else min n (F.length - off.toNat)

/-- The data file of the 2 x 1 sample image cut down to 30 bytes: the last 6
bytes of its only pixel row are missing. -/
def truncatedData : List Byte := sampleData.take 30

/-- An instance that holds the geometry 2 x 1 and is about to read the full
extent, on a disk where the data file has been truncated. -/
def truncatedWorld : World :=
  { fs := sampleDisk "foo" truncatedData
    codec := { reader "img.ent" 2 1 with m_IORegion := fullExtent 2 1 } }

/-- A data file of 36 bytes whose column-count field (bytes 6 and 7) is 00 80:
the 16-bit value 32768. -/
def wideData : List Byte :=
  [1, 0, 0, 2, 0, 0, 0, 128] ++ List.replicate 12 0 ++ sampleBuffer 16

/-- Whether the header stream and the data stream of the instance are open
after an operation, when it returned normally. -/
def handlesAfter (r : Except Failure World) : Option (Bool × Bool) :=
  match r with
  | Except.error _ => none
  | Except.ok w => some (w.codec.m_Headerfile.is_open, w.codec.m_Datafile.is_open)

/-- The dimensions `(m_Dimensions[0], m_Dimensions[1])` held by the instance
after an operation, when it returned normally. -/
def dimensionsAfter (r : Except Failure World) : Option (Nat × Nat) :=
  match r with
  | Except.error _ => none
  | Except.ok w => some (w.codec.m_Dimensions0, w.codec.m_Dimensions1)

/-- Line `n` (counted from 0) of a text file: the bytes between two line feeds. -/
def nthLine : Nat → List Byte → List Byte
  | 0, bs => bs.takeWhile (fun b => b != 10)
  | n + 1, bs => nthLine n ((bs.dropWhile (fun b => b != 10)).drop 1)

/-- Contents of the header file right after `WriteImageInformation` for the
dimensions `d0` x `d1`: the ten lines of text, one after the other. -/
def headerFile (DataFileName : String) (d0 d1 : Nat) : List Byte :=
  ((headerTextHead DataFileName ++ headerTextTail "cmplx_real_4" d0 d1).map stringBytes).flatten

/-- Write `region` of an image with a fresh instance (the header is written
first), read the header with another fresh instance, then read the same
`region` with that instance: the bytes obtained. -/
def writeRegionThenRead (GetRootName : String → String) (junk : Uninit) (fs : FileSystem)
    (FileName : String) (width height : Nat) (buffer : List Byte) (region : ImageIORegion) :
    Except Failure (List Byte) :=
  match Write GetRootName junk buffer
      { fs := fs, codec := writer FileName width height region 0 0 } with
  | Except.error e => Except.error e
  | Except.ok w2 =>
    match ReadImageInformation GetRootName junk { fs := w2.fs, codec := reader FileName 0 0 } with
    | Except.error e => Except.error e
    | Except.ok w3 => (Read GetRootName (SetIORegion region w3)).map (fun r => r.1)

/-- A data file of 36 bytes whose column-count field (bytes 6 and 7) is 00 00. -/
def zeroColumnData : List Byte :=
  [1, 0, 0, 2, 0, 0, 0, 0] ++ List.replicate 28 0

/-- A data file of 20 bytes for 2 columns: the magic number and the binary
header row, and no pixel row after it. -/
def headerOnlyData : List Byte :=
  [1, 0, 0, 2, 0, 0, 2, 0] ++ List.replicate 12 0

/-- A data file of 36 bytes whose column-count field (bytes 6 and 7) is FF FF. -/
def allOnesColumnData : List Byte :=
  [1, 0, 0, 2, 0, 0, 255, 255] ++ List.replicate 28 0

/-- Uninitialised storage that holds the 16-bit value 1 (bytes 01 00 ...). -/
def junkOne : Uninit := fun i => if i = 0 then 1 else 0

/-- The data file of the 2 x 1 sample image with its first four bytes set to
zero: they decode to 0, not to the magic number. -/
def badMagicData : List Byte :=
  [0, 0, 0, 0] ++ sampleData.drop 4

/-- A disk that holds the header file `img.ent` and no data file `img.dat`. -/
def headerOnlyDisk : FileSystem :=
  emptyDisk.store "img.ent" (stringBytes "# first line\n# second line\ncmplx_real_4\n")

/-- A disk that holds the data file `img.dat` and no header file `img.ent`. -/
def dataOnlyDisk : FileSystem :=
  emptyDisk.store "img.dat" sampleData

/-- An instance that holds the geometry 2 x 1 of the sample image and is about
to read column 1 of its only row. -/
def sampleReadWorld : World :=
  { fs := sampleDisk "foo" sampleData
    codec := { reader "img.ent" 2 1 with
      m_IORegion := { index0 := 1, index1 := 0, size0 := 1, size1 := 1 } } }

/-! ### Writing an image strip by strip -/

/-- Consecutive strips of rows: the strips of the heights `ks`, one after the
other from row `start` on, each given by its first row and its number of rows. -/
def stripsFrom : Nat → List Nat → List (Nat × Nat)
  | _, [] => []
  | start, k :: ks => (start, k) :: stripsFrom (start + k) ks

/-- The region of a strip of full width in an image `width` pixels wide. -/
def stripRegion (width : Nat) (s : Nat × Nat) : ImageIORegion :=
  { index0 := 0, index1 := s.1, size0 := width, size1 := s.2 }

/-- The rows of a strip in the row-major buffer of the whole image (8 bytes per
pixel): the buffer that the caller hands to `Write` for that strip. -/
def stripBuffer (width : Nat) (buffer : List Byte) (s : Nat × Nat) : List Byte :=
  readAt buffer (8 * width * s.1) (8 * width * s.2)

/-- One `Write` call per strip, in the order given. -/
def stripCalls (tab0 : Uninit) (width : Nat) (buffer : List Byte) (order : List (Nat × Nat)) :
    List (Uninit × ImageIORegion × List Byte) :=
  order.map (fun s => (tab0, stripRegion width s, stripBuffer width buffer s))

/-- Row `r` of the image buffer is in the data file `F`, at its offset. -/
def RowStored (width : Nat) (buffer F : List Byte) (r : Nat) : Prop :=
  4 + 8 * width * (r + 2) ≤ F.length ∧
    readAt F (4 + 8 * width * (r + 1)) (8 * width) = readAt buffer (8 * width * r) (8 * width)

/-- State of the data file `F` of a `width` x `height` image once the header and
the strips `done` have been written. -/
def StripsWritten (width height : Nat) (buffer F : List Byte) (done : List (Nat × Nat)) : Prop :=
  8 ≤ F.length ∧ readAt F 6 2 = intBytes 2 (toShort (width : Int)) ∧
    F.length ≤ 4 + (height + 1) * (8 * width) ∧
    (height ≤ 32767 → F.length = 4 + (height + 1) * (8 * width)) ∧
    ∀ s ∈ done, ∀ r, s.1 ≤ r → r < s.1 + s.2 → RowStored width buffer F r

/-- Write an image strip by strip with a fresh instance (one `Write` call per
strip of `order`) and destroy that instance, read the header with another fresh
instance, then read the full extent with that instance: the bytes obtained. -/
def writeStripsThenRead (GetRootName : String → String) (junk : Uninit) (fs : FileSystem)
    (FileName : String) (width height : Nat) (buffer : List Byte) (order : List (Nat × Nat)) :
    Except Failure (List Byte) :=
  match WriteAll GetRootName (stripCalls junk width buffer order)
      { fs := fs, codec := writer FileName width height (fullExtent width height) 0 0 } with
  | Except.error e => Except.error e
  | Except.ok w2 =>
    match ReadImageInformation GetRootName junk
        { fs := (destructor w2).fs, codec := reader FileName 0 0 } with
    | Except.error e => Except.error e
    | Except.ok w3 =>
      (Read GetRootName (SetIORegion (fullExtent width height) w3)).map (fun r => r.1)


/-! ## Lemmas -/

section Lemmas

variable (R : String → String)

theorem readAt_length (f : List Byte) (off n : Nat) :
    (readAt f off n).length = min n (f.length - off) := by
  simp [readAt]

theorem getElem?_readAt (f : List Byte) (off n i : Nat) :
    (readAt f off n)[i]? = if i < n then f[off + i]? else none := by
  simp [readAt, List.getElem?_take, List.getElem?_drop]

theorem writeAt_nil (f : List Byte) (off : Nat) : writeAt f off [] = f := by
  simp [writeAt]

theorem getElem?_writeAt (f : List Byte) (off : Nat) (d : List Byte) (hd : d ≠ []) (i : Nat) :
    (writeAt f off d)[i]? =
      if i < off then (if i < f.length then f[i]? else some 0)
      else if i < off + d.length then d[i - off]? else f[i]? := by
  have hlen : ((f ++ List.replicate (off - f.length) (0 : Byte)).take off).length = off := by
    simp; omega
  simp only [writeAt, hd, if_false, List.append_assoc]
  by_cases h1 : i < off
  · rw [List.getElem?_append_left (by omega)]
    simp only [h1, if_true, List.getElem?_take]
    by_cases h2 : i < f.length
    · simp [h2, List.getElem?_append_left]
    · simp only [h2, if_false]
      rw [List.getElem?_append_right (by omega)]
      rw [List.getElem?_replicate]
      simp; omega
  · rw [List.getElem?_append_right (by omega)]
    simp only [h1, if_false, hlen]
    by_cases h3 : i < off + d.length
    · rw [List.getElem?_append_left (by omega)]
      simp [h3]
    · rw [List.getElem?_append_right (by omega)]
      simp only [h3, if_false, List.getElem?_drop]
      congr 1; omega

theorem writeAt_length (f : List Byte) (off : Nat) (d : List Byte) (hd : d ≠ []) :
    (writeAt f off d).length = max f.length (off + d.length) := by
  simp only [writeAt, hd, if_false, List.length_append, List.length_take, List.length_replicate,
    List.length_drop]
  omega

theorem readAt_writeAt_self (f : List Byte) (off : Nat) (d : List Byte) :
    readAt (writeAt f off d) off d.length = d := by
  by_cases hd : d = []
  · subst hd; simp [readAt]
  · apply List.ext_getElem?
    intro i
    rw [getElem?_readAt, getElem?_writeAt f off d hd]
    by_cases hi : i < d.length
    · simp [hi]
    · simp only [hi, if_false]
      rw [List.getElem?_eq_none (by omega)]

theorem readAt_writeAt_before (f : List Byte) (off : Nat) (d : List Byte) (a n : Nat)
    (h1 : a + n ≤ off) (h2 : a + n ≤ f.length) :
    readAt (writeAt f off d) a n = readAt f a n := by
  by_cases hd : d = []
  · subst hd; simp [writeAt]
  · apply List.ext_getElem?
    intro i
    rw [getElem?_readAt, getElem?_readAt, getElem?_writeAt f off d hd]
    by_cases hi : i < n
    · have : a + i < off := by omega
      have : a + i < f.length := by omega
      simp [*]
    · simp [hi]

theorem readAt_writeAt_after (f : List Byte) (off : Nat) (d : List Byte) (a n : Nat)
    (h1 : off + d.length ≤ a) :
    readAt (writeAt f off d) a n = readAt f a n := by
  by_cases hd : d = []
  · subst hd; simp [writeAt]
  · apply List.ext_getElem?
    intro i
    rw [getElem?_readAt, getElem?_readAt, getElem?_writeAt f off d hd]
    by_cases hi : i < n
    · have h3 : ¬ (off + i < off) := by omega
      have h4 : ¬ (a + i < off) := by omega
      have h5 : ¬ (a + i < off + d.length) := by omega
      simp [*]
    · simp [hi]

theorem writeAt_end (f d : List Byte) : writeAt f f.length d = f ++ d := by
  by_cases hd : d = []
  · subst hd; simp [writeAt]
  · simp [writeAt, hd]

theorem FStream.seekg_goodOn {s : FStream} {p : String} {m : OpenMode} (h : s.goodOn p m)
    (n : Nat) : s.seekg (n : Int) = { s with pos := n } := by
  obtain ⟨h1, h2, h3⟩ := h
  cases s
  simp_all [FStream.seekg]

theorem FStream.goodOn_pos {s : FStream} {p : String} {m : OpenMode} (h : s.goodOn p m)
    (n : Nat) : FStream.goodOn { s with pos := n } p m := h

theorem FStream.write_writable (fs : FileSystem) (s : FStream) (d : List Byte) :
    (FStream.write fs s d).1.writable = fs.writable := by
  unfold FStream.write
  split
  · rfl
  · split
    · rfl
    · split <;> rfl

theorem FStream.write_truncations (fs : FileSystem) (s : FStream) (d : List Byte) :
    (FStream.write fs s d).1.truncations = fs.truncations := by
  unfold FStream.write
  split
  · rfl
  · split
    · rfl
    · split <;> rfl

theorem FStream.write_files_other (fs : FileSystem) (s : FStream) (d : List Byte) (q : String)
    (h : ∀ m, s.file ≠ some (q, m)) : (FStream.write fs s d).1.files q = fs.files q := by
  unfold FStream.write
  split
  · rfl
  · split
    · rfl
    · split
      · rename_i p hp
        have : q ≠ p := fun e => h OpenMode.output (e ▸ hp)
        simp [FileSystem.store, this]
      · rfl

theorem FStream.write_snd {s : FStream} {p : String} (h : s.goodOn p OpenMode.output)
    (fs : FileSystem) (d : List Byte) :
    (FStream.write fs s d).2 = { s with pos := s.pos + d.length } := by
  obtain ⟨h1, h2, h3⟩ := h
  cases s
  simp_all [FStream.write, FStream.good]
  split <;> simp_all

theorem FStream.write_files_self {s : FStream} {p : String} (h : s.goodOn p OpenMode.output)
    (fs : FileSystem) (d : List Byte) {c : List Byte} (hc : fs.files p = some c) :
    (FStream.write fs s d).1.files p = some (writeAt c s.pos d) := by
  obtain ⟨h1, h2, h3⟩ := h
  cases s
  simp_all [FStream.write, FStream.good]
  split
  · simp_all [writeAt]
  · simp [FileSystem.store, FileSystem.contents, hc]

theorem FileSystem.sameOff_refl (fs : FileSystem) (p : String) : fs.sameOff fs p :=
  ⟨fun _ _ => rfl, rfl, rfl⟩

theorem FileSystem.sameOff_trans {a b c : FileSystem} {p : String} (h1 : a.sameOff b p)
    (h2 : b.sameOff c p) : a.sameOff c p :=
  ⟨fun q hq => (h2.1 q hq).trans (h1.1 q hq), h2.2.1.trans h1.2.1, h2.2.2.trans h1.2.2⟩

theorem FStream.write_sameOff {s : FStream} {p : String} {m : OpenMode} (h : s.goodOn p m)
    (fs : FileSystem) (d : List Byte) : fs.sameOff (FStream.write fs s d).1 p := by
  refine ⟨fun q hq => ?_, FStream.write_writable fs s d, FStream.write_truncations fs s d⟩
  apply FStream.write_files_other
  intro m' e
  rw [h.1] at e
  simp only [Option.some.injEq, Prod.mk.injEq] at e
  exact hq e.1.symm

theorem FStream.write_goodOn {s : FStream} {p : String} (h : s.goodOn p OpenMode.output)
    (fs : FileSystem) (d : List Byte) : (FStream.write fs s d).2.goodOn p OpenMode.output := by
  rw [FStream.write_snd h]
  exact h

theorem PutAll_spec (p : String) (texts : List String) :
    ∀ st : FileSystem × FStream, st.2.goodOn p OpenMode.output →
      (PutAll texts st).2.goodOn p OpenMode.output ∧ st.1.sameOff (PutAll texts st).1 p := by
  induction texts with
  | nil => intro st h; exact ⟨h, FileSystem.sameOff_refl _ _⟩
  | cons t ts ih =>
    intro st h
    have h1 := FStream.write_goodOn h st.1 (stringBytes t)
    have h2 := FStream.write_sameOff h st.1 (stringBytes t)
    have := ih (FStream.put st.1 st.2 t) h1
    simp only [PutAll, List.foldl_cons] at this ⊢
    exact ⟨this.1, FileSystem.sameOff_trans h2 this.2⟩

theorem WriteTab_spec (p : String) (tab : List Byte) (n : Nat) :
    ∀ (st : FileSystem × FStream) (c : List Byte), st.2.goodOn p OpenMode.output →
      st.1.files p = some c → st.2.pos = c.length →
      (WriteTab tab n st).2.goodOn p OpenMode.output ∧
      (WriteTab tab n st).1.files p = some (c ++ (List.replicate n tab).flatten) ∧
      st.1.sameOff (WriteTab tab n st).1 p := by
  induction n with
  | zero => intro st c h hc _; simpa [WriteTab, hc] using ⟨h, FileSystem.sameOff_refl _ _⟩
  | succ k ih =>
    intro st c h hc hp
    have h1 := FStream.write_goodOn h st.1 tab
    have h2 := FStream.write_sameOff h st.1 tab
    have h3 := FStream.write_files_self h st.1 tab hc
    rw [hp, writeAt_end] at h3
    have h4 : (FStream.write st.1 st.2 tab).2.pos = (c ++ tab).length := by
      rw [FStream.write_snd h]; simp [hp]
    have := ih (FStream.write st.1 st.2 tab) (c ++ tab) h1 h3 h4
    simp only [WriteTab]
    refine ⟨this.1, ?_, FileSystem.sameOff_trans h2 this.2.2⟩
    rw [this.2.1]
    simp [List.replicate_succ]

theorem FStream.open_output (fs : FileSystem) (s : FStream) (p : String)
    (hw : fs.writable p = true) :
    (FStream.open fs (if s.is_open then s.close else s) p OpenMode.output).1 = fs.truncate p ∧
    (FStream.open fs (if s.is_open then s.close else s) p OpenMode.output).2.goodOn p
      OpenMode.output ∧
    (FStream.open fs (if s.is_open then s.close else s) p OpenMode.output).2.pos = 0 := by
  cases s with
  | mk file pos failbit eofbit gcount =>
    cases file <;>
      simp [FStream.open, FStream.is_open, FStream.close, hw, FStream.goodOn]

theorem FStream.open_input (fs : FileSystem) (s : FStream) (p : String) {c : List Byte}
    (hc : fs.files p = some c) :
    (FStream.open fs (if s.is_open then s.close else s) p OpenMode.input).1 = fs ∧
    (FStream.open fs (if s.is_open then s.close else s) p OpenMode.input).2.goodOn p
      OpenMode.input ∧
    (FStream.open fs (if s.is_open then s.close else s) p OpenMode.input).2.pos = 0 := by
  cases s with
  | mk file pos failbit eofbit gcount =>
    cases file <;>
      simp [FStream.open, FStream.is_open, FStream.close, hc, FStream.goodOn]

theorem FStream.open_input_none (fs : FileSystem) (s : FStream) (p : String)
    (hc : fs.files p = none) :
    (FStream.open fs (if s.is_open then s.close else s) p OpenMode.input).2.fail = true := by
  cases s with
  | mk file pos failbit eofbit gcount =>
    cases file <;>
      simp [FStream.open, FStream.is_open, FStream.close, hc, FStream.fail]

theorem ent_ne_dat (r : String) : r ++ ".ent" ≠ r ++ ".dat" := by
  intro h
  have := congrArg String.data h
  simp only [String.data_append, List.append_cancel_left_eq] at this
  exact absurd this (by decide)

theorem WriteDataHeader_spec (tab0 : Uninit) (d0 d1 : Nat) (fs : FileSystem) (df : FStream)
    (p : String) (hdf : df.goodOn p OpenMode.output) (hc : fs.files p = some [])
    (hcol : 0 ≤ toShort (d0 : Int)) :
    ∃ r : FileSystem × FStream, WriteDataHeader tab0 d0 d1 fs df = Except.ok r ∧
      r.2.goodOn p OpenMode.output ∧ r.1.files p = some (dataHeader tab0 d0 d1) ∧
      fs.sameOff r.1 p := by
  have hneg : ¬ (toShort (d0 : Int) * 4 * 2 < 0) := by omega
  have hs0 : df.seekg 0 = { df with pos := 0 } := by
    simpa using FStream.seekg_goodOn hdf 0
  have g0 : FStream.goodOn { df with pos := 0 } p OpenMode.output := hdf
  have a1 := FStream.write_goodOn g0 fs (intBytes 4 ONERA_MAGIC_NUMBER)
  have a2 := FStream.write_files_self g0 fs (intBytes 4 ONERA_MAGIC_NUMBER) hc
  have a3 := FStream.write_sameOff g0 fs (intBytes 4 ONERA_MAGIC_NUMBER)
  have a4 : (FStream.write fs { df with pos := 0 } (intBytes 4 ONERA_MAGIC_NUMBER)).2.pos
      = (intBytes 4 ONERA_MAGIC_NUMBER).length := by
    rw [FStream.write_snd g0]; simp
  have e1 : writeAt [] 0 (intBytes 4 ONERA_MAGIC_NUMBER) = intBytes 4 ONERA_MAGIC_NUMBER := by
    simpa using writeAt_end [] (intBytes 4 ONERA_MAGIC_NUMBER)
  simp only [e1] at a2
  obtain ⟨b1, b2, b3⟩ := WriteTab_spec p (stored tab0 (toShort (d0 : Int) * 4 * 2).toNat [])
    (toShort (d1 : Int) + 1).toNat _ _ a1 a2 a4
  have hs6 := FStream.seekg_goodOn b1 6
  have g6 := FStream.goodOn_pos b1 6
  have c1 := FStream.write_goodOn g6 (WriteTab (stored tab0 (toShort (d0 : Int) * 4 * 2).toNat [])
    (toShort (d1 : Int) + 1).toNat (FStream.write fs { df with pos := 0 }
      (intBytes 4 ONERA_MAGIC_NUMBER))).1 (intBytes 2 (toShort (d0 : Int)))
  have c2 := FStream.write_files_self g6 _ (intBytes 2 (toShort (d0 : Int))) b2
  have c3 := FStream.write_sameOff g6 (WriteTab (stored tab0 (toShort (d0 : Int) * 4 * 2).toNat [])
    (toShort (d1 : Int) + 1).toNat (FStream.write fs { df with pos := 0 }
      (intBytes 4 ONERA_MAGIC_NUMBER))).1 (intBytes 2 (toShort (d0 : Int)))
  refine ⟨_, ?_, c1, c2, FileSystem.sameOff_trans (FileSystem.sameOff_trans a3 b3) c3⟩
  unfold WriteDataHeader
  simp only [hneg, if_false, hs0]
  have : ((ONERA_HEADER_LENGTH : Int) + 2) = ((6 : Nat) : Int) := by decide
  rw [this, hs6]

theorem FileSystem.truncate_files_self (fs : FileSystem) (p : String) :
    (fs.truncate p).files p = some [] := by
  simp [FileSystem.truncate]

theorem FileSystem.truncate_files_other (fs : FileSystem) {p q : String} (h : q ≠ p) :
    (fs.truncate p).files q = fs.files q := by
  simp [FileSystem.truncate, h]

theorem OpenOneraHeaderFileForWriting_ok (f : String) (w : World)
    (hw : w.fs.writable (R f ++ ".ent") = true) :
    ∃ hs : FStream, hs.goodOn (R f ++ ".ent") OpenMode.output ∧ hs.pos = 0 ∧
      (OpenOneraHeaderFileForWriting R f w).1 = true ∧
      (OpenOneraHeaderFileForWriting R f w).2 =
        { fs := w.fs.truncate (R f ++ ".ent"), codec := { w.codec with m_Headerfile := hs } } := by
  have ho := FStream.open_output w.fs w.codec.m_Headerfile (R f ++ ".ent") hw
  refine ⟨_, ho.2.1, ho.2.2, ?_, ?_⟩
  · unfold OpenOneraHeaderFileForWriting
    simp only [FStream.fail, ho.2.1.2.1]
    rfl
  · unfold OpenOneraHeaderFileForWriting
    simp only [FStream.fail, ho.2.1.2.1, ho.1]
    rfl

theorem OpenOneraDataFileForWriting_ok (f : String) (w : World)
    (hw : w.fs.writable (R f ++ ".dat") = true) :
    ∃ ds : FStream, ds.goodOn (R f ++ ".dat") OpenMode.output ∧ ds.pos = 0 ∧
      (OpenOneraDataFileForWriting R f w).1 = true ∧
      (OpenOneraDataFileForWriting R f w).2 =
        { fs := w.fs.truncate (R f ++ ".dat"), codec := { w.codec with m_Datafile := ds } } := by
  have ho := FStream.open_output w.fs w.codec.m_Datafile (R f ++ ".dat") hw
  refine ⟨_, ho.2.1, ho.2.2, ?_, ?_⟩
  · unfold OpenOneraDataFileForWriting
    simp only [FStream.fail, ho.2.1.2.1]
    rfl
  · unfold OpenOneraDataFileForWriting
    simp only [FStream.fail, ho.2.1.2.1, ho.1]
    rfl

theorem WriteImageInformation_spec (tab0 : Uninit) (w : World)
    (hwe : w.fs.writable (R w.codec.m_FileName ++ ".ent") = true)
    (hwd : w.fs.writable (R w.codec.m_FileName ++ ".dat") = true)
    (hpix : w.codec.m_PixelType = IOPixelType.COMPLEX)
    (hcomp : w.codec.m_ComponentType = IOComponentType.FLOAT)
    (hcol : 0 ≤ toShort (w.codec.m_Dimensions0 : Int)) :
    ∃ (fs1 : FileSystem) (hs ds : FStream),
      WriteImageInformation R tab0 w =
        Except.ok { fs := fs1, codec := { w.codec with m_Headerfile := hs, m_Datafile := ds } } ∧
      ds.goodOn (R w.codec.m_FileName ++ ".dat") OpenMode.output ∧
      hs.goodOn (R w.codec.m_FileName ++ ".ent") OpenMode.output ∧
      fs1.files (R w.codec.m_FileName ++ ".dat") =
        some (dataHeader tab0 w.codec.m_Dimensions0 w.codec.m_Dimensions1) ∧
      (∀ q, q ≠ R w.codec.m_FileName ++ ".ent" → q ≠ R w.codec.m_FileName ++ ".dat" →
        fs1.files q = w.fs.files q) ∧
      fs1.writable = w.fs.writable ∧
      fs1.truncations = ((w.fs.truncate (R w.codec.m_FileName ++ ".ent")).truncate
        (R w.codec.m_FileName ++ ".dat")).truncations := by
  obtain ⟨hs0, hhs0, -, hH1, hH2⟩ := OpenOneraHeaderFileForWriting_ok R w.codec.m_FileName w hwe
  obtain ⟨ds0, hds0, -, hD1, hD2⟩ := OpenOneraDataFileForWriting_ok R w.codec.m_FileName
    { fs := w.fs.truncate (R w.codec.m_FileName ++ ".ent"),
      codec := { w.codec with m_Headerfile := hs0 } } hwd
  have hne := ent_ne_dat (R w.codec.m_FileName)
  obtain ⟨p1, p2⟩ := PutAll_spec (R w.codec.m_FileName ++ ".ent")
    (headerTextHead (R w.codec.m_FileName ++ ".dat"))
    ((w.fs.truncate (R w.codec.m_FileName ++ ".ent")).truncate (R w.codec.m_FileName ++ ".dat"), hs0)
    hhs0
  obtain ⟨q1, q2⟩ := PutAll_spec (R w.codec.m_FileName ++ ".ent")
    (headerTextTail "cmplx_real_4" w.codec.m_Dimensions0 w.codec.m_Dimensions1) _ p1
  have p3 := FileSystem.sameOff_trans p2 q2
  have hc : (PutAll (headerTextTail "cmplx_real_4" w.codec.m_Dimensions0 w.codec.m_Dimensions1)
      (PutAll (headerTextHead (R w.codec.m_FileName ++ ".dat"))
        ((w.fs.truncate (R w.codec.m_FileName ++ ".ent")).truncate
          (R w.codec.m_FileName ++ ".dat"), hs0))).1.files (R w.codec.m_FileName ++ ".dat")
      = some [] := by
    rw [p3.1 _ (Ne.symm hne)]
    exact FileSystem.truncate_files_self _ _
  obtain ⟨r, r1, r2, r3, r4⟩ := WriteDataHeader_spec tab0 w.codec.m_Dimensions0
    w.codec.m_Dimensions1 _ ds0 _ hds0 hc hcol
  refine ⟨r.1, (PutAll (headerTextTail "cmplx_real_4" w.codec.m_Dimensions0 w.codec.m_Dimensions1)
      (PutAll (headerTextHead (R w.codec.m_FileName ++ ".dat"))
        ((w.fs.truncate (R w.codec.m_FileName ++ ".ent")).truncate
          (R w.codec.m_FileName ++ ".dat"), hs0))).2, r.2, ?_, r2, q1, r3, ?_, ?_, ?_⟩
  · unfold WriteImageInformation
    simp only []
    simp only [hH1]
    simp only [hH2]
    simp only [hD1]
    simp only [hD2]
    simp only [Bool.not_true, Bool.false_eq_true, if_false, hpix, hcomp,
      and_self, if_true]
    simp only [r1]
    simp only [Except.map]
  · intro q hq1 hq2
    rw [r4.1 q hq2, p3.1 q hq1, FileSystem.truncate_files_other _ hq2,
      FileSystem.truncate_files_other _ hq1]
  · rw [r4.2.1, p3.2.1]; rfl
  · rw [r4.2.2, p3.2.2]

theorem WriteLines_spec (hl nbpl nb first col : Nat) (temp : List Byte) (p : String)
    (st : FileSystem × FStream) (F : List Byte) (hg : st.2.goodOn p OpenMode.output)
    (hF : st.1.files p = some F) (n : Nat) :
    (WriteLines hl nbpl nb first col temp n st).2.goodOn p OpenMode.output ∧
    (WriteLines hl nbpl nb first col temp n st).1.files p =
      some (writeRows hl nbpl (nb * col) first temp n F) ∧
    st.1.sameOff (WriteLines hl nbpl nb first col temp n st).1 p := by
  induction n with
  | zero => exact ⟨hg, hF, FileSystem.sameOff_refl _ _⟩
  | succ k ih =>
    obtain ⟨i1, i2, i3⟩ := ih
    have e : WriteLines hl nbpl nb first col temp (k + 1) st =
        FStream.write (WriteLines hl nbpl nb first col temp k st).1
          ((WriteLines hl nbpl nb first col temp k st).2.seekg
            ((hl + nbpl * (first + k) + nb * col : Nat) : Int))
          ((temp.drop (nbpl * k)).take nbpl) := by
      simp only [WriteLines, List.range_succ, List.foldl_append, List.foldl_cons, List.foldl_nil,
        Nat.add_sub_cancel_left]
    rw [e, FStream.seekg_goodOn i1]
    have g := FStream.goodOn_pos i1 (hl + nbpl * (first + k) + nb * col)
    refine ⟨FStream.write_goodOn g _ _, ?_, FileSystem.sameOff_trans i3 (FStream.write_sameOff g _ _)⟩
    rw [FStream.write_files_self g _ _ i2]
    rfl

theorem World.ext {a b : World} (h1 : a.fs = b.fs) (h2 : a.codec = b.codec) : a = b := by
  cases a; cases b; simp_all

theorem WriteBody_spec (buffer : List Byte) (w : World) (p : String) (F : List Byte)
    (hg : w.codec.m_Datafile.goodOn p OpenMode.output) (hF : w.fs.files p = some F) :
    ∃ ds : FStream, ds.goodOn p OpenMode.output ∧
      (WriteBody buffer w).codec = { w.codec with m_Datafile := ds } ∧
      (WriteBody buffer w).fs.files p = some (bodyFile buffer w.codec F) ∧
      w.fs.sameOff (WriteBody buffer w).fs p := by
  have h := WriteLines_spec
    (ONERA_HEADER_LENGTH + w.codec.m_NumberOfComponents * w.codec.m_IORegion.size0 *
      w.codec.m_NbOctetPixel)
    (w.codec.m_NumberOfComponents * w.codec.m_IORegion.size0 * w.codec.m_NbOctetPixel)
    w.codec.m_NbOctetPixel
    (if (decide (w.codec.m_IORegion.size1 = w.codec.m_Dimensions1) &&
      decide (w.codec.m_IORegion.size0 = w.codec.m_Dimensions0)) = true then 0
      else w.codec.m_IORegion.index1)
    (if (decide (w.codec.m_IORegion.size1 = w.codec.m_Dimensions1) &&
      decide (w.codec.m_IORegion.size0 = w.codec.m_Dimensions0)) = true then 0
      else w.codec.m_IORegion.index0)
    (buffer.take (w.codec.m_NumberOfComponents * w.codec.m_NbOctetPixel *
      w.codec.m_IORegion.size0 * w.codec.m_IORegion.size1))
    p (w.fs, w.codec.m_Datafile) F hg hF w.codec.m_IORegion.size1
  refine ⟨_, ?_, rfl, ?_, ?_⟩
  · simpa [WriteBody, SwapRangeFromSystemToLittleEndian] using h.1
  · simpa [WriteBody, SwapRangeFromSystemToLittleEndian, bodyFile] using h.2.1
  · simpa [WriteBody, SwapRangeFromSystemToLittleEndian] using h.2.2

theorem Write_first_spec (tab0 : Uninit) (buffer : List Byte) (w : World)
    (hflag : w.codec.m_FlagWriteImageInformation = true)
    (hwe : w.fs.writable (R w.codec.m_FileName ++ ".ent") = true)
    (hwd : w.fs.writable (R w.codec.m_FileName ++ ".dat") = true)
    (hpix : w.codec.m_PixelType = IOPixelType.COMPLEX)
    (hcomp : w.codec.m_ComponentType = IOComponentType.FLOAT)
    (hcol : 0 ≤ toShort (w.codec.m_Dimensions0 : Int)) :
    ∃ (fs1 : FileSystem) (hs ds : FStream),
      Write R tab0 buffer w =
        Except.ok { fs := fs1, codec := { w.codec with
          m_FlagWriteImageInformation := false, m_Headerfile := hs, m_Datafile := ds } } ∧
      ds.goodOn (R w.codec.m_FileName ++ ".dat") OpenMode.output ∧
      hs.goodOn (R w.codec.m_FileName ++ ".ent") OpenMode.output ∧
      fs1.files (R w.codec.m_FileName ++ ".dat") =
        some (bodyFile buffer w.codec
          (dataHeader tab0 w.codec.m_Dimensions0 w.codec.m_Dimensions1)) ∧
      (∀ q, q ≠ R w.codec.m_FileName ++ ".ent" → q ≠ R w.codec.m_FileName ++ ".dat" →
        fs1.files q = w.fs.files q) ∧
      fs1.writable = w.fs.writable ∧
      fs1.truncations = ((w.fs.truncate (R w.codec.m_FileName ++ ".ent")).truncate
        (R w.codec.m_FileName ++ ".dat")).truncations := by
  obtain ⟨fs1, hs, ds, e, g1, g2, f1, f2, f3, f4⟩ :=
    WriteImageInformation_spec R tab0 w hwe hwd hpix hcomp hcol
  obtain ⟨ds', b1, b2, b3, b4⟩ := WriteBody_spec buffer
    { fs := fs1, codec := { w.codec with
        m_FlagWriteImageInformation := false, m_Headerfile := hs, m_Datafile := ds } }
    (R w.codec.m_FileName ++ ".dat") _ g1 f1
  refine ⟨_, hs, ds', ?_, b1, g2, b3, ?_, ?_, ?_⟩
  · unfold Write
    simp only [hflag, if_true, e, Except.map]
    rw [Except.ok.injEq]
    exact World.ext rfl b2
  · intro q hq1 hq2
    rw [b4.1 q hq2]; exact f2 q hq1 hq2
  · rw [b4.2.1]; exact f3
  · rw [b4.2.2]; exact f4

theorem toShort_of_le {n : Nat} (h : n ≤ 32767) : toShort (n : Int) = (n : Int) := by
  unfold toShort; omega

theorem leBytes_length (k v : Nat) : (leBytes k v).length = k := by
  induction k generalizing v with
  | zero => rfl
  | succ k ih => simp [leBytes, ih]

theorem intBytes_length (k : Nat) (n : Int) : (intBytes k n).length = k := by
  simp [intBytes, leBytes_length]

theorem intBytes_magic : intBytes 4 ONERA_MAGIC_NUMBER = [1, 0, 0, 2] := by decide

theorem stored_length (junk : Uninit) (n : Nat) (d : List Byte) : (stored junk n d).length = n := by
  simp [stored]

theorem stored_of_length (junk : Uninit) (d : List Byte) : stored junk d.length d = d := by
  apply List.ext_getElem?
  intro i
  simp only [stored, List.getElem?_map, List.getElem?_range']
  by_cases hi : i < d.length
  · simp [List.getElem?_range hi, List.getElem?_eq_getElem hi]
  · rw [List.getElem?_eq_none (by simpa using hi), List.getElem?_eq_none (by simpa using hi)]
    rfl

theorem byte_toNat_ofNat (n : Nat) : (UInt8.ofNat n).toNat = n % 256 := by
  simp [UInt8.ofNat, UInt8.toNat, Fin.ofNat]

theorem leValue_intBytes_two {n : Nat} (h : n ≤ 32767) (junk : Uninit) :
    toShort (leValue (stored junk 2 (intBytes 2 (n : Int)))) = (n : Int) := by
  have e : stored junk 2 (intBytes 2 (n : Int)) = intBytes 2 (n : Int) := by
    have := stored_of_length junk (intBytes 2 (n : Int))
    rwa [intBytes_length] at this
  rw [e]
  have h1 : ((n : Int) % ((256 ^ 2 : Nat) : Int)).toNat = n := by
    have : ((256 ^ 2 : Nat) : Int) = 65536 := by norm_num
    rw [this]; omega
  simp only [intBytes, h1, leBytes, leValue, byte_toNat_ofNat]
  unfold toShort
  omega

theorem flatten_replicate_length (n : Nat) (tab : List Byte) :
    (List.replicate n tab).flatten.length = n * tab.length := by
  induction n with
  | zero => simp
  | succ k ih => simp [List.replicate_succ, ih, Nat.succ_mul, Nat.add_comm]

theorem writeAt_length_ge (f : List Byte) (off : Nat) (d : List Byte) :
    f.length ≤ (writeAt f off d).length := by
  by_cases hd : d = []
  · subst hd; simp [writeAt]
  · rw [writeAt_length f off d hd]; omega

theorem writeAt_length_inside (f : List Byte) (off : Nat) (d : List Byte)
    (h : off + d.length ≤ f.length) : (writeAt f off d).length = f.length := by
  by_cases hd : d = []
  · subst hd; simp [writeAt]
  · rw [writeAt_length f off d hd]; omega

/-- Length of the data file right after the header was written. -/
theorem dataHeader_length (tab0 : Uninit) {d0 d1 : Nat} (h0 : 1 ≤ d0) (h0' : d0 ≤ 32767)
    (h1 : d1 ≤ 32767) : (dataHeader tab0 d0 d1).length = 4 + (d1 + 1) * (8 * d0) := by
  unfold dataHeader
  rw [toShort_of_le h0', toShort_of_le h1]
  have e1 : ((d1 : Int) + 1).toNat = d1 + 1 := by omega
  have e2 : ((d0 : Int) * 4 * 2).toNat = 8 * d0 := by omega
  rw [e1, e2]
  rw [writeAt_length_inside]
  · simp [intBytes_length, flatten_replicate_length, stored_length]
  · simp only [List.length_append, intBytes_length, flatten_replicate_length, stored_length]
    have : 8 * d0 ≤ (d1 + 1) * (8 * d0) := Nat.le_mul_of_pos_left _ (by omega)
    omega

theorem dataHeader_colcount (tab0 : Uninit) (d0 d1 : Nat) :
    readAt (dataHeader tab0 d0 d1) 6 2 = intBytes 2 (toShort (d0 : Int)) := by
  have := readAt_writeAt_self
    (intBytes 4 ONERA_MAGIC_NUMBER ++
      (List.replicate (toShort (d1 : Int) + 1).toNat
        (stored tab0 (toShort (d0 : Int) * 4 * 2).toNat [])).flatten)
    6 (intBytes 2 (toShort (d0 : Int)))
  rwa [intBytes_length] at this

theorem dataHeader_magic (tab0 : Uninit) (d0 d1 : Nat) :
    readAt (dataHeader tab0 d0 d1) 0 4 = intBytes 4 ONERA_MAGIC_NUMBER := by
  unfold dataHeader
  rw [readAt_writeAt_before _ _ _ _ _ (by omega) (by simp [intBytes_length])]
  simp [readAt, intBytes_magic]

theorem writeRows_length_ge (hl s off0 first : Nat) (temp F : List Byte) (k : Nat) :
    F.length ≤ (writeRows hl s off0 first temp k F).length := by
  induction k with
  | zero => exact Nat.le_refl _
  | succ k ih => exact Nat.le_trans ih (writeAt_length_ge _ _ _)

/-- Rows written inside the file do not change its length. -/
theorem writeRows_length_inside (hl s off0 first : Nat) (temp F : List Byte) (k : Nat)
    (h : hl + s * (first + k) + off0 ≤ F.length) :
    (writeRows hl s off0 first temp k F).length = F.length := by
  induction k with
  | zero => rfl
  | succ k ih =>
    have hk : hl + s * (first + k) + off0 ≤ F.length := by
      have : s * (first + k) ≤ s * (first + (k + 1)) := Nat.mul_le_mul_left _ (by omega)
      omega
    have e : s * (first + (k + 1)) = s * (first + k) + s := by
      rw [← Nat.add_assoc, Nat.mul_succ]
    simp only [writeRows]
    rw [writeAt_length_inside, ih hk]
    rw [ih hk]
    have : ((temp.drop (s * k)).take s).length ≤ s := by simp [List.length_take]
    omega

/-- The row loop leaves the bytes that precede the first row untouched. -/
theorem readAt_writeRows_before (hl s off0 first : Nat) (temp F : List Byte) (a n : Nat)
    (h1 : a + n ≤ hl + s * first + off0) (h2 : a + n ≤ F.length) (k : Nat) :
    readAt (writeRows hl s off0 first temp k F) a n = readAt F a n := by
  induction k with
  | zero => rfl
  | succ k ih =>
    simp only [writeRows]
    rw [readAt_writeAt_before, ih]
    · have : s * first ≤ s * (first + k) := Nat.mul_le_mul_left _ (by omega)
      omega
    · exact Nat.le_trans h2 (writeRows_length_ge _ _ _ _ _ _ _)

/-- Row `i` of the scratch copy is found at its offset once the loop has passed it. -/
theorem readAt_writeRows_row (hl s off0 first : Nat) (temp F : List Byte) (k : Nat)
    (hlen : s * k ≤ temp.length) (i : Nat) (hi : i < k) :
    readAt (writeRows hl s off0 first temp k F) (hl + s * (first + i) + off0) s =
      readAt temp (s * i) s := by
  induction k with
  | zero => omega
  | succ k ih =>
    have e : s * (k + 1) = s * k + s := Nat.mul_succ _ _
    have hrow : ∀ j, j ≤ k → ((temp.drop (s * j)).take s).length = s := by
      intro j hj
      have : s * j ≤ s * k := Nat.mul_le_mul_left _ hj
      simp only [List.length_take, List.length_drop]; omega
    simp only [writeRows]
    by_cases hik : i = k
    · subst hik
      have := readAt_writeAt_self (writeRows hl s off0 first temp i F)
        (hl + s * (first + i) + off0) ((temp.drop (s * i)).take s)
      rw [hrow i (Nat.le_refl _)] at this
      rw [this]; rfl
    · have hi' : i < k := by omega
      have ih' := ih (by omega) hi'
      by_cases hs : s = 0
      · subst hs; simp [readAt]
      · have hle : hl + s * (first + i) + off0 + s ≤ hl + s * (first + k) + off0 := by
          have : s * (first + i + 1) ≤ s * (first + k) := Nat.mul_le_mul_left _ (by omega)
          have e2 : s * (first + i + 1) = s * (first + i) + s := Nat.mul_succ _ _
          omega
        have hfit : hl + s * (first + i) + off0 + s ≤
            (writeRows hl s off0 first temp k F).length := by
          have hl1 := congrArg List.length ih'
          rw [readAt_length] at hl1
          have hl2 : (readAt temp (s * i) s).length = s := hrow i (by omega)
          rw [hl2] at hl1
          omega
        rw [readAt_writeAt_before _ _ _ _ _ hle hfit, ih']

theorem FStream.read_full {s : FStream} {p : String} (h : s.goodOn p OpenMode.input)
    (fs : FileSystem) {F : List Byte} (hF : fs.files p = some F) (n : Nat)
    (hn : s.pos + n ≤ F.length) :
    FStream.read fs s n = ({ s with pos := s.pos + n, gcount := n }, readAt F s.pos n) := by
  obtain ⟨h1, h2, h3⟩ := h
  have hl : (readAt F s.pos n).length = n := by rw [readAt_length]; omega
  cases s
  simp_all [FStream.read, FStream.good, FileSystem.contents]

theorem FStream.read_short {s : FStream} {p : String} (h : s.goodOn p OpenMode.input)
    (fs : FileSystem) {F : List Byte} (hF : fs.files p = some F) (n : Nat) (hn0 : 0 < n)
    (hn : F.length < s.pos + n) :
    (FStream.read fs s n).1.gcount ≠ n := by
  obtain ⟨h1, h2, h3⟩ := h
  have hl : (readAt F s.pos n).length ≠ n := by
    rw [readAt_length]
    have := Nat.min_le_right n (F.length - s.pos)
    omega
  cases s
  simp_all [FStream.read, FStream.good, FileSystem.contents]

theorem FStream.read_failed (fs : FileSystem) {s : FStream} (h : s.failbit = true) (n : Nat) :
    (FStream.read fs s n).1.gcount = 0 ∧ (FStream.read fs s n).1.failbit = true ∧
      (FStream.read fs s n).2 = [] := by
  simp [FStream.read, FStream.good, h]

theorem FStream.seekg_neg {s : FStream} {off : Int} (h : off < 0) :
    (s.seekg off).failbit = true := by
  unfold FStream.seekg
  by_cases hf : s.failbit = true <;> simp [hf, h]

theorem OpenOneraDataFileForReading_ok (f : String) (w : World) {F : List Byte}
    (hF : w.fs.files (R f ++ ".dat") = some F) :
    ∃ ds : FStream, ds.goodOn (R f ++ ".dat") OpenMode.input ∧ ds.pos = 0 ∧
      (OpenOneraDataFileForReading R f w).1 = true ∧
      (OpenOneraDataFileForReading R f w).2 =
        { fs := w.fs, codec := { w.codec with m_Datafile := ds } } := by
  have ho := FStream.open_input w.fs w.codec.m_Datafile (R f ++ ".dat") hF
  refine ⟨_, ho.2.1, ho.2.2, ?_, ?_⟩
  · unfold OpenOneraDataFileForReading
    simp only [FStream.fail, ho.2.1.2.1]
    rfl
  · unfold OpenOneraDataFileForReading
    simp only [FStream.fail, ho.2.1.2.1, ho.1]
    rfl

theorem OpenOneraDataFileForReading_missing (f : String) (w : World)
    (hF : w.fs.files (R f ++ ".dat") = none) :
    (OpenOneraDataFileForReading R f w).1 = false := by
  have ho := FStream.open_input_none w.fs w.codec.m_Datafile (R f ++ ".dat") hF
  unfold OpenOneraDataFileForReading
  simp only [ho]
  rfl

theorem ReadLines_ok (fs : FileSystem) (p : String) (F : List Byte) (hF : fs.files p = some F)
    (hl s : Int) (nb col n : Nat) (count : Nat) :
    ∀ (LineNo : Nat) (df : FStream), df.goodOn p OpenMode.input →
      (∀ i, i < count → 0 ≤ rowOffset hl s nb col (LineNo + i) ∧
        (rowOffset hl s nb col (LineNo + i)).toNat + n ≤ F.length) →
      ∃ df' : FStream, df'.goodOn p OpenMode.input ∧
        ReadLines fs hl s nb col n count LineNo df =
          Except.ok (df', regionBytes F hl s nb col n count LineNo) := by
  induction count with
  | zero => intro L df hg _; exact ⟨df, hg, rfl⟩
  | succ k ih =>
    intro L df hg hall
    obtain ⟨h0, h1⟩ := hall 0 (by omega)
    simp only [Nat.add_zero] at h0 h1
    have hs : df.seekg (rowOffset hl s nb col L) =
        { df with pos := (rowOffset hl s nb col L).toNat } := by
      have := FStream.seekg_goodOn hg (rowOffset hl s nb col L).toNat
      rwa [Int.toNat_of_nonneg h0] at this
    have g1 := FStream.goodOn_pos hg (rowOffset hl s nb col L).toNat
    have hr := FStream.read_full g1 fs hF n h1
    have g2 : FStream.goodOn { ({ df with pos := (rowOffset hl s nb col L).toNat } : FStream) with
        pos := (rowOffset hl s nb col L).toNat + n, gcount := n } p OpenMode.input := hg
    obtain ⟨df', g3, e⟩ := ih (L + 1) _ g2 (fun i hi => by
      have := hall (i + 1) (by omega)
      rwa [show L + (i + 1) = L + 1 + i by omega] at this)
    refine ⟨df', g3, ?_⟩
    have hs' : df.seekg (hl + s * (L : Int) + ((nb * col : Nat) : Int)) =
        { df with pos := (rowOffset hl s nb col L).toNat } := hs
    simp only [ReadLines, hs', hr, ne_eq, not_true_eq_false, if_false, e, Except.map,
      regionBytes]

theorem ReadLines_short (fs : FileSystem) (p : String) (F : List Byte) (hF : fs.files p = some F)
    (hl s : Int) (nb col n : Nat) (hn : 0 < n) (count : Nat) :
    ∀ (LineNo : Nat) (df : FStream), df.goodOn p OpenMode.input →
      (∃ i, i < count ∧ (rowOffset hl s nb col (LineNo + i) < 0 ∨
        F.length < (rowOffset hl s nb col (LineNo + i)).toNat + n)) →
      ReadLines fs hl s nb col n count LineNo df = Except.error Failure.cannotReadRegion := by
  induction count with
  | zero => intro L df _ h; obtain ⟨i, hi, _⟩ := h; omega
  | succ k ih =>
    intro L df hg hex
    by_cases hrow : rowOffset hl s nb col L < 0 ∨
        F.length < (rowOffset hl s nb col L).toNat + n
    · have hne : (FStream.read fs (df.seekg (rowOffset hl s nb col L)) n).1.gcount ≠ n := by
        by_cases hneg : rowOffset hl s nb col L < 0
        · have := (FStream.read_failed fs (FStream.seekg_neg (s := df) hneg) n).1
          omega
        · have h0 : 0 ≤ rowOffset hl s nb col L := not_lt.mp hneg
          have hshort : F.length < (rowOffset hl s nb col L).toNat + n := by
            rcases hrow with h | h
            · exact absurd h hneg
            · exact h
          have hs := FStream.seekg_goodOn hg (rowOffset hl s nb col L).toNat
          rw [Int.toNat_of_nonneg h0] at hs
          rw [hs]
          exact FStream.read_short (FStream.goodOn_pos hg _) fs hF n hn hshort
      have hne' : (FStream.read fs (df.seekg (hl + s * (L : Int) + ((nb * col : Nat) : Int)))
          n).1.gcount ≠ n := hne
      simp only [ReadLines, ne_eq, hne', not_false_eq_true, if_true]
    · have h0 : 0 ≤ rowOffset hl s nb col L := not_lt.mp (fun h => hrow (Or.inl h))
      have h1 : (rowOffset hl s nb col L).toNat + n ≤ F.length :=
        not_lt.mp (fun h => hrow (Or.inr h))
      have hs : df.seekg (hl + s * (L : Int) + ((nb * col : Nat) : Int)) =
          { df with pos := (rowOffset hl s nb col L).toNat } := by
        have := FStream.seekg_goodOn hg (rowOffset hl s nb col L).toNat
        rwa [Int.toNat_of_nonneg h0] at this
      have g1 := FStream.goodOn_pos hg (rowOffset hl s nb col L).toNat
      have hr := FStream.read_full g1 fs hF n h1
      have g2 : FStream.goodOn { ({ df with pos := (rowOffset hl s nb col L).toNat } : FStream)
          with pos := (rowOffset hl s nb col L).toNat + n, gcount := n } p OpenMode.input := hg
      have hex' : ∃ i, i < k ∧ (rowOffset hl s nb col (L + 1 + i) < 0 ∨
          F.length < (rowOffset hl s nb col (L + 1 + i)).toNat + n) := by
        obtain ⟨i, hi, hbad⟩ := hex
        cases i with
        | zero => exact absurd hbad hrow
        | succ j =>
          refine ⟨j, by omega, ?_⟩
          rwa [show L + 1 + j = L + (j + 1) by omega]
      have e := ih (L + 1) _ g2 hex'
      simp only [ReadLines, hs, hr, ne_eq, not_true_eq_false, if_false, e, Except.map]

theorem ReadLines_zero (fs : FileSystem) (hl s : Int) (nb col : Nat) (count : Nat) :
    ∀ (LineNo : Nat) (df : FStream),
      ∃ df' : FStream, ReadLines fs hl s nb col 0 count LineNo df = Except.ok (df', []) := by
  induction count with
  | zero => intro L df; exact ⟨df, rfl⟩
  | succ k ih =>
    intro L df
    have h0 : ∀ t : FStream, (FStream.read fs t 0).1.gcount = 0 ∧ (FStream.read fs t 0).2 = [] := by
      intro t
      have hz : (match t.file with
          | some (p, OpenMode.input) => readAt (fs.contents p) t.pos 0
          | _ => ([] : List Byte)) = [] := by
        split <;> simp [readAt]
      unfold FStream.read
      by_cases hg : t.good = true
      · simp [hg, hz]
      · simp [hg]
    obtain ⟨df', e⟩ := ih (L + 1)
      (FStream.read fs (df.seekg (hl + s * (L : Int) + ((nb * col : Nat) : Int))) 0).1
    refine ⟨df', ?_⟩
    simp only [ReadLines, (h0 _).1, (h0 _).2, ne_eq, not_true_eq_false, if_false, e, Except.map,
      List.nil_append]

theorem FStream.seekgEnd_goodOn {s : FStream} {p : String} {m : OpenMode} (h : s.goodOn p m)
    (fs : FileSystem) {F : List Byte} (hF : fs.files p = some F) :
    s.seekgEnd fs = { s with pos := F.length } := by
  obtain ⟨h1, h2, h3⟩ := h
  cases s
  simp_all [FStream.seekgEnd, FileSystem.contents]

theorem FStream.tellg_goodOn {s : FStream} {p : String} {m : OpenMode} (h : s.goodOn p m) :
    s.tellg = (s.pos : Int) := by
  obtain ⟨h1, h2, h3⟩ := h
  simp [FStream.tellg, h1, h2]

theorem FStream.seekg_good {s : FStream} {p : String} {m : OpenMode} (h : s.goodOn p m)
    (n : Nat) : (s.seekg (n : Int)).goodOn p m ∧ (s.seekg (n : Int)).pos = n := by
  rw [FStream.seekg_goodOn h]
  exact ⟨h, rfl⟩

theorem FStream.read_good {s : FStream} {p : String} (h : s.goodOn p OpenMode.input)
    (fs : FileSystem) {F : List Byte} (hF : fs.files p = some F) (n : Nat)
    (hn : s.pos + n ≤ F.length) :
    (FStream.read fs s n).2 = readAt F s.pos n ∧
    (FStream.read fs s n).1.goodOn p OpenMode.input ∧
    (FStream.read fs s n).1.pos = s.pos + n ∧ (FStream.read fs s n).1.gcount = n := by
  rw [FStream.read_full h fs hF n hn]
  exact ⟨rfl, h, rfl, rfl⟩

/-- Column count and file length that `InternalReadImageInformation` obtains
from a data stream that is good and open for input on a file of 8 bytes or more. -/
theorem readDataHeader_eval (fs : FileSystem) (p : String) (F : List Byte)
    (hF : fs.files p = some F) (h8 : 8 ≤ F.length) (df : FStream)
    (hg : df.goodOn p OpenMode.input) (NbCol0 : Uninit) :
    stored NbCol0 2 (FStream.read fs (((FStream.read fs (df.seekg 0) 4).1).seekg
        ((ONERA_HEADER_LENGTH : Int) + 2)) 2).2 = readAt F 6 2 ∧
    ((FStream.read fs (((FStream.read fs (df.seekg 0) 4).1).seekg
        ((ONERA_HEADER_LENGTH : Int) + 2)) 2).1.seekgEnd fs).tellg = (F.length : Int) ∧
    ((FStream.read fs (((FStream.read fs (df.seekg 0) 4).1).seekg
        ((ONERA_HEADER_LENGTH : Int) + 2)) 2).1.seekgEnd fs).goodOn p OpenMode.input := by
  have e6 : ((ONERA_HEADER_LENGTH : Int) + 2) = ((6 : Nat) : Int) := by decide
  have g0 := FStream.seekg_good hg 0
  have r0 := FStream.read_good g0.1 fs hF 4 (by rw [g0.2]; omega)
  have g1 := FStream.seekg_good r0.2.1 6
  have r1 := FStream.read_good g1.1 fs hF 2 (by rw [g1.2]; omega)
  have s2 := FStream.seekgEnd_goodOn r1.2.1 fs hF
  have g4 := FStream.goodOn_pos r1.2.1 F.length
  have e0 : df.seekg 0 = df.seekg ((0 : Nat) : Int) := rfl
  rw [e6, e0]
  refine ⟨?_, ?_, ?_⟩
  · rw [r1.1, g1.2]
    have hl : (readAt F 6 2).length = 2 := by rw [readAt_length]; omega
    have := stored_of_length NbCol0 (readAt F 6 2)
    rwa [hl] at this
  · rw [s2, FStream.tellg_goodOn g4]
  · rw [s2]; exact g4

theorem InternalReadImageInformation_cases (NbCol0 : Uninit) (w : World) (F : List Byte)
    (hF : w.fs.files (R w.codec.m_FileName ++ ".dat") = some F) (h8 : 8 ≤ F.length) :
    ∃ hs ds : FStream, ds.goodOn (R w.codec.m_FileName ++ ".dat") OpenMode.input ∧
      InternalReadImageInformation R NbCol0 w =
        if headerToken w.fs w.codec.m_Headerfile ≠ stringBytes "cmplx_real_4" then
          if 4 * 2 * toShort (leValue (readAt F 6 2)) = 0 then
            Except.error Failure.divisionByZero
          else if toShort (leValue (readAt F 6 2)) = 0 ∨
              Int.tdiv ((F.length : Int) - ((ONERA_HEADER_LENGTH : Int) + 2 * 4 *
                toShort (leValue (readAt F 6 2)))) (4 * 2 * toShort (leValue (readAt F 6 2))) = 0
            then Except.error Failure.unknownImageDimension
          else Except.ok (headerRead w (toShort (leValue (readAt F 6 2)))
            (Int.tdiv ((F.length : Int) - ((ONERA_HEADER_LENGTH : Int) + 2 * 4 *
              toShort (leValue (readAt F 6 2)))) (4 * 2 * toShort (leValue (readAt F 6 2))))
            hs ds)
        else Except.error Failure.dataFormatNotSupported := by
  obtain ⟨ds1, g1, -, a1, a2⟩ := OpenOneraDataFileForReading_ok R w.codec.m_FileName w hF
  obtain ⟨ds2, g2, -, b1, b2⟩ := OpenOneraDataFileForReading_ok R w.codec.m_FileName
    { fs := w.fs, codec := { w.codec with m_Datafile := ds1 } } hF
  obtain ⟨c1, c2, c3⟩ := readDataHeader_eval w.fs _ F hF h8 ds2 g2 NbCol0
  refine ⟨(FStream.getline w.fs (FStream.getline w.fs
    (FStream.getline w.fs w.codec.m_Headerfile 1024).1 1024).1 1024).1, _, c3, ?_⟩
  unfold InternalReadImageInformation
  simp only []
  simp only [a1]
  simp only [a2]
  simp only [b1]
  simp only [b2]
  simp only [Bool.not_true, Bool.false_eq_true, if_false]
  simp only [c1, c2]
  rfl

theorem FStream.getline_not_input (fs : FileSystem) (s : FStream) (n : Nat)
    (h : ∀ p, s.file ≠ some (p, OpenMode.input)) :
    (s.getline fs n).2 = [] ∧ (s.getline fs n).1.file = s.file := by
  have hz : (match s.file with
      | some (p, OpenMode.input) => (fs.contents p).drop s.pos
      | _ => ([] : List Byte)) = [] := by
    split
    · rename_i p hp; exact absurd hp (h p)
    · rfl
  unfold FStream.getline
  by_cases hg : s.good = true
  · simp [hg, hz, getlineScan]
  · simp [hg]

theorem headerToken_not_input (fs : FileSystem) (s : FStream)
    (h : ∀ p, s.file ≠ some (p, OpenMode.input)) : headerToken fs s = [] := by
  have h1 := FStream.getline_not_input fs s 1024 h
  have h2 := FStream.getline_not_input fs (s.getline fs 1024).1 1024 (by rw [h1.2]; exact h)
  have h3 := FStream.getline_not_input fs ((s.getline fs 1024).1.getline fs 1024).1 1024
    (by rw [h2.2, h1.2]; exact h)
  unfold headerToken
  rw [h3.1]
  rfl

theorem token_ne_nil : ([] : List Byte) ≠ stringBytes "cmplx_real_4" := by decide

theorem readAt_add (T : List Byte) (a n m : Nat) :
    readAt T a (n + m) = readAt T a n ++ readAt T (a + n) m := by
  simp only [readAt, List.take_add, List.drop_drop]

/-- Consecutive rows of a buffer, one after the other, are a slice of the buffer. -/
theorem regionBytes_eq_slice (F T : List Byte) (hl s : Int) (nb col n : Nat) (count : Nat) :
    ∀ (L L0 : Nat),
      (∀ i, i < count →
        readAt F (rowOffset hl s nb col (L + i)).toNat n = readAt T (n * (L0 + i)) n) →
      regionBytes F hl s nb col n count L = readAt T (n * L0) (n * count) := by
  induction count with
  | zero => intro L L0 _; simp [regionBytes, readAt]
  | succ k ih =>
    intro L L0 h
    have h0 := h 0 (by omega)
    simp only [Nat.add_zero] at h0
    have ih' := ih (L + 1) (L0 + 1) (fun i hi => by
      have := h (i + 1) (by omega)
      rwa [show L + (i + 1) = L + 1 + i by omega, show L0 + (i + 1) = L0 + 1 + i by omega] at this)
    simp only [regionBytes, h0, ih']
    rw [show n * (k + 1) = n + n * k by rw [Nat.mul_succ, Nat.add_comm], readAt_add,
      Nat.mul_succ]

theorem Read_ok (w : World) (F : List Byte)
    (hF : w.fs.files (R w.codec.m_FileName ++ ".dat") = some F)
    (hfit : ∀ i, i < w.codec.m_IORegion.size1 →
      0 ≤ rowOffset ((ONERA_HEADER_LENGTH : Int) + 2 * w.codec.m_width * (w.codec.m_NbOctetPixel : Int))
          (2 * w.codec.m_width * (w.codec.m_NbOctetPixel : Int)) w.codec.m_NbOctetPixel
          w.codec.m_IORegion.index0 (w.codec.m_IORegion.index1 + i) ∧
      (rowOffset ((ONERA_HEADER_LENGTH : Int) + 2 * w.codec.m_width * (w.codec.m_NbOctetPixel : Int))
          (2 * w.codec.m_width * (w.codec.m_NbOctetPixel : Int)) w.codec.m_NbOctetPixel
          w.codec.m_IORegion.index0 (w.codec.m_IORegion.index1 + i)).toNat +
        2 * w.codec.m_NbOctetPixel * w.codec.m_IORegion.size0 ≤ F.length) :
    ∃ ds : FStream, ds.goodOn (R w.codec.m_FileName ++ ".dat") OpenMode.input ∧
      Read R w = Except.ok
        (regionBytes F ((ONERA_HEADER_LENGTH : Int) + 2 * w.codec.m_width * (w.codec.m_NbOctetPixel : Int))
          (2 * w.codec.m_width * (w.codec.m_NbOctetPixel : Int)) w.codec.m_NbOctetPixel
          w.codec.m_IORegion.index0 (2 * w.codec.m_NbOctetPixel * w.codec.m_IORegion.size0)
          w.codec.m_IORegion.size1 w.codec.m_IORegion.index1,
         { fs := w.fs, codec := { w.codec with m_Datafile := ds } }) := by
  obtain ⟨ds1, g1, -, a1, a2⟩ := OpenOneraDataFileForReading_ok R w.codec.m_FileName w hF
  obtain ⟨ds2, g2, e⟩ := ReadLines_ok w.fs _ F hF _ _ _ _ _ _ w.codec.m_IORegion.index1 ds1 g1 hfit
  refine ⟨ds2, g2, ?_⟩
  unfold Read
  simp only []
  simp only [a1]
  simp only [a2]
  simp only [Bool.not_true, Bool.false_eq_true, if_false]
  simp only [e]
  simp only [Except.map, SwapRangeFromSystemToLittleEndian, ite_self]

theorem Read_short (w : World) (F : List Byte)
    (hF : w.fs.files (R w.codec.m_FileName ++ ".dat") = some F)
    (hn : 0 < 2 * w.codec.m_NbOctetPixel * w.codec.m_IORegion.size0)
    (hbad : ∃ i, i < w.codec.m_IORegion.size1 ∧
      (rowOffset ((ONERA_HEADER_LENGTH : Int) + 2 * w.codec.m_width * (w.codec.m_NbOctetPixel : Int))
          (2 * w.codec.m_width * (w.codec.m_NbOctetPixel : Int)) w.codec.m_NbOctetPixel
          w.codec.m_IORegion.index0 (w.codec.m_IORegion.index1 + i) < 0 ∨
      F.length < (rowOffset ((ONERA_HEADER_LENGTH : Int) + 2 * w.codec.m_width * (w.codec.m_NbOctetPixel : Int))
          (2 * w.codec.m_width * (w.codec.m_NbOctetPixel : Int)) w.codec.m_NbOctetPixel
          w.codec.m_IORegion.index0 (w.codec.m_IORegion.index1 + i)).toNat +
        2 * w.codec.m_NbOctetPixel * w.codec.m_IORegion.size0)) :
    Read R w = Except.error Failure.cannotReadRegion := by
  obtain ⟨ds1, g1, -, a1, a2⟩ := OpenOneraDataFileForReading_ok R w.codec.m_FileName w hF
  have e := ReadLines_short w.fs _ F hF _ _ _ _ _ hn _ w.codec.m_IORegion.index1 ds1 g1 hbad
  unfold Read
  simp only []
  simp only [a1]
  simp only [a2]
  simp only [Bool.not_true, Bool.false_eq_true, if_false]
  simp only [e]
  simp only [Except.map]

theorem Read_missing (w : World)
    (hF : w.fs.files (R w.codec.m_FileName ++ ".dat") = none) :
    Read R w = Except.error Failure.cannotReadRequestedFile := by
  have a1 := OpenOneraDataFileForReading_missing R w.codec.m_FileName w hF
  unfold Read
  simp only []
  simp only [a1]
  simp

theorem leValue_intBytes_short {n : Nat} (h : n ≤ 32767) :
    toShort (leValue (intBytes 2 (toShort (n : Int)))) = (n : Int) := by
  rw [toShort_of_le h]
  have h1 : ((n : Int) % ((256 ^ 2 : Nat) : Int)).toNat = n := by
    have : ((256 ^ 2 : Nat) : Int) = 65536 := by norm_num
    rw [this]; omega
  simp only [intBytes, h1, leBytes, leValue, byte_toNat_ofNat]
  unfold toShort
  omega

/-- The data file after a first `Write` over the full extent of an image of
`wd` x `ht` complex pixels. -/
theorem bodyFile_full (buffer : List Byte) (c : ONERAImageIO) (F : List Byte) (wd ht : Nat)
    (h1 : c.m_NumberOfComponents = 2) (h2 : c.m_NbOctetPixel = 4)
    (h3 : c.m_Dimensions0 = wd) (h4 : c.m_Dimensions1 = ht)
    (h5 : c.m_IORegion.size0 = wd) (h6 : c.m_IORegion.size1 = ht) :
    bodyFile buffer c F =
      writeRows (4 + 8 * wd) (8 * wd) 0 0 (buffer.take (8 * wd * ht)) ht F := by
  have e1 : 2 * wd * 4 = 8 * wd := by omega
  have e2 : 2 * 4 * wd * ht = 8 * wd * ht := by
    rw [show 2 * 4 * wd = 8 * wd by omega]
  simp only [bodyFile, h1, h2, h3, h4, h5, h6, decide_True, Bool.and_self, if_true, e1, e2,
    ONERA_HEADER_LENGTH, Nat.mul_zero]

theorem fullFile_length (tab0 : Uninit) (temp : List Byte) {wd ht : Nat} (h0 : 1 ≤ wd)
    (h0' : wd ≤ 32767) (h1 : ht ≤ 32767) :
    (writeRows (4 + 8 * wd) (8 * wd) 0 0 temp ht (dataHeader tab0 wd ht)).length =
      4 + (ht + 1) * (8 * wd) := by
  rw [writeRows_length_inside, dataHeader_length tab0 h0 h0' h1]
  rw [dataHeader_length tab0 h0 h0' h1]
  have : (ht + 1) * (8 * wd) = 8 * wd * ht + 8 * wd := by
    rw [Nat.succ_mul, Nat.mul_comm]
  simp only [Nat.zero_add, Nat.add_zero]
  omega

theorem fullFile_colcount (tab0 : Uninit) (temp : List Byte) {wd ht : Nat} (h0 : 1 ≤ wd)
    (h0' : wd ≤ 32767) (h1 : ht ≤ 32767) :
    readAt (writeRows (4 + 8 * wd) (8 * wd) 0 0 temp ht (dataHeader tab0 wd ht)) 6 2 =
      intBytes 2 (toShort (wd : Int)) := by
  rw [readAt_writeRows_before, dataHeader_colcount]
  · omega
  · rw [dataHeader_length tab0 h0 h0' h1]
    have : 8 * wd ≤ (ht + 1) * (8 * wd) := Nat.le_mul_of_pos_left _ (by omega)
    omega

theorem height_formula (wd ht : Nat) (h0 : 1 ≤ wd) :
    Int.tdiv (((4 + (ht + 1) * (8 * wd) : Nat) : Int) -
      ((ONERA_HEADER_LENGTH : Int) + 2 * 4 * (wd : Int))) (4 * 2 * (wd : Int)) = (ht : Int) := by
  have e : ((4 + (ht + 1) * (8 * wd) : Nat) : Int) -
      ((ONERA_HEADER_LENGTH : Int) + 2 * 4 * (wd : Int)) = (ht : Int) * (4 * 2 * (wd : Int)) := by
    simp only [ONERA_HEADER_LENGTH]
    push_cast
    ring
  rw [e, Int.tdiv_eq_ediv (by positivity) (by positivity)]
  exact Int.mul_ediv_cancel _ (by omega)

/-- Reading the header of a data file that holds a header written for `wd` x `ht`
pixels followed by rows written over the full extent. -/
theorem readHeader_after_full_write (NbCol0 tab0 : Uninit) (temp : List Byte) (fs2 : FileSystem)
    (rc : ONERAImageIO) {wd ht : Nat} (hw1 : 1 ≤ wd) (hw2 : wd ≤ 32767) (hh1 : 1 ≤ ht)
    (hh2 : ht ≤ 32767)
    (hfile : fs2.files (R rc.m_FileName ++ ".dat") =
      some (writeRows (4 + 8 * wd) (8 * wd) 0 0 temp ht (dataHeader tab0 wd ht)))
    (hclosed : ∀ p, rc.m_Headerfile.file ≠ some (p, OpenMode.input)) :
    ∃ hs ds : FStream,
      InternalReadImageInformation R NbCol0 { fs := fs2, codec := rc } =
        Except.ok (headerRead { fs := fs2, codec := rc } (wd : Int) (ht : Int) hs ds) := by
  have hlen := fullFile_length tab0 temp hw1 hw2 hh2
  have hcc := fullFile_colcount tab0 temp hw1 hw2 hh2
  have h8 : 8 ≤ (writeRows (4 + 8 * wd) (8 * wd) 0 0 temp ht (dataHeader tab0 wd ht)).length := by
    rw [hlen]
    have : 8 * wd ≤ (ht + 1) * (8 * wd) := Nat.le_mul_of_pos_left _ (by omega)
    omega
  obtain ⟨hs3, ds3, -, e3⟩ := InternalReadImageInformation_cases R NbCol0
    { fs := fs2, codec := rc } _ hfile h8
  have hc : toShort (leValue (readAt (writeRows (4 + 8 * wd) (8 * wd) 0 0 temp ht
      (dataHeader tab0 wd ht)) 6 2)) = (wd : Int) := by
    rw [hcc]; exact leValue_intBytes_short hw2
  rw [hc, hlen, height_formula wd ht hw1] at e3
  have htok : headerToken fs2 rc.m_Headerfile ≠ stringBytes "cmplx_real_4" := by
    rw [headerToken_not_input fs2 _ hclosed]; exact token_ne_nil
  have hne1 : ¬ (4 * 2 * (wd : Int) = 0) := by omega
  have hne2 : ¬ ((wd : Int) = 0 ∨ (ht : Int) = 0) := by omega
  simp only [htok, hne1, hne2, ne_eq, not_false_eq_true, if_true, if_false] at e3
  exact ⟨hs3, ds3, e3⟩

theorem toUInt32_natCast {n : Nat} (h : n < 4294967296) : toUInt32 (n : Int) = n := by
  unfold toUInt32; omega

theorem rowOffset_natCast (wd nb col L : Nat) :
    rowOffset ((ONERA_HEADER_LENGTH : Int) + 2 * (wd : Int) * ((4 : Nat) : Int))
      (2 * (wd : Int) * ((4 : Nat) : Int)) nb col L =
      ((4 + 8 * wd + 8 * wd * L + nb * col : Nat) : Int) := by
  simp only [rowOffset, ONERA_HEADER_LENGTH]
  push_cast
  ring

theorem dataHeader_length_ge (tab0 : Uninit) (d0 d1 : Nat) : 8 ≤ (dataHeader tab0 d0 d1).length := by
  unfold dataHeader
  rw [writeAt_length _ _ _ (by
    intro h
    have := congrArg List.length h
    rw [intBytes_length] at this
    exact absurd this (by decide))]
  rw [intBytes_length]
  omega

/-- After a first `Write` over the full extent, every row of the buffer is found
at its offset in the data file, whatever the file held before the rows. -/
theorem fullFile_row (F buffer : List Byte) (wd ht : Nat) (hbuf : buffer.length = 8 * wd * ht)
    (r : Nat) (hr : r < ht) :
    readAt (writeRows (4 + 8 * wd) (8 * wd) 0 0 buffer ht F) (4 + 8 * wd * (r + 1)) (8 * wd) =
      readAt buffer (8 * wd * r) (8 * wd) := by
  have := readAt_writeRows_row (4 + 8 * wd) (8 * wd) 0 0 buffer F ht
    (by rw [hbuf]) r hr
  rw [← this]
  congr 1
  rw [Nat.zero_add, Nat.mul_succ]
  omega

theorem intBytes_two_natCast {n : Nat} (h : n ≤ 32767) :
    intBytes 2 (toShort (n : Int)) = [UInt8.ofNat (n % 256), UInt8.ofNat (n / 256)] := by
  rw [toShort_of_le h]
  have h1 : ((n : Int) % ((256 ^ 2 : Nat) : Int)).toNat = n := by
    have : ((256 ^ 2 : Nat) : Int) = 65536 := by norm_num
    rw [this]; omega
  have h2 : n / 256 % 256 = n / 256 := Nat.mod_eq_of_lt (by omega)
  simp only [intBytes, h1, leBytes, h2]

theorem mem_flatten_replicate {n : Nat} {tab : List Byte} {x : Byte}
    (h : x ∈ (List.replicate n tab).flatten) : x ∈ tab := by
  induction n with
  | zero => simp at h
  | succ k ih =>
    rw [List.replicate_succ, List.flatten_cons, List.mem_append] at h
    rcases h with h | h
    · exact h
    · exact ih h

theorem mem_stored_nil {junk : Uninit} {n : Nat} {x : Byte} (h : x ∈ stored junk n []) :
    ∃ i, x = junk i := by
  simp only [stored, List.mem_map, List.mem_range] at h
  obtain ⟨i, -, hi⟩ := h
  exact ⟨i, by simpa using hi.symm⟩

/-- Apart from the magic number and the column count, the data file written by
`WriteImageInformation` holds bytes of the row buffer only. -/
theorem dataHeader_other_bytes (tab0 : Uninit) {d0 d1 : Nat} (h0 : 1 ≤ d0) (h0' : d0 ≤ 32767)
    (h1 : d1 ≤ 32767) (i : Nat) (h4 : 4 ≤ i)
    (hlen : i < (dataHeader tab0 d0 d1).length) (h6 : i ≠ 6) (h7 : i ≠ 7) :
    ∃ j, (dataHeader tab0 d0 d1)[i]? = some (tab0 j) := by
  have hd : intBytes 2 (toShort (d0 : Int)) ≠ [] := by
    intro h
    have := congrArg List.length h
    rw [intBytes_length] at this
    exact absurd this (by decide)
  have hlen' := hlen
  unfold dataHeader at hlen' ⊢
  rw [writeAt_length _ _ _ hd, intBytes_length] at hlen'
  rw [getElem?_writeAt _ _ _ hd, intBytes_length]
  have hmem : ∀ k, k < (intBytes 4 ONERA_MAGIC_NUMBER ++
      (List.replicate (toShort (d1 : Int) + 1).toNat
        (stored tab0 (toShort (d0 : Int) * 4 * 2).toNat [])).flatten).length → 4 ≤ k →
      ∃ j, (intBytes 4 ONERA_MAGIC_NUMBER ++
        (List.replicate (toShort (d1 : Int) + 1).toNat
          (stored tab0 (toShort (d0 : Int) * 4 * 2).toNat [])).flatten)[k]? = some (tab0 j) := by
    intro k hk h4k
    rw [List.getElem?_append_right (by rw [intBytes_length]; exact h4k), intBytes_length]
    rw [List.length_append, intBytes_length] at hk
    rw [List.getElem?_eq_getElem (by omega)]
    obtain ⟨j, hj⟩ := mem_stored_nil (mem_flatten_replicate (List.getElem_mem (l :=
      (List.replicate (toShort (d1 : Int) + 1).toNat
        (stored tab0 (toShort (d0 : Int) * 4 * 2).toNat [])).flatten) (n := k - 4) (by omega)))
    exact ⟨j, by rw [hj]⟩
  by_cases hi6 : i < 6
  · simp only [hi6, if_true]
    by_cases hi : i < (intBytes 4 ONERA_MAGIC_NUMBER ++
        (List.replicate (toShort (d1 : Int) + 1).toNat
          (stored tab0 (toShort (d0 : Int) * 4 * 2).toNat [])).flatten).length
    · simp only [hi, if_true]
      exact hmem i hi h4
    · exfalso
      apply hi
      rw [List.length_append, intBytes_length, flatten_replicate_length, stored_length,
        toShort_of_le h0', toShort_of_le h1]
      have e1 : ((d1 : Int) + 1).toNat = d1 + 1 := by omega
      have e2 : ((d0 : Int) * 4 * 2).toNat = 8 * d0 := by omega
      rw [e1, e2]
      have : 8 * d0 ≤ (d1 + 1) * (8 * d0) := Nat.le_mul_of_pos_left _ (by omega)
      omega
  · have h8 : ¬ i < 6 + 2 := by omega
    simp only [hi6, h8, if_false]
    exact hmem i (by omega) h4

theorem PutAll_truncations (texts : List String) :
    ∀ st : FileSystem × FStream, (PutAll texts st).1.truncations = st.1.truncations := by
  induction texts with
  | nil => intro st; rfl
  | cons t ts ih =>
    intro st
    have := ih (FStream.put st.1 st.2 t)
    simp only [PutAll, List.foldl_cons] at this ⊢
    rw [this]
    exact FStream.write_truncations _ _ _

theorem WriteTab_truncations (tab : List Byte) (n : Nat) :
    ∀ st : FileSystem × FStream, (WriteTab tab n st).1.truncations = st.1.truncations := by
  induction n with
  | zero => intro st; rfl
  | succ k ih =>
    intro st
    simp only [WriteTab]
    rw [ih]
    exact FStream.write_truncations _ _ _

theorem WriteDataHeader_truncations (tab0 : Uninit) (d0 d1 : Nat) (fs : FileSystem)
    (df : FStream) (r : FileSystem × FStream)
    (h : WriteDataHeader tab0 d0 d1 fs df = Except.ok r) : r.1.truncations = fs.truncations := by
  unfold WriteDataHeader at h
  simp only [] at h
  split at h
  · exact absurd h (by simp)
  · have := Except.ok.inj h
    rw [← this, FStream.write_truncations, WriteTab_truncations, FStream.write_truncations]

theorem WriteLines_truncations (hl nbpl nb first col : Nat) (temp : List Byte) (n : Nat)
    (st : FileSystem × FStream) :
    (WriteLines hl nbpl nb first col temp n st).1.truncations = st.1.truncations := by
  induction n with
  | zero => rfl
  | succ k ih =>
    have e : WriteLines hl nbpl nb first col temp (k + 1) st =
        FStream.write (WriteLines hl nbpl nb first col temp k st).1
          ((WriteLines hl nbpl nb first col temp k st).2.seekg
            ((hl + nbpl * (first + k) + nb * col : Nat) : Int))
          ((temp.drop (nbpl * k)).take nbpl) := by
      simp only [WriteLines, List.range_succ, List.foldl_append, List.foldl_cons, List.foldl_nil,
        Nat.add_sub_cancel_left]
    rw [e, FStream.write_truncations, ih]

theorem WriteBody_truncations (buffer : List Byte) (w : World) :
    (WriteBody buffer w).fs.truncations = w.fs.truncations := by
  unfold WriteBody
  exact WriteLines_truncations _ _ _ _ _ _ _ _

theorem FStream.open_output_cases (fs : FileSystem) (s : FStream) (p : String) :
    ((FStream.open fs (if s.is_open then s.close else s) p OpenMode.output).2.fail = true) ∨
    ((FStream.open fs (if s.is_open then s.close else s) p OpenMode.output).2.fail = false ∧
      (FStream.open fs (if s.is_open then s.close else s) p OpenMode.output).1 = fs.truncate p) := by
  by_cases hw : fs.writable p = true
  · right
    have := FStream.open_output fs s p hw
    exact ⟨this.2.1.2.1, this.1⟩
  · left
    cases s with
    | mk file pos failbit eofbit gcount =>
      cases file <;> simp [FStream.open, FStream.is_open, FStream.close, hw, FStream.fail]

theorem OpenOneraHeaderFileForWriting_inv (f : String) (w : World)
    (h : (OpenOneraHeaderFileForWriting R f w).1 = true) :
    (OpenOneraHeaderFileForWriting R f w).2.fs = w.fs.truncate (R f ++ ".ent") ∧
    (OpenOneraHeaderFileForWriting R f w).2.codec.m_FlagWriteImageInformation =
      w.codec.m_FlagWriteImageInformation ∧
    (OpenOneraHeaderFileForWriting R f w).2.codec.m_FileName = w.codec.m_FileName := by
  unfold OpenOneraHeaderFileForWriting at h ⊢
  rcases FStream.open_output_cases w.fs w.codec.m_Headerfile (R f ++ ".ent") with hc | ⟨hc, hfs⟩
  · simp only [hc, if_true] at h
    exact absurd h (by simp)
  · simp only [hc, Bool.false_eq_true, if_false, hfs]
    exact ⟨trivial, trivial, trivial⟩

theorem OpenOneraDataFileForWriting_inv (f : String) (w : World)
    (h : (OpenOneraDataFileForWriting R f w).1 = true) :
    (OpenOneraDataFileForWriting R f w).2.fs = w.fs.truncate (R f ++ ".dat") ∧
    (OpenOneraDataFileForWriting R f w).2.codec.m_FlagWriteImageInformation =
      w.codec.m_FlagWriteImageInformation ∧
    (OpenOneraDataFileForWriting R f w).2.codec.m_FileName = w.codec.m_FileName := by
  unfold OpenOneraDataFileForWriting at h ⊢
  rcases FStream.open_output_cases w.fs w.codec.m_Datafile (R f ++ ".dat") with hc | ⟨hc, hfs⟩
  · simp only [hc, if_true] at h
    exact absurd h (by simp)
  · simp only [hc, Bool.false_eq_true, if_false, hfs]
    exact ⟨trivial, trivial, trivial⟩

/-- What a normal return of `WriteImageInformation` has done: both files were
opened with truncation once, and neither the flag nor the file name changed. -/
theorem WriteImageInformation_inv (tab0 : Uninit) (w w1 : World)
    (h : WriteImageInformation R tab0 w = Except.ok w1) :
    w1.fs.truncations = ((w.fs.truncate (R w.codec.m_FileName ++ ".ent")).truncate
      (R w.codec.m_FileName ++ ".dat")).truncations ∧
    w1.codec.m_FlagWriteImageInformation = w.codec.m_FlagWriteImageInformation ∧
    w1.codec.m_FileName = w.codec.m_FileName := by
  unfold WriteImageInformation at h
  simp only [] at h
  by_cases h1 : (OpenOneraHeaderFileForWriting R w.codec.m_FileName w).1 = true
  · obtain ⟨a1, a2, a3⟩ := OpenOneraHeaderFileForWriting_inv R w.codec.m_FileName w h1
    simp only [h1, Bool.not_true, Bool.false_eq_true, if_false] at h
    by_cases h2 : (OpenOneraDataFileForWriting R
        (OpenOneraHeaderFileForWriting R w.codec.m_FileName w).2.codec.m_FileName
        (OpenOneraHeaderFileForWriting R w.codec.m_FileName w).2).1 = true
    · obtain ⟨b1, b2, b3⟩ := OpenOneraDataFileForWriting_inv R _ _ h2
      simp only [h2, Bool.not_true, Bool.false_eq_true, if_false] at h
      split at h
      · cases hd : WriteDataHeader tab0
            (OpenOneraDataFileForWriting R
              (OpenOneraHeaderFileForWriting R w.codec.m_FileName w).2.codec.m_FileName
              (OpenOneraHeaderFileForWriting R w.codec.m_FileName w).2).2.codec.m_Dimensions0
            (OpenOneraDataFileForWriting R
              (OpenOneraHeaderFileForWriting R w.codec.m_FileName w).2.codec.m_FileName
              (OpenOneraHeaderFileForWriting R w.codec.m_FileName w).2).2.codec.m_Dimensions1
            (PutAll (headerTextTail "cmplx_real_4"
              (OpenOneraDataFileForWriting R
                (OpenOneraHeaderFileForWriting R w.codec.m_FileName w).2.codec.m_FileName
                (OpenOneraHeaderFileForWriting R w.codec.m_FileName w).2).2.codec.m_Dimensions0
              (OpenOneraDataFileForWriting R
                (OpenOneraHeaderFileForWriting R w.codec.m_FileName w).2.codec.m_FileName
                (OpenOneraHeaderFileForWriting R w.codec.m_FileName w).2).2.codec.m_Dimensions1)
              (PutAll (headerTextHead (R (OpenOneraDataFileForWriting R
                (OpenOneraHeaderFileForWriting R w.codec.m_FileName w).2.codec.m_FileName
                (OpenOneraHeaderFileForWriting R w.codec.m_FileName w).2).2.codec.m_FileName
                  ++ ".dat"))
                ((OpenOneraDataFileForWriting R
                  (OpenOneraHeaderFileForWriting R w.codec.m_FileName w).2.codec.m_FileName
                  (OpenOneraHeaderFileForWriting R w.codec.m_FileName w).2).2.fs,
                 (OpenOneraDataFileForWriting R
                  (OpenOneraHeaderFileForWriting R w.codec.m_FileName w).2.codec.m_FileName
                  (OpenOneraHeaderFileForWriting R w.codec.m_FileName w).2).2.codec.m_Headerfile))).1
            (OpenOneraDataFileForWriting R
              (OpenOneraHeaderFileForWriting R w.codec.m_FileName w).2.codec.m_FileName
              (OpenOneraHeaderFileForWriting R w.codec.m_FileName w).2).2.codec.m_Datafile with
        | error e => rw [hd] at h; exact absurd h (by simp [Except.map])
        | ok d3 =>
          rw [hd] at h
          have ht := WriteDataHeader_truncations _ _ _ _ _ _ hd
          rw [PutAll_truncations, PutAll_truncations] at ht
          simp only [Except.map] at h
          have hw1 := Except.ok.inj h
          rw [← hw1]
          refine ⟨?_, ?_, ?_⟩
          · show d3.1.truncations = _
            rw [ht, b1, a1, a3]
          · exact b2.trans a2
          · exact b3.trans a3
      · exact absurd h (by simp)
    · simp only [h2, Bool.not_false, if_true] at h
      exact absurd h (by simp)
  · simp only [h1, Bool.not_false, if_true] at h
    exact absurd h (by simp)

/-- Calls of `Write` that find the flag cleared open no file and leave the flag
cleared. -/
theorem WriteAll_after_header (calls : List (Uninit × ImageIORegion × List Byte)) :
    ∀ (w w' : World), w.codec.m_FlagWriteImageInformation = false →
      WriteAll R calls w = Except.ok w' →
      w'.codec.m_FlagWriteImageInformation = false ∧ w'.fs.truncations = w.fs.truncations := by
  induction calls with
  | nil =>
    intro w w' hf h
    have := Except.ok.inj h
    rw [← this]
    exact ⟨hf, rfl⟩
  | cons call rest ih =>
    intro w w' hf h
    have hf' : (SetIORegion call.2.1 w).codec.m_FlagWriteImageInformation = false := hf
    have e : Write R call.1 call.2.2 (SetIORegion call.2.1 w) =
        Except.ok (WriteBody call.2.2 (SetIORegion call.2.1 w)) := by
      unfold Write
      simp only [hf', Bool.false_eq_true, if_false]
    simp only [WriteAll, e, Except.bind] at h
    obtain ⟨h1, h2⟩ := ih (WriteBody call.2.2 (SetIORegion call.2.1 w)) w' hf' h
    exact ⟨h1, h2.trans (WriteBody_truncations call.2.2 (SetIORegion call.2.1 w))⟩

/-- A call of `Write` that finds the flag set and returns normally has opened
both files with truncation once and has cleared the flag. -/
theorem Write_first_inv (tab0 : Uninit) (buffer : List Byte) (w w1 : World)
    (hf : w.codec.m_FlagWriteImageInformation = true)
    (h : Write R tab0 buffer w = Except.ok w1) :
    w1.codec.m_FlagWriteImageInformation = false ∧
    w1.fs.truncations = ((w.fs.truncate (R w.codec.m_FileName ++ ".ent")).truncate
      (R w.codec.m_FileName ++ ".dat")).truncations := by
  unfold Write at h
  simp only [hf, if_true] at h
  cases hw : WriteImageInformation R tab0 w with
  | error e => rw [hw] at h; exact absurd h (by simp [Except.map])
  | ok w0 =>
    rw [hw] at h
    simp only [Except.map] at h
    have h1 := Except.ok.inj h
    obtain ⟨a1, -, -⟩ := WriteImageInformation_inv R tab0 w w0 hw
    rw [← h1]
    exact ⟨rfl, (WriteBody_truncations _ _).trans a1⟩

theorem Read_zero (w : World) (F : List Byte)
    (hF : w.fs.files (R w.codec.m_FileName ++ ".dat") = some F)
    (hn : 2 * w.codec.m_NbOctetPixel * w.codec.m_IORegion.size0 = 0) :
    ∃ x : List Byte × World, Read R w = Except.ok x := by
  obtain ⟨ds1, g1, -, a1, a2⟩ := OpenOneraDataFileForReading_ok R w.codec.m_FileName w hF
  obtain ⟨df', e⟩ := ReadLines_zero w.fs
    ((ONERA_HEADER_LENGTH : Int) + 2 * w.codec.m_width * (w.codec.m_NbOctetPixel : Int))
    (2 * w.codec.m_width * (w.codec.m_NbOctetPixel : Int)) w.codec.m_NbOctetPixel
    w.codec.m_IORegion.index0 w.codec.m_IORegion.size1 w.codec.m_IORegion.index1 ds1
  have hr : Read R w = Except.ok ([], { fs := w.fs, codec := { w.codec with m_Datafile := df' } }) := by
    unfold Read
    simp only []
    simp only [a1]
    simp only [a2]
    simp only [Bool.not_true, Bool.false_eq_true, if_false]
    simp only [hn]
    simp only [e]
    simp only [Except.map, SwapRangeFromSystemToLittleEndian, ite_self]
  exact ⟨_, hr⟩

theorem bytesObtained_eq_iff (F : List Byte) (off : Int) (n : Nat) (hn : 0 < n) :
    bytesObtained F off n = n ↔ 0 ≤ off ∧ off.toNat + n ≤ F.length := by
  unfold bytesObtained
  by_cases h : off < 0
  · simp only [h, if_true]
    constructor
    · intro e; omega
    · intro e; omega
  · simp only [h, if_false]
    constructor
    · intro e
      have := Nat.min_le_right n (F.length - off.toNat)
      omega
    · intro e
      exact Nat.min_eq_left (by omega)

/-! ### Lemmas for the region of a transfer, the layout of a read and the header text -/

theorem CanWriteFile_fst (f : String) (w : World) :
    (CanWriteFile R f w).1 = true ↔ f = R f ++ ".ent" := by
  unfold CanWriteFile
  by_cases h : f = R f ++ ".ent"
  · simp only [← h, if_true]
  · simp only [h, if_false, Bool.false_eq_true]

theorem CanWriteFile_snd (f : String) (w : World) : (CanWriteFile R f w).2 = w := by
  unfold CanWriteFile
  by_cases h : f = R f ++ ".ent"
  · simp only [← h, if_true]
  · simp only [h, if_false]

theorem OpenOneraHeaderFileForWriting_region (f : String) (r : ImageIORegion) (w : World) :
    OpenOneraHeaderFileForWriting R f (SetIORegion r w) =
      ((OpenOneraHeaderFileForWriting R f w).1,
        SetIORegion r (OpenOneraHeaderFileForWriting R f w).2) := by
  unfold OpenOneraHeaderFileForWriting
  simp only [SetIORegion]
  by_cases h : (FStream.open w.fs
      (if w.codec.m_Headerfile.is_open = true then w.codec.m_Headerfile.close
        else w.codec.m_Headerfile) (R f ++ ".ent") OpenMode.output).2.fail = true
  · simp only [h, if_true]
  · simp only [h, Bool.false_eq_true, if_false]

theorem OpenOneraDataFileForWriting_region (f : String) (r : ImageIORegion) (w : World) :
    OpenOneraDataFileForWriting R f (SetIORegion r w) =
      ((OpenOneraDataFileForWriting R f w).1,
        SetIORegion r (OpenOneraDataFileForWriting R f w).2) := by
  unfold OpenOneraDataFileForWriting
  simp only [SetIORegion]
  by_cases h : (FStream.open w.fs
      (if w.codec.m_Datafile.is_open = true then w.codec.m_Datafile.close
        else w.codec.m_Datafile) (R f ++ ".dat") OpenMode.output).2.fail = true
  · simp only [h, if_true]
  · simp only [h, Bool.false_eq_true, if_false]

theorem WriteImageInformation_region (tab0 : Uninit) (r : ImageIORegion) (w : World) :
    WriteImageInformation R tab0 (SetIORegion r w) =
      (WriteImageInformation R tab0 w).map (SetIORegion r) := by
  unfold WriteImageInformation
  simp only []
  have e0 : (SetIORegion r w).codec.m_FileName = w.codec.m_FileName := rfl
  rw [e0, OpenOneraHeaderFileForWriting_region]
  generalize OpenOneraHeaderFileForWriting R w.codec.m_FileName w = rh
  simp only []
  by_cases h1 : rh.1 = true
  · simp only [h1, Bool.not_true, Bool.false_eq_true, if_false]
    have e1 : (SetIORegion r rh.2).codec.m_FileName = rh.2.codec.m_FileName := rfl
    rw [e1, OpenOneraDataFileForWriting_region]
    generalize OpenOneraDataFileForWriting R rh.2.codec.m_FileName rh.2 = rd
    simp only []
    by_cases h2 : rd.1 = true
    · simp only [h2, Bool.not_true, Bool.false_eq_true, if_false]
      simp only [SetIORegion]
      by_cases h3 : rd.2.codec.m_PixelType = IOPixelType.COMPLEX ∧
          rd.2.codec.m_ComponentType = IOComponentType.FLOAT
      · simp only [h3, and_self, if_true]
        cases WriteDataHeader tab0 rd.2.codec.m_Dimensions0 rd.2.codec.m_Dimensions1
          (PutAll (headerTextTail "cmplx_real_4" rd.2.codec.m_Dimensions0 rd.2.codec.m_Dimensions1)
            (PutAll (headerTextHead (R rd.2.codec.m_FileName ++ ".dat"))
              (rd.2.fs, rd.2.codec.m_Headerfile))).1 rd.2.codec.m_Datafile with
        | error e => rfl
        | ok d => rfl
      · simp only [h3, if_false]
        rfl
    · simp only [h2, Bool.not_false, if_true]
      rfl
  · simp only [h1, Bool.not_false, if_true]
    rfl

theorem OpenOneraHeaderFileForWriting_dims (f : String) (w : World) :
    (OpenOneraHeaderFileForWriting R f w).2.codec.m_Dimensions0 = w.codec.m_Dimensions0 ∧
    (OpenOneraHeaderFileForWriting R f w).2.codec.m_Dimensions1 = w.codec.m_Dimensions1 := by
  unfold OpenOneraHeaderFileForWriting
  by_cases h : (FStream.open w.fs
      (if w.codec.m_Headerfile.is_open = true then w.codec.m_Headerfile.close
        else w.codec.m_Headerfile) (R f ++ ".ent") OpenMode.output).2.fail = true
  · simp only [h, if_true, and_self]
  · simp only [h, Bool.false_eq_true, if_false, and_self]

theorem OpenOneraDataFileForWriting_dims (f : String) (w : World) :
    (OpenOneraDataFileForWriting R f w).2.codec.m_Dimensions0 = w.codec.m_Dimensions0 ∧
    (OpenOneraDataFileForWriting R f w).2.codec.m_Dimensions1 = w.codec.m_Dimensions1 := by
  unfold OpenOneraDataFileForWriting
  by_cases h : (FStream.open w.fs
      (if w.codec.m_Datafile.is_open = true then w.codec.m_Datafile.close
        else w.codec.m_Datafile) (R f ++ ".dat") OpenMode.output).2.fail = true
  · simp only [h, if_true, and_self]
  · simp only [h, Bool.false_eq_true, if_false, and_self]

theorem WriteImageInformation_dims (tab0 : Uninit) (w w1 : World)
    (h : WriteImageInformation R tab0 w = Except.ok w1) :
    w1.codec.m_Dimensions0 = w.codec.m_Dimensions0 ∧
    w1.codec.m_Dimensions1 = w.codec.m_Dimensions1 := by
  unfold WriteImageInformation at h
  simp only [] at h
  have a := OpenOneraHeaderFileForWriting_dims R w.codec.m_FileName w
  generalize OpenOneraHeaderFileForWriting R w.codec.m_FileName w = rh at h a
  by_cases h1 : rh.1 = true
  · simp only [h1, Bool.not_true, Bool.false_eq_true, if_false] at h
    have b := OpenOneraDataFileForWriting_dims R rh.2.codec.m_FileName rh.2
    generalize OpenOneraDataFileForWriting R rh.2.codec.m_FileName rh.2 = rd at h b
    by_cases h2 : rd.1 = true
    · simp only [h2, Bool.not_true, Bool.false_eq_true, if_false] at h
      by_cases h3 : rd.2.codec.m_PixelType = IOPixelType.COMPLEX ∧
          rd.2.codec.m_ComponentType = IOComponentType.FLOAT
      · simp only [h3, and_self, if_true] at h
        generalize WriteDataHeader tab0 rd.2.codec.m_Dimensions0 rd.2.codec.m_Dimensions1
          (PutAll (headerTextTail "cmplx_real_4" rd.2.codec.m_Dimensions0 rd.2.codec.m_Dimensions1)
            (PutAll (headerTextHead (R rd.2.codec.m_FileName ++ ".dat"))
              (rd.2.fs, rd.2.codec.m_Headerfile))).1 rd.2.codec.m_Datafile = x at h
        cases x with
        | error e => exact absurd h (by simp [Except.map])
        | ok d =>
          simp only [Except.map] at h
          have h' := Except.ok.inj h
          rw [← h']
          exact ⟨b.1.trans a.1, b.2.trans a.2⟩
      · simp only [h3, if_false] at h
        exact absurd h (by simp)
    · simp only [h2, Bool.not_false, if_true] at h
      exact absurd h (by simp)
  · simp only [h1, Bool.not_false, if_true] at h
    exact absurd h (by simp)

theorem WriteBody_full_region (buffer : List Byte) (w : World) (r : ImageIORegion)
    (h1 : r.size1 = w.codec.m_Dimensions1) (h0 : r.size0 = w.codec.m_Dimensions0) :
    WriteBody buffer (SetIORegion r w) =
      SetIORegion r (WriteBody buffer (SetIORegion { r with index0 := 0, index1 := 0 } w)) := by
  unfold WriteBody
  simp only [SetIORegion, h1, h0, decide_True, Bool.and_self, if_true]

theorem Write_full_region (tab0 : Uninit) (buffer : List Byte) (w : World) (r : ImageIORegion)
    (h1 : r.size1 = w.codec.m_Dimensions1) (h0 : r.size0 = w.codec.m_Dimensions0) :
    Write R tab0 buffer (SetIORegion r w) =
      (Write R tab0 buffer (SetIORegion { r with index0 := 0, index1 := 0 } w)).map
        (SetIORegion r) := by
  unfold Write
  have ef : (SetIORegion r w).codec.m_FlagWriteImageInformation =
      w.codec.m_FlagWriteImageInformation := rfl
  have ef' : (SetIORegion { r with index0 := 0, index1 := 0 } w).codec.m_FlagWriteImageInformation =
      w.codec.m_FlagWriteImageInformation := rfl
  rw [ef, ef']
  by_cases hf : w.codec.m_FlagWriteImageInformation = true
  · simp only [hf, if_true]
    rw [WriteImageInformation_region, WriteImageInformation_region]
    cases hW : WriteImageInformation R tab0 w with
    | error e => rfl
    | ok w1 =>
      simp only [Except.map]
      obtain ⟨d0, d1⟩ := WriteImageInformation_dims R tab0 w w1 hW
      have := WriteBody_full_region buffer
        { fs := w1.fs, codec := { w1.codec with m_FlagWriteImageInformation := false } } r
        (h1.trans d1.symm) (h0.trans d0.symm)
      exact congrArg Except.ok this
  · simp only [hf, Bool.false_eq_true, if_false, Except.map]
    rw [WriteBody_full_region buffer w r h1 h0]

theorem rowOffset_four (W : Int) (col L : Nat) :
    rowOffset ((ONERA_HEADER_LENGTH : Int) + 2 * W * ((4 : Nat) : Int))
      (2 * W * ((4 : Nat) : Int)) 4 col L =
      4 + 8 * W + 8 * W * (L : Int) + 4 * (col : Int) := by
  simp only [rowOffset, ONERA_HEADER_LENGTH]
  push_cast
  ring

theorem regionBytes_eq_flatMap (F : List Byte) (hl s : Int) (nb col n : Nat) (count : Nat) :
    ∀ L : Nat, regionBytes F hl s nb col n count L =
      (List.range count).flatMap (fun i => readAt F (rowOffset hl s nb col (L + i)).toNat n) := by
  induction count with
  | zero => intro L; rfl
  | succ k ih =>
    intro L
    rw [List.range_succ_eq_map, List.flatMap_cons, List.flatMap_map, regionBytes, ih (L + 1)]
    simp only [Nat.add_zero]
    congr 2
    funext i
    simp only [Function.comp, Nat.succ_eq_add_one]
    rw [show L + 1 + i = L + (i + 1) by omega]

theorem regionBytes_length (F : List Byte) (hl s : Int) (nb col n : Nat) (count : Nat) :
    ∀ L : Nat, (∀ i, i < count → (rowOffset hl s nb col (L + i)).toNat + n ≤ F.length) →
      (regionBytes F hl s nb col n count L).length = n * count := by
  induction count with
  | zero => intro L _; rfl
  | succ k ih =>
    intro L h
    have h0 := h 0 (by omega)
    simp only [Nat.add_zero] at h0
    have := ih (L + 1) (fun i hi => by
      have := h (i + 1) (by omega)
      rwa [show L + (i + 1) = L + 1 + i by omega] at this)
    simp only [regionBytes, List.length_append, this, readAt_length, Nat.mul_succ]
    omega

theorem Read_empty (w : World) (F : List Byte)
    (hF : w.fs.files (R w.codec.m_FileName ++ ".dat") = some F)
    (hn : 2 * w.codec.m_NbOctetPixel * w.codec.m_IORegion.size0 = 0) :
    ∃ w' : World, Read R w = Except.ok ([], w') := by
  obtain ⟨ds1, g1, -, a1, a2⟩ := OpenOneraDataFileForReading_ok R w.codec.m_FileName w hF
  obtain ⟨df', e⟩ := ReadLines_zero w.fs
    ((ONERA_HEADER_LENGTH : Int) + 2 * w.codec.m_width * (w.codec.m_NbOctetPixel : Int))
    (2 * w.codec.m_width * (w.codec.m_NbOctetPixel : Int)) w.codec.m_NbOctetPixel
    w.codec.m_IORegion.index0 w.codec.m_IORegion.size1 w.codec.m_IORegion.index1 ds1
  have hr : Read R w = Except.ok ([], { fs := w.fs, codec := { w.codec with m_Datafile := df' } }) := by
    unfold Read
    simp only []
    simp only [a1]
    simp only [a2]
    simp only [Bool.not_true, Bool.false_eq_true, if_false]
    simp only [hn]
    simp only [e]
    simp only [Except.map, SwapRangeFromSystemToLittleEndian, ite_self]
  exact ⟨_, hr⟩

theorem flatMap_nil_of_forall {α β : Type} (l : List α) (f : α → List β) (h : ∀ a, f a = []) :
    l.flatMap f = [] := by
  induction l with
  | nil => rfl
  | cons a t ih => rw [List.flatMap_cons, h a, ih]; rfl

theorem stringBytes_append (a b : String) :
    stringBytes (a ++ b) = stringBytes a ++ stringBytes b := by
  simp [stringBytes, String.toUTF8]

theorem stringBytes_newline : stringBytes "\n" = [10] := by decide

theorem nthLine_zero_append (l rest : List Byte) (h : ∀ b ∈ l, b ≠ 10) :
    nthLine 0 (l ++ 10 :: rest) = l := by
  induction l with
  | nil => simp [nthLine]
  | cons a t ih =>
    have ha : a ≠ 10 := h a (List.mem_cons_self _ _)
    have := ih (fun b hb => h b (List.mem_cons_of_mem _ hb))
    simp only [nthLine] at this ⊢
    simp [List.takeWhile_cons, ha, this]

theorem nthLine_succ_append (n : Nat) (l rest : List Byte) (h : ∀ b ∈ l, b ≠ 10) :
    nthLine (n + 1) (l ++ 10 :: rest) = nthLine n rest := by
  have hd : (l ++ 10 :: rest).dropWhile (fun b => b != 10) = 10 :: rest := by
    induction l with
    | nil => simp
    | cons a t ih =>
      have ha : a ≠ 10 := h a (List.mem_cons_self _ _)
      have := ih (fun b hb => h b (List.mem_cons_of_mem _ hb))
      simp [List.dropWhile_cons, ha, this]
  simp only [nthLine, hd, List.drop_succ_cons, List.drop_zero]

theorem PutAll_files (p : String) (texts : List String) :
    ∀ (st : FileSystem × FStream) (c : List Byte), st.2.goodOn p OpenMode.output →
      st.1.files p = some c → st.2.pos = c.length →
      (PutAll texts st).1.files p = some (c ++ (texts.map stringBytes).flatten) := by
  induction texts with
  | nil => intro st c _ hc _; simpa [PutAll] using hc
  | cons t ts ih =>
    intro st c h hc hp
    have h1 := FStream.write_goodOn h st.1 (stringBytes t)
    have h3 := FStream.write_files_self h st.1 (stringBytes t) hc
    rw [hp, writeAt_end] at h3
    have h4 : (FStream.write st.1 st.2 (stringBytes t)).2.pos = (c ++ stringBytes t).length := by
      rw [FStream.write_snd h]; simp [hp]
    have := ih (FStream.put st.1 st.2 t) (c ++ stringBytes t) h1 h3 h4
    simp only [PutAll, List.foldl_cons] at this ⊢
    rw [this]
    simp

theorem PutAll_append (a b : List String) (st : FileSystem × FStream) :
    PutAll b (PutAll a st) = PutAll (a ++ b) st := by
  simp only [PutAll, List.foldl_append]

/-- The header file that a successful `WriteImageInformation` leaves. -/
theorem WriteImageInformation_header (tab0 : Uninit) (w : World)
    (hwe : w.fs.writable (R w.codec.m_FileName ++ ".ent") = true)
    (hwd : w.fs.writable (R w.codec.m_FileName ++ ".dat") = true)
    (hpix : w.codec.m_PixelType = IOPixelType.COMPLEX)
    (hcomp : w.codec.m_ComponentType = IOComponentType.FLOAT)
    (hcol : 0 ≤ toShort (w.codec.m_Dimensions0 : Int)) :
    ∃ w1 : World, WriteImageInformation R tab0 w = Except.ok w1 ∧
      w1.fs.files (R w.codec.m_FileName ++ ".ent") =
        some (headerFile (R w.codec.m_FileName ++ ".dat") w.codec.m_Dimensions0
          w.codec.m_Dimensions1) := by
  obtain ⟨hs0, hhs0, hpos0, hH1, hH2⟩ := OpenOneraHeaderFileForWriting_ok R w.codec.m_FileName w hwe
  obtain ⟨ds0, hds0, -, hD1, hD2⟩ := OpenOneraDataFileForWriting_ok R w.codec.m_FileName
    { fs := w.fs.truncate (R w.codec.m_FileName ++ ".ent"),
      codec := { w.codec with m_Headerfile := hs0 } } hwd
  have hne := ent_ne_dat (R w.codec.m_FileName)
  have hent0 : ((w.fs.truncate (R w.codec.m_FileName ++ ".ent")).truncate
      (R w.codec.m_FileName ++ ".dat")).files (R w.codec.m_FileName ++ ".ent") = some [] := by
    rw [FileSystem.truncate_files_other _ hne]
    exact FileSystem.truncate_files_self _ _
  obtain ⟨p1, p2⟩ := PutAll_spec (R w.codec.m_FileName ++ ".ent")
    (headerTextHead (R w.codec.m_FileName ++ ".dat") ++
      headerTextTail "cmplx_real_4" w.codec.m_Dimensions0 w.codec.m_Dimensions1)
    ((w.fs.truncate (R w.codec.m_FileName ++ ".ent")).truncate (R w.codec.m_FileName ++ ".dat"), hs0)
    hhs0
  have pf := PutAll_files (R w.codec.m_FileName ++ ".ent")
    (headerTextHead (R w.codec.m_FileName ++ ".dat") ++
      headerTextTail "cmplx_real_4" w.codec.m_Dimensions0 w.codec.m_Dimensions1)
    ((w.fs.truncate (R w.codec.m_FileName ++ ".ent")).truncate (R w.codec.m_FileName ++ ".dat"), hs0)
    [] hhs0 hent0 hpos0
  rw [← PutAll_append] at p1 p2 pf
  have hc : (PutAll (headerTextTail "cmplx_real_4" w.codec.m_Dimensions0 w.codec.m_Dimensions1)
      (PutAll (headerTextHead (R w.codec.m_FileName ++ ".dat"))
        ((w.fs.truncate (R w.codec.m_FileName ++ ".ent")).truncate
          (R w.codec.m_FileName ++ ".dat"), hs0))).1.files (R w.codec.m_FileName ++ ".dat")
      = some [] := by
    rw [p2.1 _ (Ne.symm hne)]
    exact FileSystem.truncate_files_self _ _
  obtain ⟨r, r1, r2, r3, r4⟩ := WriteDataHeader_spec tab0 w.codec.m_Dimensions0
    w.codec.m_Dimensions1 _ ds0 _ hds0 hc hcol
  refine ⟨{ fs := r.1, codec := { w.codec with
      m_Headerfile := (PutAll (headerTextTail "cmplx_real_4" w.codec.m_Dimensions0
        w.codec.m_Dimensions1)
        (PutAll (headerTextHead (R w.codec.m_FileName ++ ".dat"))
          ((w.fs.truncate (R w.codec.m_FileName ++ ".ent")).truncate
            (R w.codec.m_FileName ++ ".dat"), hs0))).2, m_Datafile := r.2 } }, ?_, ?_⟩
  · unfold WriteImageInformation
    simp only []
    simp only [hH1]
    simp only [hH2]
    simp only [hD1]
    simp only [hD2]
    simp only [Bool.not_true, Bool.false_eq_true, if_false, hpix, hcomp,
      and_self, if_true]
    simp only [r1]
    simp only [Except.map]
  · show r.1.files (R w.codec.m_FileName ++ ".ent") = _
    rw [r4.1 _ hne, pf]
    rfl

set_option maxRecDepth 100000 in
/-- The header text as lines: the first eight lines, each closed by a line feed,
then the two lines that give the dimensions. -/
theorem headerFile_eq (D : String) (d0 d1 : Nat) :
    headerFile D d0 d1 =
      stringBytes "#                    [fichier en-tete produit par les routines de otb (Orfeo ToolBox) ]" ++
        10 :: (stringBytes "# Nom du look :" ++
        10 :: ((stringBytes "Look.dat= \t" ++ stringBytes D) ++
        10 :: ([] ++
        10 :: (stringBytes "# Structure du fichier et codage des pixels :" ++
        10 :: (stringBytes "# 4 octets precedent la premiere ligne : ils correspondent a un nombre magique [I4= 33554433] " ++
        10 :: (stringBytes "# [dans ordre LSBfirst = big-endian]" ++
        10 :: (stringBytes "Format_valeurs_look=    \tcmplx_real_4" ++
        10 :: (stringBytes ("Nb_case_par_ligne_look= \t" ++ toString d0 ++ "\n") ++
          stringBytes ("Nb_ligne_look=          \t" ++ toString d1 ++
            " + 1 ligne en-tete en binaire (entiers 16 bit) \n"))))))))) := by
  have e1 : stringBytes "#                    [fichier en-tete produit par les routines de otb (Orfeo ToolBox) ]\n" =
      stringBytes "#                    [fichier en-tete produit par les routines de otb (Orfeo ToolBox) ]" ++ [10] := by
    decide
  have e2 : stringBytes "# Nom du look :\n" = stringBytes "# Nom du look :" ++ [10] := by decide
  have e4 : stringBytes "\n" = [10] := by decide
  have e5 : stringBytes "# Structure du fichier et codage des pixels :\n" =
      stringBytes "# Structure du fichier et codage des pixels :" ++ [10] := by decide
  have e6 : stringBytes "# 4 octets precedent la premiere ligne : ils correspondent a un nombre magique [I4= 33554433] \n" =
      stringBytes "# 4 octets precedent la premiere ligne : ils correspondent a un nombre magique [I4= 33554433] " ++ [10] := by
    decide
  have e7 : stringBytes "# [dans ordre LSBfirst = big-endian]\n" =
      stringBytes "# [dans ordre LSBfirst = big-endian]" ++ [10] := by decide
  have e8 : stringBytes ("Format_valeurs_look=    \t" ++ "cmplx_real_4" ++ "\n") =
      stringBytes "Format_valeurs_look=    \tcmplx_real_4" ++ [10] := by decide
  have e3 : stringBytes ("Look.dat= \t" ++ D ++ "\n") =
      (stringBytes "Look.dat= \t" ++ stringBytes D) ++ [10] := by
    rw [stringBytes_append, stringBytes_append, e4]
  unfold headerFile headerTextHead headerTextTail
  simp only [List.cons_append, List.nil_append, List.map_cons, List.map_nil, List.flatten_cons,
    List.flatten_nil, e1, e2, e3, e4, e5, e6, e7, e8, List.append_assoc, List.singleton_append,
    List.append_nil]

set_option maxRecDepth 100000 in
theorem headerFile_lines (D : String) (d0 d1 : Nat) (hD : ∀ b ∈ stringBytes D, b ≠ 10) :
    nthLine 0 (headerFile D d0 d1) =
      stringBytes "#                    [fichier en-tete produit par les routines de otb (Orfeo ToolBox) ]" ∧
    nthLine 1 (headerFile D d0 d1) = stringBytes "# Nom du look :" ∧
    nthLine 2 (headerFile D d0 d1) = stringBytes "Look.dat= \t" ++ stringBytes D ∧
    nthLine 7 (headerFile D d0 d1) = stringBytes "Format_valeurs_look=    \tcmplx_real_4" := by
  have n1 : ∀ b ∈ stringBytes "#                    [fichier en-tete produit par les routines de otb (Orfeo ToolBox) ]", b ≠ 10 := by
    decide
  have n2 : ∀ b ∈ stringBytes "# Nom du look :", b ≠ 10 := by decide
  have n3 : ∀ b ∈ stringBytes "Look.dat= \t" ++ stringBytes D, b ≠ 10 := by
    intro b hb
    rcases List.mem_append.mp hb with h | h
    · exact (show ∀ b ∈ stringBytes "Look.dat= \t", b ≠ 10 by decide) b h
    · exact hD b h
  have n4 : ∀ b ∈ ([] : List Byte), b ≠ 10 := by intro b hb; cases hb
  have n5 : ∀ b ∈ stringBytes "# Structure du fichier et codage des pixels :", b ≠ 10 := by decide
  have n6 : ∀ b ∈ stringBytes "# 4 octets precedent la premiere ligne : ils correspondent a un nombre magique [I4= 33554433] ", b ≠ 10 := by
    decide
  have n7 : ∀ b ∈ stringBytes "# [dans ordre LSBfirst = big-endian]", b ≠ 10 := by decide
  have n8 : ∀ b ∈ stringBytes "Format_valeurs_look=    \tcmplx_real_4", b ≠ 10 := by decide
  rw [headerFile_eq]
  refine ⟨nthLine_zero_append _ _ n1, ?_, ?_, ?_⟩
  · rw [nthLine_succ_append _ _ _ n1]
    exact nthLine_zero_append _ _ n2
  · rw [nthLine_succ_append _ _ _ n1, nthLine_succ_append _ _ _ n2]
    exact nthLine_zero_append _ _ n3
  · rw [nthLine_succ_append _ _ _ n1, nthLine_succ_append _ _ _ n2, nthLine_succ_append _ _ _ n3,
      nthLine_succ_append _ _ _ n4, nthLine_succ_append _ _ _ n5, nthLine_succ_append _ _ _ n6,
      nthLine_succ_append _ _ _ n7]
    exact nthLine_zero_append _ _ n8

theorem FStream.open_output_not_writable (fs : FileSystem) (s : FStream) (p : String)
    (hw : ¬ fs.writable p = true) :
    (FStream.open fs (if s.is_open then s.close else s) p OpenMode.output).2.fail = true := by
  cases s with
  | mk file pos failbit eofbit gcount =>
    cases file <;> simp [FStream.open, FStream.is_open, FStream.close, hw, FStream.fail]

theorem FStream.open_writable (fs : FileSystem) (s : FStream) (p : String) (m : OpenMode) :
    (FStream.open fs s p m).1.writable = fs.writable := by
  unfold FStream.open
  split
  · rfl
  · split
    · split <;> rfl
    · split <;> rfl

/-- What `OpenOneraHeaderFileForWriting` leaves alone, and what its success tells. -/
theorem OpenOneraHeaderFileForWriting_frame (f : String) (w : World) :
    ((OpenOneraHeaderFileForWriting R f w).1 = true → w.fs.writable (R f ++ ".ent") = true) ∧
    (OpenOneraHeaderFileForWriting R f w).2.fs.writable = w.fs.writable ∧
    (OpenOneraHeaderFileForWriting R f w).2.codec.m_FileName = w.codec.m_FileName ∧
    (OpenOneraHeaderFileForWriting R f w).2.codec.m_PixelType = w.codec.m_PixelType ∧
    (OpenOneraHeaderFileForWriting R f w).2.codec.m_ComponentType = w.codec.m_ComponentType ∧
    (OpenOneraHeaderFileForWriting R f w).2.codec.m_Dimensions0 = w.codec.m_Dimensions0 ∧
    (OpenOneraHeaderFileForWriting R f w).2.codec.m_Dimensions1 = w.codec.m_Dimensions1 := by
  have hwr := FStream.open_writable w.fs
    (if w.codec.m_Headerfile.is_open = true then w.codec.m_Headerfile.close
      else w.codec.m_Headerfile) (R f ++ ".ent") OpenMode.output
  have hnw := FStream.open_output_not_writable w.fs w.codec.m_Headerfile (R f ++ ".ent")
  unfold OpenOneraHeaderFileForWriting
  by_cases h : (FStream.open w.fs
      (if w.codec.m_Headerfile.is_open = true then w.codec.m_Headerfile.close
        else w.codec.m_Headerfile) (R f ++ ".ent") OpenMode.output).2.fail = true
  · simp only [h, if_true, Bool.false_eq_true, false_implies, true_and, and_true]
    exact hwr
  · simp only [h, Bool.false_eq_true, if_false, true_implies, and_true, true_and]
    refine ⟨?_, hwr⟩
    by_contra hw
    exact h (hnw hw)

/-- What `OpenOneraDataFileForWriting` leaves alone, and what its success tells. -/
theorem OpenOneraDataFileForWriting_frame (f : String) (w : World) :
    ((OpenOneraDataFileForWriting R f w).1 = true → w.fs.writable (R f ++ ".dat") = true) ∧
    (OpenOneraDataFileForWriting R f w).2.fs.writable = w.fs.writable ∧
    (OpenOneraDataFileForWriting R f w).2.codec.m_FileName = w.codec.m_FileName ∧
    (OpenOneraDataFileForWriting R f w).2.codec.m_PixelType = w.codec.m_PixelType ∧
    (OpenOneraDataFileForWriting R f w).2.codec.m_ComponentType = w.codec.m_ComponentType ∧
    (OpenOneraDataFileForWriting R f w).2.codec.m_Dimensions0 = w.codec.m_Dimensions0 ∧
    (OpenOneraDataFileForWriting R f w).2.codec.m_Dimensions1 = w.codec.m_Dimensions1 := by
  have hwr := FStream.open_writable w.fs
    (if w.codec.m_Datafile.is_open = true then w.codec.m_Datafile.close
      else w.codec.m_Datafile) (R f ++ ".dat") OpenMode.output
  have hnw := FStream.open_output_not_writable w.fs w.codec.m_Datafile (R f ++ ".dat")
  unfold OpenOneraDataFileForWriting
  by_cases h : (FStream.open w.fs
      (if w.codec.m_Datafile.is_open = true then w.codec.m_Datafile.close
        else w.codec.m_Datafile) (R f ++ ".dat") OpenMode.output).2.fail = true
  · simp only [h, if_true, Bool.false_eq_true, false_implies, true_and, and_true]
    exact hwr
  · simp only [h, Bool.false_eq_true, if_false, true_implies, and_true, true_and]
    refine ⟨?_, hwr⟩
    by_contra hw
    exact h (hnw hw)

theorem WriteDataHeader_ok_column (tab0 : Uninit) (d0 d1 : Nat) (fs : FileSystem) (df : FStream)
    (r : FileSystem × FStream) (h : WriteDataHeader tab0 d0 d1 fs df = Except.ok r) :
    0 ≤ toShort (d0 : Int) := by
  unfold WriteDataHeader at h
  simp only [] at h
  by_cases hneg : toShort (d0 : Int) * 4 * 2 < 0
  · simp only [hneg, if_true] at h
    exact absurd h (by simp)
  · omega

/-- What a normal return of `WriteImageInformation` tells about the state it
started from. -/
theorem WriteImageInformation_ok_conditions (tab0 : Uninit) (w w1 : World)
    (h : WriteImageInformation R tab0 w = Except.ok w1) :
    w.fs.writable (R w.codec.m_FileName ++ ".ent") = true ∧
    w.fs.writable (R w.codec.m_FileName ++ ".dat") = true ∧
    w.codec.m_PixelType = IOPixelType.COMPLEX ∧
    w.codec.m_ComponentType = IOComponentType.FLOAT ∧
    0 ≤ toShort (w.codec.m_Dimensions0 : Int) := by
  unfold WriteImageInformation at h
  simp only [] at h
  obtain ⟨a1, a2, a3, a4, a5, a6, -⟩ := OpenOneraHeaderFileForWriting_frame R w.codec.m_FileName w
  generalize OpenOneraHeaderFileForWriting R w.codec.m_FileName w = rh at h a1 a2 a3 a4 a5 a6
  by_cases h1 : rh.1 = true
  · simp only [h1, Bool.not_true, Bool.false_eq_true, if_false] at h
    obtain ⟨b1, -, -, b4, b5, b6, -⟩ := OpenOneraDataFileForWriting_frame R rh.2.codec.m_FileName rh.2
    generalize OpenOneraDataFileForWriting R rh.2.codec.m_FileName rh.2 = rd at h b1 b4 b5 b6
    by_cases h2 : rd.1 = true
    · simp only [h2, Bool.not_true, Bool.false_eq_true, if_false] at h
      by_cases h3 : rd.2.codec.m_PixelType = IOPixelType.COMPLEX ∧
          rd.2.codec.m_ComponentType = IOComponentType.FLOAT
      · simp only [h3, and_self, if_true] at h
        cases hx : WriteDataHeader tab0 rd.2.codec.m_Dimensions0 rd.2.codec.m_Dimensions1
          (PutAll (headerTextTail "cmplx_real_4" rd.2.codec.m_Dimensions0 rd.2.codec.m_Dimensions1)
            (PutAll (headerTextHead (R rd.2.codec.m_FileName ++ ".dat"))
              (rd.2.fs, rd.2.codec.m_Headerfile))).1 rd.2.codec.m_Datafile with
        | error e =>
          rw [hx] at h
          exact absurd h (by simp [Except.map])
        | ok d =>
          have hc := WriteDataHeader_ok_column tab0 _ _ _ _ d hx
          rw [b6, a6] at hc
          have hb := b1 h2
          rw [a3, a2] at hb
          exact ⟨a1 h1, hb, (b4.trans a4).symm.trans h3.1, (b5.trans a5).symm.trans h3.2, hc⟩
      · simp only [h3, if_false] at h
        exact absurd h (by simp)
    · simp only [h2, Bool.not_false, if_true] at h
      exact absurd h (by simp)
  · simp only [h1, Bool.not_false, if_true] at h
    exact absurd h (by simp)

/-! ### Lemmas for the swap count, the rows reserved by the header and strip-wise writing -/

theorem OpenOneraDataFileForReading_componentType (f : String) (w : World) :
    (OpenOneraDataFileForReading R f w).2.codec.m_ComponentType = w.codec.m_ComponentType := by
  unfold OpenOneraDataFileForReading
  by_cases h : (FStream.open w.fs
      (if w.codec.m_Datafile.is_open = true then w.codec.m_Datafile.close
        else w.codec.m_Datafile) (R f ++ ".dat") OpenMode.input).2.fail = true
  · simp only [h, if_true]
  · simp only [h, Bool.false_eq_true, if_false]

/-- The count handed to the range swapper is the length in bytes of the buffer
that `Read` returns. -/
theorem ReadSwapCount_eq (w : World) :
    ReadSwapCount R w =
      (Read R w).map (fun r =>
        if w.codec.m_ComponentType = IOComponentType.FLOAT then some r.1.length else none) := by
  unfold ReadSwapCount Read
  simp only []
  have hc := OpenOneraDataFileForReading_componentType R w.codec.m_FileName w
  generalize OpenOneraDataFileForReading R w.codec.m_FileName w = r at hc
  by_cases h1 : r.1 = true
  · simp only [h1, Bool.not_true, Bool.false_eq_true, if_false]
    generalize ReadLines r.2.fs
      ((ONERA_HEADER_LENGTH : Int) + 2 * r.2.codec.m_width * (r.2.codec.m_NbOctetPixel : Int))
      (2 * r.2.codec.m_width * (r.2.codec.m_NbOctetPixel : Int)) r.2.codec.m_NbOctetPixel
      w.codec.m_IORegion.index0 (2 * r.2.codec.m_NbOctetPixel * w.codec.m_IORegion.size0)
      w.codec.m_IORegion.size1 w.codec.m_IORegion.index1 r.2.codec.m_Datafile = x
    cases x with
    | error e => rfl
    | ok v =>
      simp only [Except.map, SwapRangeFromSystemToLittleEndian, ite_self, hc]
  · simp only [h1, Bool.not_false, if_true]
    rfl

/-- Reading the header of a data file of `4 + (ht + 1) * 8 * wd` bytes whose
column count is `wd`. -/
theorem readHeader_of_layout (NbCol0 : Uninit) (F : List Byte) (fs2 : FileSystem)
    (rc : ONERAImageIO) {wd ht : Nat} (hw1 : 1 ≤ wd) (hw2 : wd ≤ 32767) (hh1 : 1 ≤ ht)
    (hfile : fs2.files (R rc.m_FileName ++ ".dat") = some F)
    (hlen : F.length = 4 + (ht + 1) * (8 * wd))
    (hcc : readAt F 6 2 = intBytes 2 (toShort (wd : Int)))
    (hclosed : ∀ p, rc.m_Headerfile.file ≠ some (p, OpenMode.input)) :
    ∃ hs ds : FStream,
      InternalReadImageInformation R NbCol0 { fs := fs2, codec := rc } =
        Except.ok (headerRead { fs := fs2, codec := rc } (wd : Int) (ht : Int) hs ds) := by
  have h8 : 8 ≤ F.length := by
    rw [hlen]
    have : 8 * wd ≤ (ht + 1) * (8 * wd) := Nat.le_mul_of_pos_left _ (by omega)
    omega
  obtain ⟨hs3, ds3, -, e3⟩ := InternalReadImageInformation_cases R NbCol0
    { fs := fs2, codec := rc } _ hfile h8
  have hc : toShort (leValue (readAt F 6 2)) = (wd : Int) := by
    rw [hcc]; exact leValue_intBytes_short hw2
  rw [hc, hlen, height_formula wd ht hw1] at e3
  have htok : headerToken fs2 rc.m_Headerfile ≠ stringBytes "cmplx_real_4" := by
    rw [headerToken_not_input fs2 _ hclosed]; exact token_ne_nil
  have hne1 : ¬ (4 * 2 * (wd : Int) = 0) := by omega
  have hne2 : ¬ ((wd : Int) = 0 ∨ (ht : Int) = 0) := by omega
  simp only [htok, hne1, hne2, ne_eq, not_false_eq_true, if_true, if_false] at e3
  exact ⟨hs3, ds3, e3⟩

/-- Two writes, the second right after the end of the first, are one write. -/
theorem writeAt_writeAt_adjacent (F : List Byte) (o : Nat) (a b : List Byte) :
    writeAt (writeAt F o a) (o + a.length) b = writeAt F o (a ++ b) := by
  by_cases ha : a = []
  · subst ha; simp [writeAt_nil]
  by_cases hb : b = []
  · subst hb; simp [writeAt_nil]
  have hab : a ++ b ≠ [] := by simp [ha]
  have hla : 0 < a.length := List.length_pos.mpr ha
  apply List.ext_getElem?
  intro i
  rw [getElem?_writeAt _ _ b hb, getElem?_writeAt F o (a ++ b) hab, writeAt_length F o a ha,
    getElem?_writeAt F o a ha, List.length_append]
  by_cases h1 : i < o
  · have h2 : i < o + a.length := by omega
    have h3 : i < max F.length (o + a.length) := by omega
    simp only [h1, h2, h3, if_true]
  · by_cases h2 : i < o + a.length
    · have h3 : i < max F.length (o + a.length) := by omega
      have h4 : i < o + (a.length + b.length) := by omega
      simp only [h1, h2, h3, h4, if_true, if_false]
      rw [List.getElem?_append_left (by omega)]
    · by_cases h4 : i < o + a.length + b.length
      · have h5 : i < o + (a.length + b.length) := by omega
        simp only [h1, h2, h4, h5, if_true, if_false]
        rw [List.getElem?_append_right (by omega)]
        congr 1; omega
      · have h5 : ¬ i < o + (a.length + b.length) := by omega
        simp only [h1, h2, h4, h5, if_false]

/-- The row loop writes consecutive rows: its effect is one write of the block. -/
theorem writeRows_eq_writeAt (hl s off0 first : Nat) (temp F : List Byte) (k : Nat)
    (hlen : s * k ≤ temp.length) :
    writeRows hl s off0 first temp k F = writeAt F (hl + s * first + off0) (temp.take (s * k)) := by
  induction k with
  | zero => simp [writeRows, writeAt_nil]
  | succ k ih =>
    have e : s * (k + 1) = s * k + s := Nat.mul_succ _ _
    have hk : s * k ≤ temp.length := by omega
    simp only [writeRows]
    rw [ih hk]
    have hl1 : (temp.take (s * k)).length = s * k := by
      rw [List.length_take]; omega
    have ho : hl + s * (first + k) + off0 = hl + s * first + off0 + (temp.take (s * k)).length := by
      rw [hl1, Nat.mul_add]; omega
    rw [ho, writeAt_writeAt_adjacent, e, List.take_add]

/-- Reading inside a block that was just written. -/
theorem readAt_writeAt_inside (F : List Byte) (o : Nat) (d : List Byte) (a n : Nat)
    (h : a + n ≤ d.length) :
    readAt (writeAt F o d) (o + a) n = readAt d a n := by
  by_cases hd : d = []
  · subst hd
    have : n = 0 := by simp at h; omega
    subst this
    simp [readAt]
  · apply List.ext_getElem?
    intro i
    rw [getElem?_readAt, getElem?_readAt, getElem?_writeAt F o d hd]
    by_cases hi : i < n
    · have h1 : ¬ (o + a + i < o) := by omega
      have h2 : o + a + i < o + d.length := by omega
      simp only [hi, h1, h2, if_true, if_false]
      congr 1; omega
    · simp [hi]

theorem readAt_readAt (b : List Byte) (x m y n : Nat) (h : y + n ≤ m) :
    readAt (readAt b x m) y n = readAt b (x + y) n := by
  apply List.ext_getElem?
  intro i
  rw [getElem?_readAt, getElem?_readAt, getElem?_readAt]
  by_cases hi : i < n
  · have : y + i < m := by omega
    simp only [hi, this, if_true]
    congr 1; omega
  · simp [hi]

theorem stripBuffer_length (width height : Nat) (buffer : List Byte)
    (hbuf : buffer.length = 8 * width * height) (s : Nat × Nat) (hs : s.1 + s.2 ≤ height) :
    (stripBuffer width buffer s).length = 8 * width * s.2 := by
  unfold stripBuffer
  rw [readAt_length, hbuf]
  have h1 : 8 * width * (s.1 + s.2) ≤ 8 * width * height := Nat.mul_le_mul_left _ hs
  have h2 : 8 * width * (s.1 + s.2) = 8 * width * s.1 + 8 * width * s.2 := Nat.mul_add _ _ _
  omega

/-- A row that is in the file stays in it when a strip is written. -/
theorem RowStored_writeAt (width height : Nat) (buffer F : List Byte)
    (hbuf : buffer.length = 8 * width * height) (s : Nat × Nat) (hs : s.1 + s.2 ≤ height)
    (r : Nat) (h : RowStored width buffer F r) :
    RowStored width buffer
      (writeAt F (4 + 8 * width * (s.1 + 1)) (stripBuffer width buffer s)) r := by
  obtain ⟨h1, h2⟩ := h
  have hlen := stripBuffer_length width height buffer hbuf s hs
  have hge := writeAt_length_ge F (4 + 8 * width * (s.1 + 1)) (stripBuffer width buffer s)
  refine ⟨Nat.le_trans h1 hge, ?_⟩
  have e1 : 8 * width * (r + 2) = 8 * width * (r + 1) + 8 * width := Nat.mul_succ _ _
  have e2 : 8 * width * (r + 1) = 8 * width * r + 8 * width := Nat.mul_succ _ _
  have e3 : 8 * width * (s.1 + 1) = 8 * width * s.1 + 8 * width := Nat.mul_succ _ _
  by_cases hb : r < s.1
  · -- the row lies before the strip
    have h3 : 8 * width * (r + 1) ≤ 8 * width * s.1 := Nat.mul_le_mul_left _ hb
    rw [readAt_writeAt_before _ _ _ _ _ (by omega) (by omega), h2]
  · by_cases ha : s.1 + s.2 ≤ r
    · -- the row lies after the strip
      have h3 : 8 * width * (s.1 + s.2) ≤ 8 * width * r := Nat.mul_le_mul_left _ ha
      have h4 : 8 * width * (s.1 + s.2) = 8 * width * s.1 + 8 * width * s.2 := Nat.mul_add _ _ _
      rw [readAt_writeAt_after _ _ _ _ _ (by rw [hlen]; omega), h2]
    · -- the row is one of the strip
      have h3 : 8 * width * (r + 1) ≤ 8 * width * (s.1 + s.2) := Nat.mul_le_mul_left _ (by omega)
      have h4 : 8 * width * (s.1 + s.2) = 8 * width * s.1 + 8 * width * s.2 := Nat.mul_add _ _ _
      have h5 : 8 * width * s.1 ≤ 8 * width * r := Nat.mul_le_mul_left _ (by omega)
      have h6 : 8 * width * r = 8 * width * s.1 + 8 * width * (r - s.1) := by
        rw [← Nat.mul_add]; congr 1; omega
      have e : 4 + 8 * width * (r + 1) = 4 + 8 * width * (s.1 + 1) + 8 * width * (r - s.1) := by
        omega
      rw [e, readAt_writeAt_inside _ _ _ _ _ (by rw [hlen]; omega)]
      unfold stripBuffer
      rw [readAt_readAt _ _ _ _ _ (by omega), ← h6]

/-- The rows of a strip are in the file once the strip is written. -/
theorem RowStored_of_strip (width height : Nat) (buffer F : List Byte)
    (hbuf : buffer.length = 8 * width * height) (s : Nat × Nat) (hs : s.1 + s.2 ≤ height)
    (r : Nat) (hr1 : s.1 ≤ r) (hr2 : r < s.1 + s.2) (hw : 1 ≤ width) :
    RowStored width buffer
      (writeAt F (4 + 8 * width * (s.1 + 1)) (stripBuffer width buffer s)) r := by
  have hlen := stripBuffer_length width height buffer hbuf s hs
  have hne : stripBuffer width buffer s ≠ [] := by
    intro h
    rw [h] at hlen
    have : 0 < 8 * width * s.2 := Nat.mul_pos (by omega) (by omega)
    simp at hlen
    omega
  have e1 : 8 * width * (r + 2) = 8 * width * (r + 1) + 8 * width := Nat.mul_succ _ _
  have e2 : 8 * width * (r + 1) = 8 * width * r + 8 * width := Nat.mul_succ _ _
  have e3 : 8 * width * (s.1 + 1) = 8 * width * s.1 + 8 * width := Nat.mul_succ _ _
  have h3 : 8 * width * (r + 1) ≤ 8 * width * (s.1 + s.2) := Nat.mul_le_mul_left _ (by omega)
  have h4 : 8 * width * (s.1 + s.2) = 8 * width * s.1 + 8 * width * s.2 := Nat.mul_add _ _ _
  have h5 : 8 * width * s.1 ≤ 8 * width * r := Nat.mul_le_mul_left _ (by omega)
  have h6 : 8 * width * r = 8 * width * s.1 + 8 * width * (r - s.1) := by
    rw [← Nat.mul_add]; congr 1; omega
  constructor
  · rw [writeAt_length _ _ _ hne, hlen]; omega
  · have e : 4 + 8 * width * (r + 1) = 4 + 8 * width * (s.1 + 1) + 8 * width * (r - s.1) := by
      omega
    rw [e, readAt_writeAt_inside _ _ _ _ _ (by rw [hlen]; omega)]
    unfold stripBuffer
    rw [readAt_readAt _ _ _ _ _ (by omega), ← h6]

theorem StripsWritten_step (width height : Nat) (buffer F : List Byte)
    (hbuf : buffer.length = 8 * width * height) (hw : 1 ≤ width) (done : List (Nat × Nat))
    (h : StripsWritten width height buffer F done) (s : Nat × Nat) (hs : s.1 + s.2 ≤ height) :
    StripsWritten width height buffer
      (writeAt F (4 + 8 * width * (s.1 + 1)) (stripBuffer width buffer s)) (s :: done) := by
  obtain ⟨h1, h2, h3, h4, h5⟩ := h
  have hlen := stripBuffer_length width height buffer hbuf s hs
  have hge := writeAt_length_ge F (4 + 8 * width * (s.1 + 1)) (stripBuffer width buffer s)
  have e3 : 8 * width * (s.1 + 1) = 8 * width * s.1 + 8 * width := Nat.mul_succ _ _
  have hend : 4 + 8 * width * (s.1 + 1) + (stripBuffer width buffer s).length ≤
      4 + (height + 1) * (8 * width) := by
    rw [hlen]
    have a1 : 8 * width * (s.1 + s.2) ≤ 8 * width * height := Nat.mul_le_mul_left _ hs
    have a2 : 8 * width * (s.1 + s.2) = 8 * width * s.1 + 8 * width * s.2 := Nat.mul_add _ _ _
    have a3 : (height + 1) * (8 * width) = 8 * width * height + 8 * width := by
      rw [Nat.succ_mul, Nat.mul_comm]
    omega
  have hlen' : (writeAt F (4 + 8 * width * (s.1 + 1)) (stripBuffer width buffer s)).length ≤
      4 + (height + 1) * (8 * width) := by
    by_cases hd : stripBuffer width buffer s = []
    · rw [hd, writeAt_nil]; exact h3
    · rw [writeAt_length _ _ _ hd]; omega
  refine ⟨Nat.le_trans h1 hge, ?_, hlen', ?_, ?_⟩
  · rw [readAt_writeAt_before _ _ _ _ _ (by omega) (by omega), h2]
  · intro hh
    have := h4 hh
    omega
  · intro s' hs' r hr1 hr2
    rcases List.mem_cons.mp hs' with he | hm
    · subst he
      exact RowStored_of_strip width height buffer F hbuf _ hs r hr1 hr2 hw
    · exact RowStored_writeAt width height buffer F hbuf s hs r (h5 s' hm r hr1 hr2)

theorem StripsWritten_header (tab0 : Uninit) (width height : Nat) (buffer : List Byte)
    (hw1 : 1 ≤ width) (hw2 : width ≤ 32767) :
    StripsWritten width height buffer (dataHeader tab0 width height) [] := by
  refine ⟨dataHeader_length_ge _ _ _, dataHeader_colcount _ _ _, ?_,
    fun hh => dataHeader_length tab0 hw1 hw2 hh, fun s hs => absurd hs (List.not_mem_nil _)⟩
  unfold dataHeader
  rw [writeAt_length _ _ _ (by
    intro h
    have := congrArg List.length h
    rw [intBytes_length] at this
    exact absurd this (by decide))]
  rw [toShort_of_le hw2]
  simp only [List.length_append, intBytes_length, flatten_replicate_length, stored_length]
  have e2 : ((width : Int) * 4 * 2).toNat = 8 * width := by omega
  rw [e2]
  have hrows : (toShort (height : Int) + 1).toNat ≤ height + 1 := by
    unfold toShort; omega
  have a1 : (toShort (height : Int) + 1).toNat * (8 * width) ≤ (height + 1) * (8 * width) :=
    Nat.mul_le_mul_right _ hrows
  have a2 : 8 * width ≤ (height + 1) * (8 * width) := Nat.le_mul_of_pos_left _ (by omega)
  omega

theorem stripsFrom_mem_range (ks : List Nat) :
    ∀ (start : Nat) (s : Nat × Nat), s ∈ stripsFrom start ks →
      start ≤ s.1 ∧ s.1 + s.2 ≤ start + ks.sum := by
  induction ks with
  | nil => intro start s hs; simp [stripsFrom] at hs
  | cons k ks ih =>
    intro start s hs
    simp only [stripsFrom, List.mem_cons] at hs
    rcases hs with he | hm
    · subst he
      simp only [List.sum_cons]
      omega
    · have := ih (start + k) s hm
      simp only [List.sum_cons]
      omega

theorem stripsFrom_cover (ks : List Nat) :
    ∀ (start r : Nat), start ≤ r → r < start + ks.sum →
      ∃ s ∈ stripsFrom start ks, s.1 ≤ r ∧ r < s.1 + s.2 := by
  induction ks with
  | nil => intro start r h1 h2; simp at h2; omega
  | cons k ks ih =>
    intro start r h1 h2
    simp only [List.sum_cons] at h2
    by_cases hr : r < start + k
    · exact ⟨(start, k), by simp [stripsFrom], h1, hr⟩
    · obtain ⟨s, hs, hs1, hs2⟩ := ih (start + k) r (by omega) (by omega)
      exact ⟨s, by simp only [stripsFrom, List.mem_cons]; exact Or.inr hs, hs1, hs2⟩

/-- The data file after the row loop of `Write` for a strip of full width. -/
theorem bodyFile_strip (b : List Byte) (c : ONERAImageIO) (F : List Byte) (width height : Nat)
    (s : Nat × Nat) (hs : s.1 + s.2 ≤ height) (hb : b.length = 8 * width * s.2)
    (h1 : c.m_NumberOfComponents = 2) (h2 : c.m_NbOctetPixel = 4)
    (h3 : c.m_Dimensions0 = width) (h4 : c.m_Dimensions1 = height)
    (h5 : c.m_IORegion = stripRegion width s) :
    bodyFile b c F = writeAt F (4 + 8 * width * (s.1 + 1)) b := by
  have e1 : 2 * width * 4 = 8 * width := by omega
  have e2 : 2 * 4 * width * s.2 = 8 * width * s.2 := by
    rw [show 2 * 4 * width = 8 * width by omega]
  have htake : b.take (8 * width * s.2) = b := List.take_of_length_le (by omega)
  have hoff : 4 + 8 * width + 8 * width * s.1 + 0 = 4 + 8 * width * (s.1 + 1) := by
    rw [Nat.mul_succ]; omega
  unfold bodyFile
  rw [h5]
  simp only [stripRegion, h1, h2, h3, h4, e1, e2, ite_self, Nat.mul_zero, ONERA_HEADER_LENGTH,
    htake]
  by_cases hf : s.2 = height
  · have h0 : s.1 = 0 := by omega
    simp only [hf, decide_True, Bool.and_self, if_true]
    rw [writeRows_eq_writeAt _ _ _ _ _ _ _ (by rw [hb, hf]), ← hf, htake, ← hoff, h0]
  · simp only [hf, decide_False, Bool.false_and, Bool.false_eq_true, if_false]
    rw [writeRows_eq_writeAt _ _ _ _ _ _ _ (by rw [hb]), htake, hoff]

/-- The calls that follow the first one: each writes its strip where the file
already has its full layout. -/
theorem WriteAll_strips_next (tab0 : Uninit) (width height : Nat) (buffer : List Byte)
    (hbuf : buffer.length = 8 * width * height) (hw : 1 ≤ width) (p : String)
    (order : List (Nat × Nat)) :
    (∀ s ∈ order, s.1 + s.2 ≤ height) →
    ∀ (w : World) (F : List Byte) (done : List (Nat × Nat)),
      w.codec.m_FlagWriteImageInformation = false → w.codec.m_NumberOfComponents = 2 →
      w.codec.m_NbOctetPixel = 4 → w.codec.m_Dimensions0 = width →
      w.codec.m_Dimensions1 = height → w.codec.m_Datafile.goodOn p OpenMode.output →
      w.fs.files p = some F → StripsWritten width height buffer F done →
      ∃ (w' : World) (F' : List Byte),
        WriteAll R (stripCalls tab0 width buffer order) w = Except.ok w' ∧
        w'.fs.files p = some F' ∧
        StripsWritten width height buffer F' (order.reverse ++ done) := by
  induction order with
  | nil =>
    intro _ w F done _ _ _ _ _ _ hF hS
    exact ⟨w, F, rfl, hF, by simpa using hS⟩
  | cons s rest ih =>
    intro hin w F done hflag hc hn hd0 hd1 hg hF hS
    have hs := hin s (List.mem_cons_self _ _)
    have hb := stripBuffer_length width height buffer hbuf s hs
    obtain ⟨ds, g1, c1, f1, -⟩ := WriteBody_spec (stripBuffer width buffer s)
      (SetIORegion (stripRegion width s) w) p F hg hF
    rw [bodyFile_strip (stripBuffer width buffer s) (SetIORegion (stripRegion width s) w).codec F
      width height s hs hb hc hn hd0 hd1 rfl] at f1
    have hS1 := StripsWritten_step width height buffer F hbuf hw done hS s hs
    have hcodec : ∀ {α : Type} (f : ONERAImageIO → α),
        (∀ c d, f { c with m_Datafile := d } = f c) →
        f (WriteBody (stripBuffer width buffer s) (SetIORegion (stripRegion width s) w)).codec =
          f (SetIORegion (stripRegion width s) w).codec := by
      intro α f hf
      rw [c1]; exact hf _ _
    obtain ⟨w', F', e, hF', hS'⟩ := ih (fun t ht => hin t (List.mem_cons_of_mem _ ht))
      (WriteBody (stripBuffer width buffer s) (SetIORegion (stripRegion width s) w)) _ (s :: done)
      ((hcodec (fun c => c.m_FlagWriteImageInformation) (fun _ _ => rfl)).trans hflag)
      ((hcodec (fun c => c.m_NumberOfComponents) (fun _ _ => rfl)).trans hc)
      ((hcodec (fun c => c.m_NbOctetPixel) (fun _ _ => rfl)).trans hn)
      ((hcodec (fun c => c.m_Dimensions0) (fun _ _ => rfl)).trans hd0)
      ((hcodec (fun c => c.m_Dimensions1) (fun _ _ => rfl)).trans hd1)
      (by rw [c1]; exact g1) f1 hS1
    refine ⟨w', F', ?_, hF', ?_⟩
    · have hW : Write R tab0 (stripBuffer width buffer s) (SetIORegion (stripRegion width s) w) =
          Except.ok (WriteBody (stripBuffer width buffer s)
            (SetIORegion (stripRegion width s) w)) := by
        unfold Write
        have : (SetIORegion (stripRegion width s) w).codec.m_FlagWriteImageInformation = false :=
          hflag
        simp only [this, Bool.false_eq_true, if_false]
      simp only [stripCalls, List.map_cons, WriteAll] at e ⊢
      rw [hW]
      exact e
    · simpa [List.reverse_cons, List.append_assoc] using hS'

/-- A fresh instance writes the strips of a list, in the order of the list: the
first call writes the header, and every strip ends up at its place. -/
theorem WriteAll_strips_fresh (tab0 : Uninit) (fs : FileSystem) (FileName : String)
    (width height : Nat) (buffer : List Byte) (hbuf : buffer.length = 8 * width * height)
    (hw1 : 1 ≤ width) (hw2 : width ≤ 32767) (region0 : ImageIORegion) (width0 height0 : Int)
    (hwe : fs.writable (R FileName ++ ".ent") = true)
    (hwd : fs.writable (R FileName ++ ".dat") = true)
    (order : List (Nat × Nat)) (hne : order ≠ []) (hin : ∀ s ∈ order, s.1 + s.2 ≤ height) :
    ∃ (w' : World) (F' : List Byte),
      WriteAll R (stripCalls tab0 width buffer order)
        { fs := fs, codec := writer FileName width height region0 width0 height0 } =
        Except.ok w' ∧
      w'.fs.files (R FileName ++ ".dat") = some F' ∧
      StripsWritten width height buffer F' order.reverse := by
  cases order with
  | nil => exact absurd rfl hne
  | cons s rest =>
    have hs := hin s (List.mem_cons_self _ _)
    have hb := stripBuffer_length width height buffer hbuf s hs
    have hcol : (0 : Int) ≤ toShort (width : Int) := by
      rw [toShort_of_le hw2]; omega
    obtain ⟨fs1, hs1, ds1, e1, g1, -, hfile, -, -, -⟩ := Write_first_spec R tab0
      (stripBuffer width buffer s)
      (SetIORegion (stripRegion width s)
        { fs := fs, codec := writer FileName width height region0 width0 height0 })
      rfl hwe hwd rfl rfl hcol
    rw [bodyFile_strip (stripBuffer width buffer s) _ _ width height s hs hb rfl rfl rfl rfl rfl]
      at hfile
    replace hfile : fs1.files (R FileName ++ ".dat") =
        some (writeAt (dataHeader tab0 width height) (4 + 8 * width * (s.1 + 1))
          (stripBuffer width buffer s)) := hfile
    have hS1 := StripsWritten_step width height buffer _ hbuf hw1 []
      (StripsWritten_header tab0 width height buffer hw1 hw2) s hs
    obtain ⟨w', F', e, hF', hS'⟩ := WriteAll_strips_next R tab0 width height buffer hbuf hw1
      (R FileName ++ ".dat") rest (fun t ht => hin t (List.mem_cons_of_mem _ ht))
      { fs := fs1, codec := { (SetIORegion (stripRegion width s)
          { fs := fs, codec := writer FileName width height region0 width0 height0 }).codec with
          m_FlagWriteImageInformation := false, m_Headerfile := hs1, m_Datafile := ds1 } }
      _ [s] rfl rfl rfl rfl rfl g1 hfile hS1
    refine ⟨w', F', ?_, hF', ?_⟩
    · simp only [stripCalls, List.map_cons, WriteAll] at e ⊢
      rw [e1]
      exact e
    · simpa [List.reverse_cons] using hS'

/-- `Read` over the full extent returns the image buffer when every row of the
buffer is in the data file at its offset. -/
theorem Read_full_extent (w : World) (F buffer : List Byte) (wd ht : Nat)
    (hF : w.fs.files (R w.codec.m_FileName ++ ".dat") = some F)
    (hnb : w.codec.m_NbOctetPixel = 4) (hw : w.codec.m_width = (wd : Int))
    (hreg : w.codec.m_IORegion = fullExtent wd ht)
    (hbuf : buffer.length = 8 * wd * ht)
    (hrows : ∀ r, r < ht → RowStored wd buffer F r) :
    ∃ w4 : World, Read R w = Except.ok (buffer, w4) := by
  have hi0 : w.codec.m_IORegion.index0 = 0 := by rw [hreg]; rfl
  have hi1 : w.codec.m_IORegion.index1 = 0 := by rw [hreg]; rfl
  have hs0 : w.codec.m_IORegion.size0 = wd := by rw [hreg]; rfl
  have hs1 : w.codec.m_IORegion.size1 = ht := by rw [hreg]; rfl
  have hoff : ∀ i : Nat,
      rowOffset ((ONERA_HEADER_LENGTH : Int) + 2 * w.codec.m_width * (w.codec.m_NbOctetPixel : Int))
        (2 * w.codec.m_width * (w.codec.m_NbOctetPixel : Int)) w.codec.m_NbOctetPixel
        w.codec.m_IORegion.index0 (w.codec.m_IORegion.index1 + i) =
      ((4 + 8 * wd * (i + 1) : Nat) : Int) := by
    intro i
    rw [hnb, hw, hi0, hi1, rowOffset_natCast, Nat.zero_add, Nat.mul_zero, Nat.add_zero,
      Nat.mul_succ]
    congr 1
    omega
  have hn : 2 * w.codec.m_NbOctetPixel * w.codec.m_IORegion.size0 = 8 * wd := by
    rw [hnb, hs0]
  obtain ⟨ds4, -, e4⟩ := Read_ok R w F hF (fun i hi => by
    rw [hoff, hn]
    have hr := (hrows i (by rw [← hs1]; exact hi)).1
    have e1 : 8 * wd * (i + 2) = 8 * wd * (i + 1) + 8 * wd := Nat.mul_succ _ _
    constructor
    · omega
    · rw [Int.toNat_ofNat]; omega)
  have hreg' : regionBytes F
      ((ONERA_HEADER_LENGTH : Int) + 2 * w.codec.m_width * (w.codec.m_NbOctetPixel : Int))
      (2 * w.codec.m_width * (w.codec.m_NbOctetPixel : Int)) w.codec.m_NbOctetPixel
      w.codec.m_IORegion.index0 (2 * w.codec.m_NbOctetPixel * w.codec.m_IORegion.size0)
      w.codec.m_IORegion.size1 w.codec.m_IORegion.index1 = buffer := by
    rw [regionBytes_eq_slice F buffer _ _ _ _ _ _ _ 0 (fun i hi => by
      rw [hoff, hn, Int.toNat_ofNat, Nat.zero_add]
      exact (hrows i (by rw [← hs1]; exact hi)).2)]
    rw [hn, hs1]
    simp only [readAt, Nat.mul_zero, List.drop_zero]
    exact List.take_of_length_le (by rw [hbuf])
  rw [hreg'] at e4
  exact ⟨_, e4⟩

/-! ### Lemmas for reading back what an instance wrote -/

theorem destructor_fs (w : World) : (destructor w).fs = w.fs := rfl

/-- A stream that is open for output is not open for input. -/
theorem FStream.goodOn_output_not_input {s : FStream} {q : String}
    (h : s.goodOn q OpenMode.output) : ∀ p, s.file ≠ some (p, OpenMode.input) := by
  intro p hp
  rw [h.1] at hp
  cases hp

/-- `Write` keeps the file name, and leaves the header stream closed or open
for output when it found it so. -/
theorem Write_reader_frame (tab0 : Uninit) (b : List Byte) (w w1 : World)
    (hq : ∀ p, w.codec.m_Headerfile.file ≠ some (p, OpenMode.input))
    (h : Write R tab0 b w = Except.ok w1) :
    w1.codec.m_FileName = w.codec.m_FileName ∧
    ∀ p, w1.codec.m_Headerfile.file ≠ some (p, OpenMode.input) := by
  unfold Write at h
  by_cases hf : w.codec.m_FlagWriteImageInformation = true
  · simp only [hf, if_true] at h
    cases hW : WriteImageInformation R tab0 w with
    | error e => rw [hW] at h; exact absurd h (by simp [Except.map])
    | ok w0 =>
      rw [hW] at h
      simp only [Except.map] at h
      have h1 := Except.ok.inj h
      obtain ⟨hwe, hwd, hpix, hcomp, hcol⟩ := WriteImageInformation_ok_conditions R tab0 w w0 hW
      obtain ⟨fs1, hs, ds, e, -, g2, -, -, -, -⟩ :=
        WriteImageInformation_spec R tab0 w hwe hwd hpix hcomp hcol
      rw [hW] at e
      have h0 := Except.ok.inj e
      rw [← h1, h0]
      exact ⟨rfl, FStream.goodOn_output_not_input g2⟩
  · simp only [hf, Bool.false_eq_true, if_false] at h
    have h1 := Except.ok.inj h
    rw [← h1]
    exact ⟨rfl, hq⟩

theorem WriteAll_reader_frame (calls : List (Uninit × ImageIORegion × List Byte)) :
    ∀ (w w' : World), (∀ p, w.codec.m_Headerfile.file ≠ some (p, OpenMode.input)) →
      WriteAll R calls w = Except.ok w' →
      w'.codec.m_FileName = w.codec.m_FileName ∧
      ∀ p, w'.codec.m_Headerfile.file ≠ some (p, OpenMode.input) := by
  induction calls with
  | nil =>
    intro w w' hq h
    have := Except.ok.inj h
    rw [← this]
    exact ⟨rfl, hq⟩
  | cons call rest ih =>
    intro w w' hq h
    simp only [WriteAll] at h
    cases h1 : Write R call.1 call.2.2 (SetIORegion call.2.1 w) with
    | error e => rw [h1] at h; exact absurd h (by simp [Except.bind])
    | ok w1 =>
      rw [h1] at h
      simp only [Except.bind] at h
      obtain ⟨a1, a2⟩ := Write_reader_frame R call.1 call.2.2 (SetIORegion call.2.1 w) w1 hq h1
      obtain ⟨b1, b2⟩ := ih w1 w' a2 h
      exact ⟨b1.trans a1, b2⟩

/-- Reading back, header then full extent, a data file that holds a header
written for `wd` x `ht` pixels followed by the rows of `buffer`. -/
theorem read_back_full_write (NbCol0 tab0 : Uninit) (buffer : List Byte) (fs2 : FileSystem)
    (rc : ONERAImageIO) {wd ht : Nat} (hw1 : 1 ≤ wd) (hw2 : wd ≤ 32767) (hh1 : 1 ≤ ht)
    (hh2 : ht ≤ 32767) (hbuf : buffer.length = 8 * wd * ht)
    (hfile : fs2.files (R rc.m_FileName ++ ".dat") =
      some (writeRows (4 + 8 * wd) (8 * wd) 0 0 buffer ht (dataHeader tab0 wd ht)))
    (hclosed : ∀ p, rc.m_Headerfile.file ≠ some (p, OpenMode.input)) :
    ∃ w3 w4 : World,
      ReadImageInformation R NbCol0 { fs := fs2, codec := rc } = Except.ok w3 ∧
      Read R (SetIORegion (fullExtent wd ht) w3) = Except.ok (buffer, w4) := by
  obtain ⟨hs3, ds3, e3⟩ := readHeader_after_full_write R NbCol0 tab0 buffer fs2 rc hw1 hw2 hh1 hh2
    hfile hclosed
  have hlen := fullFile_length tab0 buffer hw1 hw2 hh2
  have hrows : ∀ r, r < ht → RowStored wd buffer
      (writeRows (4 + 8 * wd) (8 * wd) 0 0 buffer ht (dataHeader tab0 wd ht)) r := by
    intro r hr
    refine ⟨?_, fullFile_row _ buffer wd ht hbuf r hr⟩
    rw [hlen]
    have h1 : 8 * wd * (r + 2) ≤ 8 * wd * (ht + 1) := Nat.mul_le_mul_left _ (by omega)
    rw [Nat.mul_comm (ht + 1) (8 * wd)]
    omega
  obtain ⟨w4, e4⟩ := Read_full_extent R
    (SetIORegion (fullExtent wd ht)
      (headerRead { fs := fs2, codec := rc } (wd : Int) (ht : Int) hs3 ds3))
    _ buffer wd ht hfile rfl rfl rfl hbuf hrows
  exact ⟨_, w4, e3, e4⟩

end Lemmas

/-! ## The claims -/

section Claims

variable (R : String → String)

/-- C1 (geometry round trip). For every width and height in [1,512]: on a fresh
instance prepared for a `width` x `height` image, `WriteImageInformation`
followed by `Write` over the full extent succeed, and `ReadImageInformation` on
the resulting pair of files (by any instance whose header stream is not open for
reading, such as a fresh one) succeeds with `m_width = width`,
`m_height = height`, the same dimensions in `m_Dimensions`, two components per
pixel and four bytes per component. -/
theorem geometry_round_trip (tab0 tab1 NbCol0 : Uninit) (fs : FileSystem) (FileName : String)
    (width height : Nat) (hw : 1 ≤ width ∧ width ≤ 512) (hh : 1 ≤ height ∧ height ≤ 512)
    (buffer : List Byte) (width0 height0 : Int)
    (hwe : fs.writable (R FileName ++ ".ent") = true)
    (hwd : fs.writable (R FileName ++ ".dat") = true)
    (rc : ONERAImageIO) (hname : rc.m_FileName = FileName)
    (hclosed : ∀ p, rc.m_Headerfile.file ≠ some (p, OpenMode.input)) :
    ∃ w1 w2 w3 : World,
      WriteImageInformation R tab0
        { fs := fs, codec := writer FileName width height (fullExtent width height)
            width0 height0 } = Except.ok w1 ∧
      Write R tab1 buffer w1 = Except.ok w2 ∧
      ReadImageInformation R NbCol0 { fs := w2.fs, codec := rc } = Except.ok w3 ∧
      w3.codec.m_width = (width : Int) ∧ w3.codec.m_height = (height : Int) ∧
      w3.codec.m_Dimensions0 = width ∧ w3.codec.m_Dimensions1 = height ∧
      w3.codec.m_NumberOfComponents = 2 ∧ w3.codec.m_NbOctetPixel = 4 := by
  obtain ⟨hw1, hw2⟩ := hw
  obtain ⟨hh1, hh2⟩ := hh
  have hcol : (0 : Int) ≤ toShort (width : Int) := by
    rw [toShort_of_le (by omega)]; omega
  -- the explicit header call
  obtain ⟨fs1, hs1, ds1, e1, -, -, -, -, hwr1, -⟩ := WriteImageInformation_spec R tab0
    { fs := fs, codec := writer FileName width height (fullExtent width height) width0 height0 }
    hwe hwd rfl rfl hcol
  -- the first Write, which writes the header again
  obtain ⟨fs2, hs2, ds2, e2, -, -, hfile, -, -, -⟩ := Write_first_spec R tab1 buffer
    { fs := fs1, codec := { writer FileName width height (fullExtent width height) width0 height0
        with m_Headerfile := hs1, m_Datafile := ds1 } }
    rfl (by rw [hwr1]; exact hwe) (by rw [hwr1]; exact hwd) rfl rfl hcol
  rw [bodyFile_full buffer _ _ width height rfl rfl rfl rfl rfl rfl] at hfile
  replace hfile : fs2.files (R FileName ++ ".dat") =
      some (writeRows (4 + 8 * width) (8 * width) 0 0 (buffer.take (8 * width * height)) height
        (dataHeader tab1 width height)) := hfile
  -- reading the header back
  subst hname
  obtain ⟨hs3, ds3, e3⟩ := readHeader_after_full_write R NbCol0 tab1
    (buffer.take (8 * width * height)) fs2 rc hw1 (by omega) hh1 (by omega) hfile hclosed
  exact ⟨_, _, _, e1, e2, e3, rfl, rfl, toUInt32_natCast (by omega), toUInt32_natCast (by omega),
    rfl, rfl⟩

/-- Witness of C1: a 4 x 2 image written to `img.ent` / `img.dat` on an empty
disk and read back by a fresh instance. -/
theorem geometry_round_trip_witness :
    ((1 ≤ 4 ∧ 4 ≤ 512) ∧ (1 ≤ 2 ∧ 2 ≤ 512) ∧
      emptyDisk.writable (rootSample "img.ent" ++ ".ent") = true ∧
      emptyDisk.writable (rootSample "img.ent" ++ ".dat") = true ∧
      (reader "img.ent" 0 0).m_FileName = "img.ent" ∧
      ∀ p, (reader "img.ent" 0 0).m_Headerfile.file ≠ some (p, OpenMode.input)) ∧
    ∃ w1 w2 w3 : World,
      WriteImageInformation rootSample junkAA
        { fs := emptyDisk, codec := writer "img.ent" 4 2 (fullExtent 4 2) 0 0 } = Except.ok w1 ∧
      Write rootSample junkAA (sampleBuffer 64) w1 = Except.ok w2 ∧
      ReadImageInformation rootSample junkAA { fs := w2.fs, codec := reader "img.ent" 0 0 } =
        Except.ok w3 ∧
      w3.codec.m_width = ((4 : Nat) : Int) ∧ w3.codec.m_height = ((2 : Nat) : Int) ∧
      w3.codec.m_Dimensions0 = 4 ∧ w3.codec.m_Dimensions1 = 2 ∧
      w3.codec.m_NumberOfComponents = 2 ∧ w3.codec.m_NbOctetPixel = 4 :=
  ⟨⟨⟨by decide, by decide⟩, ⟨by decide, by decide⟩, rfl, rfl, rfl, fun _ h => nomatch h⟩,
    geometry_round_trip rootSample junkAA junkAA junkAA emptyDisk "img.ent" 4 2
      ⟨by decide, by decide⟩ ⟨by decide, by decide⟩ (sampleBuffer 64) 0 0 rfl rfl
      (reader "img.ent" 0 0) rfl (fun _ h => nomatch h)⟩

/-- C2 (pixel round trip). For every width and height in [1,512] and every
buffer of `2 * width * height` floats of four bytes: `Write` over the full
extent on a fresh instance (which writes the header first) returns normally,
and `ReadImageInformation` followed by `Read` over the full extent returns
exactly the bytes of the buffer that was written. The reading is done by the
instance that wrote, whose open closes the data stream first, and as well by
any other instance (whose header stream is not open for reading, such as a
fresh one) once the destructor of the writer has closed its streams. -/
theorem pixel_round_trip (tab0 NbCol0 : Uninit) (fs : FileSystem) (FileName : String)
    (width height : Nat) (hw : 1 ≤ width ∧ width ≤ 512) (hh : 1 ≤ height ∧ height ≤ 512)
    (buffer : List Byte) (hbuf : buffer.length = 2 * width * height * 4) (width0 height0 : Int)
    (hwe : fs.writable (R FileName ++ ".ent") = true)
    (hwd : fs.writable (R FileName ++ ".dat") = true) :
    ∃ w2 : World,
      Write R tab0 buffer
        { fs := fs, codec := writer FileName width height (fullExtent width height)
            width0 height0 } = Except.ok w2 ∧
      (∃ w3 w4 : World,
        ReadImageInformation R NbCol0 w2 = Except.ok w3 ∧
        Read R (SetIORegion (fullExtent width height) w3) = Except.ok (buffer, w4)) ∧
      (∀ rc : ONERAImageIO, rc.m_FileName = FileName →
        (∀ p, rc.m_Headerfile.file ≠ some (p, OpenMode.input)) →
        ∃ w3 w4 : World,
          ReadImageInformation R NbCol0 { fs := (destructor w2).fs, codec := rc } =
            Except.ok w3 ∧
          Read R (SetIORegion (fullExtent width height) w3) = Except.ok (buffer, w4)) := by
  obtain ⟨hw1, hw2⟩ := hw
  obtain ⟨hh1, hh2⟩ := hh
  have hcol : (0 : Int) ≤ toShort (width : Int) := by
    rw [toShort_of_le (by omega)]; omega
  obtain ⟨fs2, hs2, ds2, e2, -, ghs, hfile, -, -, -⟩ := Write_first_spec R tab0 buffer
    { fs := fs, codec := writer FileName width height (fullExtent width height) width0 height0 }
    rfl hwe hwd rfl rfl hcol
  rw [bodyFile_full buffer _ _ width height rfl rfl rfl rfl rfl rfl] at hfile
  have hbuf' : buffer.length = 8 * width * height := by
    rw [hbuf]; ring
  have htake : buffer.take (8 * width * height) = buffer :=
    List.take_of_length_le (by rw [hbuf'])
  rw [htake] at hfile
  replace hfile : fs2.files (R FileName ++ ".dat") =
      some (writeRows (4 + 8 * width) (8 * width) 0 0 buffer height
        (dataHeader tab0 width height)) := hfile
  refine ⟨_, e2, ?_, ?_⟩
  · exact read_back_full_write R NbCol0 tab0 buffer fs2
      { writer FileName width height (fullExtent width height) width0 height0 with
        m_FlagWriteImageInformation := false, m_Headerfile := hs2, m_Datafile := ds2 }
      hw1 (by omega) hh1 (by omega) hbuf' hfile (FStream.goodOn_output_not_input ghs)
  · intro rc hname hclosed
    subst hname
    exact read_back_full_write R NbCol0 tab0 buffer fs2 rc hw1 (by omega) hh1 (by omega) hbuf'
      hfile hclosed

/-- Witness of C2: a 4 x 2 image of 64 bytes written to `img.ent` / `img.dat`
on an empty disk by a fresh instance, read back by that instance and, after its
destructor, by any other one. -/
theorem pixel_round_trip_witness :
    ((1 ≤ 4 ∧ 4 ≤ 512) ∧ (1 ≤ 2 ∧ 2 ≤ 512) ∧ (sampleBuffer 64).length = 2 * 4 * 2 * 4 ∧
      emptyDisk.writable (rootSample "img.ent" ++ ".ent") = true ∧
      emptyDisk.writable (rootSample "img.ent" ++ ".dat") = true) ∧
    ∃ w2 : World,
      Write rootSample junkAA (sampleBuffer 64)
        { fs := emptyDisk, codec := writer "img.ent" 4 2 (fullExtent 4 2) 0 0 } = Except.ok w2 ∧
      (∃ w3 w4 : World,
        ReadImageInformation rootSample junkAA w2 = Except.ok w3 ∧
        Read rootSample (SetIORegion (fullExtent 4 2) w3) = Except.ok (sampleBuffer 64, w4)) ∧
      (∀ rc : ONERAImageIO, rc.m_FileName = "img.ent" →
        (∀ p, rc.m_Headerfile.file ≠ some (p, OpenMode.input)) →
        ∃ w3 w4 : World,
          ReadImageInformation rootSample junkAA { fs := (destructor w2).fs, codec := rc } =
            Except.ok w3 ∧
          Read rootSample (SetIORegion (fullExtent 4 2) w3) =
            Except.ok (sampleBuffer 64, w4)) :=
  ⟨⟨⟨by decide, by decide⟩, ⟨by decide, by decide⟩, by decide, rfl, rfl⟩,
    pixel_round_trip rootSample junkAA junkAA emptyDisk "img.ent" 4 2
      ⟨by decide, by decide⟩ ⟨by decide, by decide⟩ (sampleBuffer 64) (by decide) 0 0 rfl rfl⟩

set_option maxRecDepth 100000 in
/-- C3 (partial-region read), evaluated where it fails. A 2 x 1 image holding the
bytes 100..115 (pixel 0 is 100..107, pixel 1 is 108..115) is written and its
header read back; `Read` of the region made of column 1 alone returns the
bytes 104..111, the imaginary part of pixel 0 followed by the real part of
pixel 1, and not the sub-rectangle 108..115: the column offset is scaled by
the 4 bytes of one component where a pixel has 8. -/
theorem partial_read_column_offset :
    writeThenRead rootSample junkAA emptyDisk "img.ent" 2 1 (sampleBuffer 16)
        { index0 := 1, index1 := 0, size0 := 1, size1 := 1 } =
      Except.ok [104, 105, 106, 107, 108, 109, 110, 111] ∧
    subRectangle (sampleBuffer 16) 2 { index0 := 1, index1 := 0, size0 := 1, size1 := 1 } =
      [108, 109, 110, 111, 112, 113, 114, 115] :=
  ⟨by rfl, by decide⟩

set_option maxRecDepth 100000 in
/-- C4 (header parse failure), evaluated where it fails. The header file has
`foo` as its third line and the data file is a well-formed 2 x 1 image.
`ReadImageInformation` on a fresh instance returns normally with the geometry
2 x 1: the function never opens the header file. When the header stream of the
instance is open for reading on that file the result is the same, and it is the
header whose third line is exactly `cmplx_real_4` that raises the format error:
the comparison with the token is inverted. -/
theorem header_token_not_enforced :
    geometryAfter (ReadImageInformation rootSample junkAA
      { fs := sampleDisk "foo" sampleData, codec := reader "img.ent" 0 0 }) = some (2, 1) ∧
    geometryAfter (ReadImageInformation rootSample junkAA
      (OpenOneraHeaderFileForReading rootSample "img.ent"
        { fs := sampleDisk "foo" sampleData, codec := reader "img.ent" 0 0 }).2) = some (2, 1) ∧
    failureOf (ReadImageInformation rootSample junkAA
      (OpenOneraHeaderFileForReading rootSample "img.ent"
        { fs := sampleDisk "cmplx_real_4" sampleData, codec := reader "img.ent" 0 0 }).2) =
      some Failure.dataFormatNotSupported :=
  ⟨by decide, by decide, by decide⟩

set_option maxRecDepth 100000 in
/-- C5 (format detection), evaluated where it fails. Both files exist and the
data file holds only the three bytes 01 00 00, so its first four bytes are not
the magic number. `CanReadFile` reads them into the uninitialised local
`magicNumber` without looking at the number of bytes obtained: it returns true
when the fourth byte of that local happens to hold 02, and false when it holds
another value such as AA. -/
theorem probe_short_data_file :
    (CanReadFile rootSample (fun _ => 2) "img.ent"
      { fs := sampleDisk "cmplx_real_4" [1, 0, 0], codec := reader "img.ent" 0 0 }).1 = true ∧
    (CanReadFile rootSample junkAA "img.ent"
      { fs := sampleDisk "cmplx_real_4" [1, 0, 0], codec := reader "img.ent" 0 0 }).1 = false :=
  ⟨by decide, by decide⟩

set_option maxRecDepth 100000 in
/-- C6 as stated fails when the column count does not fit a `short`: for a data
file of 36 bytes whose bytes 6 and 7 are 00 80 (the 16-bit value 32768),
`ReadImageInformation` returns normally with `m_width = -32768` and
`m_height = -1`, not with the width 32768. -/
theorem read_header_geometry_fails_for_wide_count :
    readAt wideData 6 2 = [0, 128] ∧ leValue (readAt wideData 6 2) = 32768 ∧
    geometryAfter (ReadImageInformation rootSample junkAA
      { fs := sampleDisk "foo" wideData, codec := reader "img.ent" 0 0 }) =
      some (-32768, -1) :=
  ⟨by decide, by decide, by decide⟩

/-- C6 (geometry formula of `ReadImageInformation`), amended. For every data
file `F` of size `S` whose bytes 6 and 7 hold the little-endian 16-bit value
`c` with `0 < c <= 32767`: whenever `ReadImageInformation` returns normally,
`m_width = c` and `m_height = (S - 4 - 8 * c) / (8 * c)`, the quotient of the
integer division, which C computes here on a numerator that is not negative
(`S >= 4 + 16 * c`). -/
theorem read_header_geometry (NbCol0 : Uninit) (w w' : World) (F : List Byte) (b0 b1 : Byte)
    (hF : w.fs.files (R w.codec.m_FileName ++ ".dat") = some F)
    (hbytes : readAt F 6 2 = [b0, b1])
    (hc : 0 < b0.toNat + 256 * b1.toNat) (hc' : b0.toNat + 256 * b1.toNat ≤ 32767)
    (hok : ReadImageInformation R NbCol0 w = Except.ok w') :
    w'.codec.m_width = ((b0.toNat + 256 * b1.toNat : Nat) : Int) ∧
    w'.codec.m_height =
      Int.tdiv ((F.length : Int) - 4 - 8 * ((b0.toNat + 256 * b1.toNat : Nat) : Int))
        (8 * ((b0.toNat + 256 * b1.toNat : Nat) : Int)) ∧
    4 + 16 * (b0.toNat + 256 * b1.toNat) ≤ F.length ∧
    w'.codec.m_height =
      (((F.length - 4 - 8 * (b0.toNat + 256 * b1.toNat)) /
        (8 * (b0.toNat + 256 * b1.toNat)) : Nat) : Int) := by
  have h8 : 8 ≤ F.length := by
    have := congrArg List.length hbytes
    rw [readAt_length] at this
    simp only [List.length_cons, List.length_nil] at this
    omega
  obtain ⟨hs, ds, -, e⟩ := InternalReadImageInformation_cases R NbCol0 w F hF h8
  have hv : leValue (readAt F 6 2) = b0.toNat + 256 * b1.toNat := by
    rw [hbytes]; simp [leValue]
  rw [hv, toShort_of_le hc'] at e
  generalize b0.toNat + 256 * b1.toNat = c at hc hc' e ⊢
  have e' : InternalReadImageInformation R NbCol0 w = Except.ok w' := hok
  rw [e] at e'
  split at e'
  · split at e'
    · exact absurd e' (by simp)
    · split at e'
      · exact absurd e' (by simp)
      · rename_i hne0 hdim
        have hh : Int.tdiv ((F.length : Int) - ((ONERA_HEADER_LENGTH : Int) + 2 * 4 * (c : Int)))
            (4 * 2 * (c : Int)) ≠ 0 := fun h => hdim (Or.inr h)
        have hnum : (F.length : Int) - ((ONERA_HEADER_LENGTH : Int) + 2 * 4 * (c : Int)) =
            (F.length : Int) - 4 - 8 * (c : Int) := by
          simp only [ONERA_HEADER_LENGTH]; push_cast; ring
        have hden : 4 * 2 * (c : Int) = 8 * (c : Int) := by ring
        rw [hnum, hden] at hh
        -- the numerator is not negative, or the quotient would be zero
        have hpos : 0 ≤ (F.length : Int) - 4 - 8 * (c : Int) := by
          by_contra hneg
          apply hh
          have h1 : (F.length : Int) - 4 - 8 * (c : Int) =
              -(8 * (c : Int) - (F.length : Int) + 4) := by ring
          rw [h1, Int.neg_tdiv, Int.tdiv_eq_ediv (by omega) (by omega),
            Int.ediv_eq_zero_of_lt (by omega) (by omega)]
          rfl
        -- and it is at least one row, or the quotient would be zero as well
        have hrow : 8 * (c : Int) ≤ (F.length : Int) - 4 - 8 * (c : Int) := by
          by_contra hlt
          apply hh
          rw [Int.tdiv_eq_ediv hpos (by omega), Int.ediv_eq_zero_of_lt hpos (by omega)]
        have hw' : w' = headerRead w (c : Int) (Int.tdiv ((F.length : Int) -
            ((ONERA_HEADER_LENGTH : Int) + 2 * 4 * (c : Int))) (4 * 2 * (c : Int))) hs ds :=
          (Except.ok.inj e').symm
        have hq : Int.tdiv ((F.length : Int) - 4 - 8 * (c : Int)) (8 * (c : Int)) =
            (((F.length - 4 - 8 * c) / (8 * c) : Nat) : Int) := by
          rw [Int.tdiv_eq_ediv hpos (by omega)]
          have : ((F.length - 4 - 8 * c : Nat) : Int) = (F.length : Int) - 4 - 8 * (c : Int) := by
            omega
          rw [Int.natCast_div, this]
          push_cast
          rfl
        have hmh : w'.codec.m_height =
            Int.tdiv ((F.length : Int) - 4 - 8 * (c : Int)) (8 * (c : Int)) := by
          rw [hw', ← hnum, ← hden]; rfl
        have hmw : w'.codec.m_width = (c : Int) := by rw [hw']; rfl
        exact ⟨hmw, hmh, by omega, hmh.trans hq⟩
  · exact absurd e' (by simp)

set_option maxRecDepth 100000 in
/-- Witness of C6: the well-formed data file of a 2 x 1 image (36 bytes, bytes
6 and 7 are 02 00) read by a fresh instance. -/
theorem read_header_geometry_witness :
    ∃ w' : World,
      ((sampleDisk "foo" sampleData).files (rootSample "img.ent" ++ ".dat") = some sampleData ∧
        readAt sampleData 6 2 = [2, 0] ∧
        0 < (2 : Byte).toNat + 256 * (0 : Byte).toNat ∧
        (2 : Byte).toNat + 256 * (0 : Byte).toNat ≤ 32767 ∧
        ReadImageInformation rootSample junkAA
          { fs := sampleDisk "foo" sampleData, codec := reader "img.ent" 0 0 } = Except.ok w') ∧
      w'.codec.m_width = (((2 : Byte).toNat + 256 * (0 : Byte).toNat : Nat) : Int) ∧
      w'.codec.m_height =
        Int.tdiv ((sampleData.length : Int) - 4 -
            8 * (((2 : Byte).toNat + 256 * (0 : Byte).toNat : Nat) : Int))
          (8 * (((2 : Byte).toNat + 256 * (0 : Byte).toNat : Nat) : Int)) ∧
      4 + 16 * ((2 : Byte).toNat + 256 * (0 : Byte).toNat) ≤ sampleData.length ∧
      w'.codec.m_height =
        (((sampleData.length - 4 - 8 * ((2 : Byte).toNat + 256 * (0 : Byte).toNat)) /
          (8 * ((2 : Byte).toNat + 256 * (0 : Byte).toNat)) : Nat) : Int) := by
  have hnone : failureOf (ReadImageInformation rootSample junkAA
      { fs := sampleDisk "foo" sampleData, codec := reader "img.ent" 0 0 }) = none := by decide
  cases h : ReadImageInformation rootSample junkAA
      { fs := sampleDisk "foo" sampleData, codec := reader "img.ent" 0 0 } with
  | error e => rw [h] at hnone; exact absurd hnone (by simp [failureOf])
  | ok w' =>
    exact ⟨w', ⟨by decide, by decide, by decide, by decide, rfl⟩,
      read_header_geometry rootSample junkAA
        { fs := sampleDisk "foo" sampleData, codec := reader "img.ent" 0 0 } w' sampleData 2 0
        (by decide) (by decide) (by decide) (by decide) h⟩

set_option maxRecDepth 100000 in
/-- C7 as stated fails for a width that a `short` cannot hold: for width 32768
(and height 1) the first `Write` raises the allocation failure while it writes
the header, and no row is written. -/
theorem full_write_fails_for_wide_image :
    failureOf (Write rootSample junkAA (List.replicate (8 * 32768 * 1) 0)
      { fs := emptyDisk, codec := writer "img.ent" 32768 1 (fullExtent 32768 1) 0 0 }) =
      some Failure.badAlloc := by
  decide

/-- C7 (full-extent write placement), amended. For every width whose narrowing
to a `short` is not negative (every width up to 32767) and every height: after
`Write` over the full extent on a fresh instance, row `r < height` of the
buffer occupies the bytes `[4 + 8*width*(r+1), 4 + 8*width*(r+2))` of the data
file. For width 4 and height 2 the magic number 33554433 (bytes 01 00 00 02) is
at offset 0, the 16-bit value 4 at offset 6, the first pixel row at offset 36
and the second at offset 68. -/
theorem full_write_placement (tab0 : Uninit) (fs : FileSystem) (FileName : String)
    (width height : Nat) (hcol : 0 ≤ toShort (width : Int)) (buffer : List Byte)
    (hbuf : buffer.length = 8 * width * height) (width0 height0 : Int)
    (hwe : fs.writable (R FileName ++ ".ent") = true)
    (hwd : fs.writable (R FileName ++ ".dat") = true) :
    ∃ (w2 : World) (F : List Byte),
      Write R tab0 buffer
        { fs := fs, codec := writer FileName width height (fullExtent width height)
            width0 height0 } = Except.ok w2 ∧
      w2.fs.files (R FileName ++ ".dat") = some F ∧
      (∀ r, r < height →
        readAt F (4 + 8 * width * (r + 1)) (8 * width) = readAt buffer (8 * width * r) (8 * width) ∧
        (readAt buffer (8 * width * r) (8 * width)).length = 8 * width) ∧
      (width = 4 → height = 2 →
        readAt F 0 4 = [1, 0, 0, 2] ∧ leValue (readAt F 0 4) = 33554433 ∧
        readAt F 6 2 = [4, 0] ∧
        readAt F 36 32 = buffer.take 32 ∧ readAt F 68 32 = (buffer.drop 32).take 32) := by
  obtain ⟨fs2, hs2, ds2, e2, -, -, hfile, -, -, -⟩ := Write_first_spec R tab0 buffer
    { fs := fs, codec := writer FileName width height (fullExtent width height) width0 height0 }
    rfl hwe hwd rfl rfl hcol
  rw [bodyFile_full buffer _ _ width height rfl rfl rfl rfl rfl rfl] at hfile
  have htake : buffer.take (8 * width * height) = buffer :=
    List.take_of_length_le (by rw [hbuf])
  rw [htake] at hfile
  replace hfile : fs2.files (R FileName ++ ".dat") =
      some (writeRows (4 + 8 * width) (8 * width) 0 0 buffer height
        (dataHeader tab0 width height)) := hfile
  have hrows : ∀ r, r < height →
      readAt (writeRows (4 + 8 * width) (8 * width) 0 0 buffer height
        (dataHeader tab0 width height)) (4 + 8 * width * (r + 1)) (8 * width) =
        readAt buffer (8 * width * r) (8 * width) :=
    fun r hr => fullFile_row _ buffer width height hbuf r hr
  refine ⟨_, _, e2, hfile, fun r hr => ⟨hrows r hr, ?_⟩, ?_⟩
  · rw [readAt_length, hbuf]
    have h1 : 8 * width * (r + 1) ≤ 8 * width * height := Nat.mul_le_mul_left _ hr
    have h2 : 8 * width * (r + 1) = 8 * width * r + 8 * width := Nat.mul_succ _ _
    omega
  · intro hw4 hh2
    subst hw4 hh2
    have h8 := dataHeader_length_ge tab0 4 2
    have hm : readAt (writeRows (4 + 8 * 4) (8 * 4) 0 0 buffer 2 (dataHeader tab0 4 2)) 0 4 =
        [1, 0, 0, 2] := by
      rw [readAt_writeRows_before _ _ _ _ _ _ _ _ (by omega) (by omega), dataHeader_magic,
        intBytes_magic]
    have hc : readAt (writeRows (4 + 8 * 4) (8 * 4) 0 0 buffer 2 (dataHeader tab0 4 2)) 6 2 =
        [4, 0] := by
      rw [readAt_writeRows_before _ _ _ _ _ _ _ _ (by omega) (by omega), dataHeader_colcount]
      decide
    have h0 := hrows 0 (by omega)
    have h1 := hrows 1 (by omega)
    refine ⟨hm, ?_, hc, ?_, ?_⟩
    · rw [hm]; decide
    · simpa [readAt] using h0
    · simpa [readAt] using h1

/-- Witness of C7: a 4 x 2 image of 64 bytes written to `img.ent` / `img.dat`
on an empty disk. -/
theorem full_write_placement_witness :
    (0 ≤ toShort ((4 : Nat) : Int) ∧ (sampleBuffer 64).length = 8 * 4 * 2 ∧
      emptyDisk.writable (rootSample "img.ent" ++ ".ent") = true ∧
      emptyDisk.writable (rootSample "img.ent" ++ ".dat") = true) ∧
    ∃ (w2 : World) (F : List Byte),
      Write rootSample junkAA (sampleBuffer 64)
        { fs := emptyDisk, codec := writer "img.ent" 4 2 (fullExtent 4 2) 0 0 } = Except.ok w2 ∧
      w2.fs.files (rootSample "img.ent" ++ ".dat") = some F ∧
      (∀ r, r < 2 →
        readAt F (4 + 8 * 4 * (r + 1)) (8 * 4) = readAt (sampleBuffer 64) (8 * 4 * r) (8 * 4) ∧
        (readAt (sampleBuffer 64) (8 * 4 * r) (8 * 4)).length = 8 * 4) ∧
      (4 = 4 → 2 = 2 →
        readAt F 0 4 = [1, 0, 0, 2] ∧ leValue (readAt F 0 4) = 33554433 ∧
        readAt F 6 2 = [4, 0] ∧
        readAt F 36 32 = (sampleBuffer 64).take 32 ∧
        readAt F 68 32 = ((sampleBuffer 64).drop 32).take 32) :=
  ⟨⟨by decide, by decide, rfl, rfl⟩,
    full_write_placement rootSample junkAA emptyDisk "img.ent" 4 2 (by decide) (sampleBuffer 64)
      (by decide) 0 0 rfl rfl⟩

set_option maxRecDepth 100000 in
/-- C8 as stated fails for a height that a `short` cannot hold: for width 1 and
height 32768 the row count `NbRow + 1` is negative, no row is written, and the
data file after `WriteImageInformation` has 8 bytes, not `4 + 32769 * 8`. -/
theorem header_layout_fails_for_tall_image :
    fileAfter (WriteImageInformation rootSample junkAA
      { fs := emptyDisk, codec := writer "img.ent" 1 32768 (fullExtent 1 32768) 0 0 })
      "img.dat" = some [1, 0, 0, 2, 0, 0, 1, 0] ∧
    ([1, 0, 0, 2, 0, 0, 1, 0] : List Byte).length ≠ 4 + (32768 + 1) * (8 * 1) :=
  ⟨by decide, by decide⟩

/-- C8 (data-file layout of `WriteImageInformation`), amended. For every width
in [1, 32767] and every height up to 32767, right after `WriteImageInformation`
the data file is the magic number 33554433 in 4 little-endian bytes followed by
exactly `height + 1` rows of `8 * width` bytes (size `4 + (height+1)*8*width`),
and the bytes at offsets 6 and 7 hold the width as a little-endian 16-bit
integer. The other row bytes are copies of the row buffer: they are zero
whenever that buffer is. -/
theorem header_layout (tab0 : Uninit) (fs : FileSystem) (FileName : String)
    (width height : Nat) (hw : 1 ≤ width ∧ width ≤ 32767) (hh : height ≤ 32767)
    (region : ImageIORegion) (width0 height0 : Int)
    (hwe : fs.writable (R FileName ++ ".ent") = true)
    (hwd : fs.writable (R FileName ++ ".dat") = true) :
    ∃ (w1 : World) (F : List Byte),
      WriteImageInformation R tab0
        { fs := fs, codec := writer FileName width height region width0 height0 } =
        Except.ok w1 ∧
      w1.fs.files (R FileName ++ ".dat") = some F ∧
      F.length = 4 + (height + 1) * (8 * width) ∧
      readAt F 0 4 = [1, 0, 0, 2] ∧ leValue (readAt F 0 4) = 33554433 ∧
      readAt F 6 2 = [UInt8.ofNat (width % 256), UInt8.ofNat (width / 256)] ∧
      leValue (readAt F 6 2) = width ∧
      ((∀ j, tab0 j = 0) →
        ∀ i, 4 ≤ i → i < F.length → i ≠ 6 → i ≠ 7 → F[i]? = some 0) := by
  obtain ⟨hw1, hw2⟩ := hw
  have hcol : (0 : Int) ≤ toShort (width : Int) := by
    rw [toShort_of_le hw2]; omega
  obtain ⟨fs1, hs1, ds1, e1, -, -, hfile, -, -, -⟩ := WriteImageInformation_spec R tab0
    { fs := fs, codec := writer FileName width height region width0 height0 }
    hwe hwd rfl rfl hcol
  replace hfile : fs1.files (R FileName ++ ".dat") = some (dataHeader tab0 width height) := hfile
  have hm : readAt (dataHeader tab0 width height) 0 4 = [1, 0, 0, 2] := by
    rw [dataHeader_magic, intBytes_magic]
  have hc : readAt (dataHeader tab0 width height) 6 2 =
      [UInt8.ofNat (width % 256), UInt8.ofNat (width / 256)] := by
    rw [dataHeader_colcount, intBytes_two_natCast hw2]
  refine ⟨_, _, e1, hfile, dataHeader_length tab0 hw1 hw2 hh, hm, ?_, hc, ?_, ?_⟩
  · rw [hm]; decide
  · rw [hc]
    simp only [leValue, byte_toNat_ofNat]
    omega
  · intro hz i h4 hlen h6 h7
    obtain ⟨j, hj⟩ := dataHeader_other_bytes tab0 hw1 hw2 hh i h4 hlen h6 h7
    rw [hj, hz j]

/-- Witness of C8: the header of a 4 x 2 image written to `img.ent` / `img.dat`
on an empty disk. -/
theorem header_layout_witness :
    ((1 ≤ 4 ∧ 4 ≤ 32767) ∧ 2 ≤ 32767 ∧
      emptyDisk.writable (rootSample "img.ent" ++ ".ent") = true ∧
      emptyDisk.writable (rootSample "img.ent" ++ ".dat") = true) ∧
    ∃ (w1 : World) (F : List Byte),
      WriteImageInformation rootSample junkAA
        { fs := emptyDisk, codec := writer "img.ent" 4 2 (fullExtent 4 2) 0 0 } =
        Except.ok w1 ∧
      w1.fs.files (rootSample "img.ent" ++ ".dat") = some F ∧
      F.length = 4 + (2 + 1) * (8 * 4) ∧
      readAt F 0 4 = [1, 0, 0, 2] ∧ leValue (readAt F 0 4) = 33554433 ∧
      readAt F 6 2 = [UInt8.ofNat (4 % 256), UInt8.ofNat (4 / 256)] ∧
      leValue (readAt F 6 2) = 4 ∧
      ((∀ j, junkAA j = 0) →
        ∀ i, 4 ≤ i → i < F.length → i ≠ 6 → i ≠ 7 → F[i]? = some 0) :=
  ⟨⟨⟨by decide, by decide⟩, by decide, rfl, rfl⟩,
    header_layout rootSample junkAA emptyDisk "img.ent" 4 2 ⟨by decide, by decide⟩ (by decide)
      (fullExtent 4 2) 0 0 rfl rfl⟩

/-- C9 (header written exactly once). Take an instance whose flag
`m_FlagWriteImageInformation` is set, as the constructor leaves it, and any
sequence of one or more `Write` calls that return normally, with any regions
and buffers. At the end the flag is cleared, and each of the two files has been
opened with truncation exactly once: the header was written by the first call
and by no later one. As the sequence is arbitrary, this holds after every call
of a longer run, so the flag never goes back. -/
theorem header_written_once (w : World)
    (hflag : w.codec.m_FlagWriteImageInformation = true)
    (calls : List (Uninit × ImageIORegion × List Byte)) (hne : calls ≠ []) (w' : World)
    (hrun : WriteAll R calls w = Except.ok w') :
    w'.codec.m_FlagWriteImageInformation = false ∧
    w'.fs.truncations (R w.codec.m_FileName ++ ".ent") =
      w.fs.truncations (R w.codec.m_FileName ++ ".ent") + 1 ∧
    w'.fs.truncations (R w.codec.m_FileName ++ ".dat") =
      w.fs.truncations (R w.codec.m_FileName ++ ".dat") + 1 ∧
    ∀ q, q ≠ R w.codec.m_FileName ++ ".ent" → q ≠ R w.codec.m_FileName ++ ".dat" →
      w'.fs.truncations q = w.fs.truncations q := by
  cases calls with
  | nil => exact absurd rfl hne
  | cons call rest =>
    simp only [WriteAll] at hrun
    cases h1 : Write R call.1 call.2.2 (SetIORegion call.2.1 w) with
    | error e => rw [h1] at hrun; exact absurd hrun (by simp [Except.bind])
    | ok w1 =>
      rw [h1] at hrun
      simp only [Except.bind] at hrun
      obtain ⟨a1, a2⟩ := Write_first_inv R call.1 call.2.2 (SetIORegion call.2.1 w) w1 hflag h1
      obtain ⟨b1, b2⟩ := WriteAll_after_header R rest w1 w' a1 hrun
      have hne' := ent_ne_dat (R w.codec.m_FileName)
      replace a2 : w1.fs.truncations = ((w.fs.truncate (R w.codec.m_FileName ++ ".ent")).truncate
          (R w.codec.m_FileName ++ ".dat")).truncations := a2
      refine ⟨b1, ?_, ?_, ?_⟩
      · rw [b2, a2]; simp [FileSystem.truncate, hne']
      · rw [b2, a2]; simp [FileSystem.truncate, Ne.symm hne']
      · intro q hq1 hq2
        rw [b2, a2]; simp [FileSystem.truncate, hq1, hq2]

set_option maxRecDepth 100000 in
/-- Witness of C9: a 4 x 2 image written to `img.ent` / `img.dat` on an empty
disk by a fresh instance in three calls (the full extent, then each row). -/
theorem header_written_once_witness :
    ∃ w' : World,
      ((writer "img.ent" 4 2 (fullExtent 4 2) 0 0).m_FlagWriteImageInformation = true ∧
        [(junkAA, fullExtent 4 2, sampleBuffer 64),
          (junkAA, { index0 := 0, index1 := 0, size0 := 4, size1 := 1 }, sampleBuffer 32),
          (junkAA, { index0 := 0, index1 := 1, size0 := 4, size1 := 1 }, sampleBuffer 32)] ≠
          ([] : List (Uninit × ImageIORegion × List Byte)) ∧
        WriteAll rootSample
          [(junkAA, fullExtent 4 2, sampleBuffer 64),
            (junkAA, { index0 := 0, index1 := 0, size0 := 4, size1 := 1 }, sampleBuffer 32),
            (junkAA, { index0 := 0, index1 := 1, size0 := 4, size1 := 1 }, sampleBuffer 32)]
          { fs := emptyDisk, codec := writer "img.ent" 4 2 (fullExtent 4 2) 0 0 } =
          Except.ok w') ∧
      w'.codec.m_FlagWriteImageInformation = false ∧
      w'.fs.truncations (rootSample "img.ent" ++ ".ent") =
        emptyDisk.truncations (rootSample "img.ent" ++ ".ent") + 1 ∧
      w'.fs.truncations (rootSample "img.ent" ++ ".dat") =
        emptyDisk.truncations (rootSample "img.ent" ++ ".dat") + 1 ∧
      ∀ q, q ≠ rootSample "img.ent" ++ ".ent" → q ≠ rootSample "img.ent" ++ ".dat" →
        w'.fs.truncations q = emptyDisk.truncations q := by
  have hnone : failureOf (WriteAll rootSample
      [(junkAA, fullExtent 4 2, sampleBuffer 64),
        (junkAA, { index0 := 0, index1 := 0, size0 := 4, size1 := 1 }, sampleBuffer 32),
        (junkAA, { index0 := 0, index1 := 1, size0 := 4, size1 := 1 }, sampleBuffer 32)]
      { fs := emptyDisk, codec := writer "img.ent" 4 2 (fullExtent 4 2) 0 0 }) = none := by
    decide
  cases h : WriteAll rootSample
      [(junkAA, fullExtent 4 2, sampleBuffer 64),
        (junkAA, { index0 := 0, index1 := 0, size0 := 4, size1 := 1 }, sampleBuffer 32),
        (junkAA, { index0 := 0, index1 := 1, size0 := 4, size1 := 1 }, sampleBuffer 32)]
      { fs := emptyDisk, codec := writer "img.ent" 4 2 (fullExtent 4 2) 0 0 } with
  | error e => rw [h] at hnone; exact absurd hnone (by simp [failureOf])
  | ok w' =>
    exact ⟨w', ⟨rfl, by simp, rfl⟩,
      header_written_once rootSample
        { fs := emptyDisk, codec := writer "img.ent" 4 2 (fullExtent 4 2) 0 0 } rfl _
        (by simp) w' h⟩

/-- C10 (short read). With the data file `F` present, `Read` raises the
short-read error exactly when, for some row of the region, the bytes obtained
at the offset of that row are not the `2 * m_NbOctetPixel * size0` bytes
requested (8 bytes per column). In particular, for an image `wd >= 1` pixels
wide, a region of full width that contains a row `r` whose last byte lies
beyond the end of a truncated data file makes `Read` raise that error: no
buffer, zero-filled or partial, is returned. -/
theorem short_read_iff (w : World) (F : List Byte)
    (hF : w.fs.files (R w.codec.m_FileName ++ ".dat") = some F) :
    (Read R w = Except.error Failure.cannotReadRegion ↔
      ∃ i, i < w.codec.m_IORegion.size1 ∧
        bytesObtained F
          (rowOffset ((ONERA_HEADER_LENGTH : Int) +
              2 * w.codec.m_width * (w.codec.m_NbOctetPixel : Int))
            (2 * w.codec.m_width * (w.codec.m_NbOctetPixel : Int)) w.codec.m_NbOctetPixel
            w.codec.m_IORegion.index0 (w.codec.m_IORegion.index1 + i))
          (2 * w.codec.m_NbOctetPixel * w.codec.m_IORegion.size0) ≠
        2 * w.codec.m_NbOctetPixel * w.codec.m_IORegion.size0) ∧
    (∀ wd r : Nat, 1 ≤ wd → w.codec.m_width = (wd : Int) → w.codec.m_NbOctetPixel = 4 →
      w.codec.m_IORegion.index0 = 0 → w.codec.m_IORegion.size0 = wd →
      w.codec.m_IORegion.index1 ≤ r → r < w.codec.m_IORegion.index1 + w.codec.m_IORegion.size1 →
      F.length < 4 + 8 * wd * (r + 2) →
      Read R w = Except.error Failure.cannotReadRegion) := by
  have key : (∃ i, i < w.codec.m_IORegion.size1 ∧
        bytesObtained F
          (rowOffset ((ONERA_HEADER_LENGTH : Int) +
              2 * w.codec.m_width * (w.codec.m_NbOctetPixel : Int))
            (2 * w.codec.m_width * (w.codec.m_NbOctetPixel : Int)) w.codec.m_NbOctetPixel
            w.codec.m_IORegion.index0 (w.codec.m_IORegion.index1 + i))
          (2 * w.codec.m_NbOctetPixel * w.codec.m_IORegion.size0) ≠
        2 * w.codec.m_NbOctetPixel * w.codec.m_IORegion.size0) →
      Read R w = Except.error Failure.cannotReadRegion := by
    rintro ⟨i, hi, hne⟩
    have hn : 0 < 2 * w.codec.m_NbOctetPixel * w.codec.m_IORegion.size0 := by
      rcases Nat.eq_zero_or_pos (2 * w.codec.m_NbOctetPixel * w.codec.m_IORegion.size0) with h0 | h0
      · exfalso
        apply hne
        rw [h0]
        unfold bytesObtained
        split <;> simp
      · exact h0
    apply Read_short R w F hF hn
    refine ⟨i, hi, ?_⟩
    by_contra hcon
    apply hne
    rw [bytesObtained_eq_iff F _ _ hn]
    constructor
    · exact not_lt.mp (fun h => hcon (Or.inl h))
    · exact not_lt.mp (fun h => hcon (Or.inr h))
  refine ⟨⟨?_, key⟩, ?_⟩
  · intro herr
    by_contra hall
    rcases Nat.eq_zero_or_pos (2 * w.codec.m_NbOctetPixel * w.codec.m_IORegion.size0) with h0 | h0
    · obtain ⟨x, hx⟩ := Read_zero R w F hF h0
      rw [hx] at herr
      exact absurd herr (by simp)
    · obtain ⟨ds, -, hok⟩ := Read_ok R w F hF (fun i hi => by
        have : bytesObtained F
            (rowOffset ((ONERA_HEADER_LENGTH : Int) +
                2 * w.codec.m_width * (w.codec.m_NbOctetPixel : Int))
              (2 * w.codec.m_width * (w.codec.m_NbOctetPixel : Int)) w.codec.m_NbOctetPixel
              w.codec.m_IORegion.index0 (w.codec.m_IORegion.index1 + i))
            (2 * w.codec.m_NbOctetPixel * w.codec.m_IORegion.size0) =
            2 * w.codec.m_NbOctetPixel * w.codec.m_IORegion.size0 := by
          by_contra hne
          exact hall ⟨i, hi, hne⟩
        exact (bytesObtained_eq_iff F _ _ h0).mp this)
      rw [hok] at herr
      exact absurd herr (by simp)
  · intro wd r hwd hw hnb hi0 hs0 hr1 hr2 hlen
    apply key
    refine ⟨r - w.codec.m_IORegion.index1, by omega, ?_⟩
    rw [show w.codec.m_IORegion.index1 + (r - w.codec.m_IORegion.index1) = r by omega,
      hw, hnb, hi0, hs0, rowOffset_natCast]
    intro hob
    have h8 : 0 < 2 * 4 * wd := by omega
    have := (bytesObtained_eq_iff F _ _ h8).mp hob
    rw [Int.toNat_ofNat] at this
    have e2 : 8 * wd * (r + 2) = 8 * wd * r + 8 * wd + 8 * wd := by ring
    omega

set_option maxRecDepth 100000 in
/-- Witness of C10: the full extent of the 2 x 1 sample image read from a data
file truncated to 30 bytes. -/
theorem short_read_iff_witness :
    truncatedWorld.fs.files (rootSample truncatedWorld.codec.m_FileName ++ ".dat") =
      some truncatedData ∧
    ((Read rootSample truncatedWorld = Except.error Failure.cannotReadRegion ↔
      ∃ i, i < truncatedWorld.codec.m_IORegion.size1 ∧
        bytesObtained truncatedData
          (rowOffset ((ONERA_HEADER_LENGTH : Int) +
              2 * truncatedWorld.codec.m_width * (truncatedWorld.codec.m_NbOctetPixel : Int))
            (2 * truncatedWorld.codec.m_width * (truncatedWorld.codec.m_NbOctetPixel : Int))
            truncatedWorld.codec.m_NbOctetPixel
            truncatedWorld.codec.m_IORegion.index0 (truncatedWorld.codec.m_IORegion.index1 + i))
          (2 * truncatedWorld.codec.m_NbOctetPixel * truncatedWorld.codec.m_IORegion.size0) ≠
        2 * truncatedWorld.codec.m_NbOctetPixel * truncatedWorld.codec.m_IORegion.size0) ∧
    (∀ wd r : Nat, 1 ≤ wd → truncatedWorld.codec.m_width = (wd : Int) →
      truncatedWorld.codec.m_NbOctetPixel = 4 →
      truncatedWorld.codec.m_IORegion.index0 = 0 → truncatedWorld.codec.m_IORegion.size0 = wd →
      truncatedWorld.codec.m_IORegion.index1 ≤ r →
      r < truncatedWorld.codec.m_IORegion.index1 + truncatedWorld.codec.m_IORegion.size1 →
      truncatedData.length < 4 + 8 * wd * (r + 2) →
      Read rootSample truncatedWorld = Except.error Failure.cannotReadRegion)) :=
  ⟨by decide, short_read_iff rootSample truncatedWorld truncatedData (by decide)⟩

set_option maxRecDepth 100000 in
/-- C11 (zero dimension is a format error), evaluated where it fails. The data
file has 36 bytes and its column count (bytes 6 and 7) is 0:
`ReadImageInformation` divides by `4 * 2 * NbCol = 0` before it looks at the
dimensions, so the call does not end with the format error. A computed height
of 0 (a data file of 20 bytes for 2 columns, with no pixel row) does raise the
format error "Unknown image dimension". -/
theorem zero_column_count_divides_by_zero :
    readAt zeroColumnData 6 2 = [0, 0] ∧
    failureOf (ReadImageInformation rootSample junkAA
      { fs := sampleDisk "foo" zeroColumnData, codec := reader "img.ent" 0 0 }) =
      some Failure.divisionByZero ∧
    failureOf (ReadImageInformation rootSample junkAA
      { fs := sampleDisk "foo" headerOnlyData, codec := reader "img.ent" 0 0 }) =
      some Failure.unknownImageDimension :=
  ⟨by decide, by decide, by decide⟩

set_option maxRecDepth 100000 in
/-- C12 (geometry invariant), evaluated where it fails. For a data file of 36
bytes whose column count is FF FF, `ReadImageInformation` returns normally with
`m_width = -1` and `m_height = -5` (and the dimensions 4294967295 x 4294967291):
only the value 0 is rejected. For a data file of 4 bytes, shorter than a header
row, the column count is not read; when the uninitialised `NbCol` holds 1 the
call returns normally with `m_width = 1` and `m_height = -1`. -/
theorem geometry_not_positive :
    geometryAfter (ReadImageInformation rootSample junkAA
      { fs := sampleDisk "foo" allOnesColumnData, codec := reader "img.ent" 0 0 }) =
      some (-1, -5) ∧
    dimensionsAfter (ReadImageInformation rootSample junkAA
      { fs := sampleDisk "foo" allOnesColumnData, codec := reader "img.ent" 0 0 }) =
      some (4294967295, 4294967291) ∧
    geometryAfter (ReadImageInformation rootSample junkOne
      { fs := sampleDisk "foo" [1, 0, 0, 2], codec := reader "img.ent" 0 0 }) =
      some (1, -1) :=
  ⟨by decide, by decide, by decide⟩

/-- C13 (offsets and output order of `Read`). With the data file `F` present
and 4 bytes per component, for every width held by the instance and every
region: a buffer returned by `Read` is the concatenation, for the rows
`r = index1, ..., index1 + size1 - 1` in increasing order, of the `8 * size0`
bytes of `F` that start at the offset `4 + 8*width + 8*width*r + 4*index0`, and
it has `8 * size1 * size0` bytes. `Read` does return a buffer when each of
these pieces lies inside the file. -/
theorem read_region_layout (w : World) (F : List Byte)
    (hF : w.fs.files (R w.codec.m_FileName ++ ".dat") = some F)
    (hnb : w.codec.m_NbOctetPixel = 4) :
    (∀ (buf : List Byte) (w' : World), Read R w = Except.ok (buf, w') →
      buf = (List.range w.codec.m_IORegion.size1).flatMap (fun i =>
        readAt F
          (4 + 8 * w.codec.m_width +
            8 * w.codec.m_width * ((w.codec.m_IORegion.index1 + i : Nat) : Int) +
            4 * (w.codec.m_IORegion.index0 : Int)).toNat
          (8 * w.codec.m_IORegion.size0)) ∧
      buf.length = 8 * w.codec.m_IORegion.size1 * w.codec.m_IORegion.size0) ∧
    ((∀ i, i < w.codec.m_IORegion.size1 →
        0 ≤ 4 + 8 * w.codec.m_width +
          8 * w.codec.m_width * ((w.codec.m_IORegion.index1 + i : Nat) : Int) +
          4 * (w.codec.m_IORegion.index0 : Int) ∧
        (4 + 8 * w.codec.m_width +
          8 * w.codec.m_width * ((w.codec.m_IORegion.index1 + i : Nat) : Int) +
          4 * (w.codec.m_IORegion.index0 : Int)).toNat + 8 * w.codec.m_IORegion.size0 ≤
          F.length) →
      ∃ (buf : List Byte) (w' : World), Read R w = Except.ok (buf, w')) := by
  have hoff : ∀ L : Nat,
      rowOffset ((ONERA_HEADER_LENGTH : Int) + 2 * w.codec.m_width * (w.codec.m_NbOctetPixel : Int))
        (2 * w.codec.m_width * (w.codec.m_NbOctetPixel : Int)) w.codec.m_NbOctetPixel
        w.codec.m_IORegion.index0 L =
      4 + 8 * w.codec.m_width + 8 * w.codec.m_width * (L : Int) +
        4 * (w.codec.m_IORegion.index0 : Int) := by
    intro L
    rw [hnb]
    exact rowOffset_four _ _ _
  have hn8 : 2 * w.codec.m_NbOctetPixel * w.codec.m_IORegion.size0 =
      8 * w.codec.m_IORegion.size0 := by rw [hnb]
  have hfit : (∀ i, i < w.codec.m_IORegion.size1 →
        0 ≤ 4 + 8 * w.codec.m_width +
          8 * w.codec.m_width * ((w.codec.m_IORegion.index1 + i : Nat) : Int) +
          4 * (w.codec.m_IORegion.index0 : Int) ∧
        (4 + 8 * w.codec.m_width +
          8 * w.codec.m_width * ((w.codec.m_IORegion.index1 + i : Nat) : Int) +
          4 * (w.codec.m_IORegion.index0 : Int)).toNat + 8 * w.codec.m_IORegion.size0 ≤
          F.length) →
      ∃ w' : World, Read R w = Except.ok
        ((List.range w.codec.m_IORegion.size1).flatMap (fun i =>
          readAt F
            (4 + 8 * w.codec.m_width +
              8 * w.codec.m_width * ((w.codec.m_IORegion.index1 + i : Nat) : Int) +
              4 * (w.codec.m_IORegion.index0 : Int)).toNat
            (8 * w.codec.m_IORegion.size0)), w') ∧
        ((List.range w.codec.m_IORegion.size1).flatMap (fun i =>
          readAt F
            (4 + 8 * w.codec.m_width +
              8 * w.codec.m_width * ((w.codec.m_IORegion.index1 + i : Nat) : Int) +
              4 * (w.codec.m_IORegion.index0 : Int)).toNat
            (8 * w.codec.m_IORegion.size0))).length =
          8 * w.codec.m_IORegion.size1 * w.codec.m_IORegion.size0 := by
    intro hall
    obtain ⟨ds, -, e⟩ := Read_ok R w F hF (fun i hi => by
      rw [hoff, hn8]; exact hall i hi)
    have hlen := regionBytes_length F
      ((ONERA_HEADER_LENGTH : Int) + 2 * w.codec.m_width * (w.codec.m_NbOctetPixel : Int))
      (2 * w.codec.m_width * (w.codec.m_NbOctetPixel : Int)) w.codec.m_NbOctetPixel
      w.codec.m_IORegion.index0 (2 * w.codec.m_NbOctetPixel * w.codec.m_IORegion.size0)
      w.codec.m_IORegion.size1 w.codec.m_IORegion.index1 (fun i hi => by
        rw [hoff, hn8]; exact (hall i hi).2)
    rw [regionBytes_eq_flatMap] at e hlen
    simp only [hoff, hn8] at e hlen
    refine ⟨_, e, ?_⟩
    rw [hlen]; ring
  refine ⟨?_, fun hall => ?_⟩
  · intro buf w' hok
    rcases Nat.eq_zero_or_pos (8 * w.codec.m_IORegion.size0) with h0 | h0
    · obtain ⟨w0, e0⟩ := Read_empty R w F hF (hn8.trans h0)
      rw [e0] at hok
      have hb : buf = [] := (congrArg Prod.fst (Except.ok.inj hok)).symm
      have hs0 : w.codec.m_IORegion.size0 = 0 := by omega
      rw [hb, flatMap_nil_of_forall _ _ (fun i => by rw [h0]; simp [readAt]), hs0]
      exact ⟨rfl, rfl⟩
    · by_cases hall : ∀ i, i < w.codec.m_IORegion.size1 →
          0 ≤ 4 + 8 * w.codec.m_width +
            8 * w.codec.m_width * ((w.codec.m_IORegion.index1 + i : Nat) : Int) +
            4 * (w.codec.m_IORegion.index0 : Int) ∧
          (4 + 8 * w.codec.m_width +
            8 * w.codec.m_width * ((w.codec.m_IORegion.index1 + i : Nat) : Int) +
            4 * (w.codec.m_IORegion.index0 : Int)).toNat + 8 * w.codec.m_IORegion.size0 ≤ F.length
      · obtain ⟨w1, e1, hl⟩ := hfit hall
        rw [e1] at hok
        have hb := congrArg Prod.fst (Except.ok.inj hok)
        simp only at hb
        rw [← hb]
        exact ⟨rfl, hl⟩
      · exfalso
        push_neg at hall
        obtain ⟨i, hi, hbad⟩ := hall
        have := Read_short R w F hF (by rw [hn8]; exact h0) ⟨i, hi, by
          rw [hoff, hn8]
          by_cases hneg : 4 + 8 * w.codec.m_width +
              8 * w.codec.m_width * ((w.codec.m_IORegion.index1 + i : Nat) : Int) +
              4 * (w.codec.m_IORegion.index0 : Int) < 0
          · exact Or.inl hneg
          · exact Or.inr (hbad (not_lt.mp hneg))⟩
        rw [this] at hok
        exact absurd hok (by simp)
  · obtain ⟨w1, e1, -⟩ := hfit hall
    exact ⟨_, _, e1⟩

set_option maxRecDepth 100000 in
/-- Witness of C13: column 1 of the only row of the 2 x 1 sample image, read
from its data file of 36 bytes. -/
theorem read_region_layout_witness :
    (sampleReadWorld.fs.files (rootSample sampleReadWorld.codec.m_FileName ++ ".dat") =
        some sampleData ∧
      sampleReadWorld.codec.m_NbOctetPixel = 4) ∧
    (∀ (buf : List Byte) (w' : World), Read rootSample sampleReadWorld = Except.ok (buf, w') →
      buf = (List.range sampleReadWorld.codec.m_IORegion.size1).flatMap (fun i =>
        readAt sampleData
          (4 + 8 * sampleReadWorld.codec.m_width +
            8 * sampleReadWorld.codec.m_width *
              ((sampleReadWorld.codec.m_IORegion.index1 + i : Nat) : Int) +
            4 * (sampleReadWorld.codec.m_IORegion.index0 : Int)).toNat
          (8 * sampleReadWorld.codec.m_IORegion.size0)) ∧
      buf.length =
        8 * sampleReadWorld.codec.m_IORegion.size1 * sampleReadWorld.codec.m_IORegion.size0) ∧
    ((∀ i, i < sampleReadWorld.codec.m_IORegion.size1 →
        0 ≤ 4 + 8 * sampleReadWorld.codec.m_width +
          8 * sampleReadWorld.codec.m_width *
            ((sampleReadWorld.codec.m_IORegion.index1 + i : Nat) : Int) +
          4 * (sampleReadWorld.codec.m_IORegion.index0 : Int) ∧
        (4 + 8 * sampleReadWorld.codec.m_width +
          8 * sampleReadWorld.codec.m_width *
            ((sampleReadWorld.codec.m_IORegion.index1 + i : Nat) : Int) +
          4 * (sampleReadWorld.codec.m_IORegion.index0 : Int)).toNat +
            8 * sampleReadWorld.codec.m_IORegion.size0 ≤ sampleData.length) →
      ∃ (buf : List Byte) (w' : World), Read rootSample sampleReadWorld = Except.ok (buf, w')) :=
  ⟨⟨by decide, by decide⟩,
    read_region_layout rootSample sampleReadWorld sampleData (by decide) (by decide)⟩

set_option maxRecDepth 100000 in
/-- C14 (write and read offsets agree), evaluated where it fails. A fresh
instance prepared for a 2 x 2 image writes the region made of column 0 of row 1
(8 bytes, 100..107). The row stride of `Write` is taken from the column count of
the region, 8 bytes, so the row goes to offset `4 + 8 + 8*1 = 20`, inside the
binary header row. `Read` of the same region takes the stride from the image
width, 16 bytes, and reads at offset `4 + 16 + 16*1 = 36`, where the file holds
what the uninitialised row buffer held. -/
theorem write_offset_uses_region_width :
    fileAfter (Write rootSample junkAA (sampleBuffer 8)
      { fs := emptyDisk, codec := writer "img.ent" 2 2
          { index0 := 0, index1 := 1, size0 := 1, size1 := 1 } 0 0 }) "img.dat" =
      some ([1, 0, 0, 2, 170, 170, 2, 0] ++ List.replicate 12 170 ++ sampleBuffer 8 ++
        List.replicate 24 170) ∧
    readAt ([1, 0, 0, 2, 170, 170, 2, 0] ++ List.replicate 12 170 ++ sampleBuffer 8 ++
        List.replicate 24 170) 20 8 = sampleBuffer 8 ∧
    readAt ([1, 0, 0, 2, 170, 170, 2, 0] ++ List.replicate 12 170 ++ sampleBuffer 8 ++
        List.replicate 24 170) 36 8 = List.replicate 8 170 ∧
    writeRegionThenRead rootSample junkAA emptyDisk "img.ent" 2 2 (sampleBuffer 8)
      { index0 := 0, index1 := 1, size0 := 1, size1 := 1 } =
      Except.ok (List.replicate 8 170) :=
  ⟨by decide, by decide, by decide, by rfl⟩

/-- C15 (full-extent special case). For every instance and every region whose
sizes are the dimensions of the image, whatever the offsets `index0`, `index1`
of the region: `Write` ends the same way (normally, or with the same exception)
and leaves the same contents in every file, the data file among them, as
`Write` with the same region at the offsets 0, 0. -/
theorem full_extent_ignores_offsets (tab0 : Uninit) (buffer : List Byte) (w : World)
    (region : ImageIORegion) (h1 : region.size1 = w.codec.m_Dimensions1)
    (h0 : region.size0 = w.codec.m_Dimensions0) :
    failureOf (Write R tab0 buffer (SetIORegion region w)) =
      failureOf (Write R tab0 buffer
        (SetIORegion { region with index0 := 0, index1 := 0 } w)) ∧
    ∀ p, fileAfter (Write R tab0 buffer (SetIORegion region w)) p =
      fileAfter (Write R tab0 buffer
        (SetIORegion { region with index0 := 0, index1 := 0 } w)) p := by
  rw [Write_full_region R tab0 buffer w region h1 h0]
  cases Write R tab0 buffer (SetIORegion { region with index0 := 0, index1 := 0 } w) with
  | error e => exact ⟨rfl, fun _ => rfl⟩
  | ok w1 => exact ⟨rfl, fun _ => rfl⟩

set_option maxRecDepth 100000 in
/-- Witness of C15: a fresh instance prepared for a 2 x 1 image writes the region
of 2 x 1 pixels given with the offsets 1 (column) and 3 (row); the call returns
normally and the data file is the one of the full-extent write, 36 bytes. -/
theorem full_extent_ignores_offsets_witness :
    (({ index0 := 1, index1 := 3, size0 := 2, size1 := 1 } : ImageIORegion).size1 =
        (writer "img.ent" 2 1 (fullExtent 2 1) 0 0).m_Dimensions1 ∧
      ({ index0 := 1, index1 := 3, size0 := 2, size1 := 1 } : ImageIORegion).size0 =
        (writer "img.ent" 2 1 (fullExtent 2 1) 0 0).m_Dimensions0) ∧
    fileAfter (Write rootSample junkAA (sampleBuffer 16)
      (SetIORegion { index0 := 0, index1 := 0, size0 := 2, size1 := 1 }
        { fs := emptyDisk, codec := writer "img.ent" 2 1 (fullExtent 2 1) 0 0 })) "img.dat" =
      some ([1, 0, 0, 2, 170, 170, 2, 0] ++ List.replicate 12 170 ++ sampleBuffer 16) ∧
    (failureOf (Write rootSample junkAA (sampleBuffer 16)
        (SetIORegion { index0 := 1, index1 := 3, size0 := 2, size1 := 1 }
          { fs := emptyDisk, codec := writer "img.ent" 2 1 (fullExtent 2 1) 0 0 })) =
      failureOf (Write rootSample junkAA (sampleBuffer 16)
        (SetIORegion { index0 := 0, index1 := 0, size0 := 2, size1 := 1 }
          { fs := emptyDisk, codec := writer "img.ent" 2 1 (fullExtent 2 1) 0 0 })) ∧
    ∀ p, fileAfter (Write rootSample junkAA (sampleBuffer 16)
        (SetIORegion { index0 := 1, index1 := 3, size0 := 2, size1 := 1 }
          { fs := emptyDisk, codec := writer "img.ent" 2 1 (fullExtent 2 1) 0 0 })) p =
      fileAfter (Write rootSample junkAA (sampleBuffer 16)
        (SetIORegion { index0 := 0, index1 := 0, size0 := 2, size1 := 1 }
          { fs := emptyDisk, codec := writer "img.ent" 2 1 (fullExtent 2 1) 0 0 })) p) :=
  ⟨⟨rfl, rfl⟩, by decide,
    full_extent_ignores_offsets rootSample junkAA (sampleBuffer 16)
      { fs := emptyDisk, codec := writer "img.ent" 2 1 (fullExtent 2 1) 0 0 }
      { index0 := 1, index1 := 3, size0 := 2, size1 := 1 } rfl rfl⟩

/-- C16 (`CanWriteFile`). For every path and every state, `CanWriteFile` returns
true exactly when the path is equal, as a string, to its root name followed by
`.ent`, and it hands back the file system and the instance unchanged (no file
is opened, created or truncated, no member is modified). With a root name
function that gives `img` for `img.ent` and for `img.dat`, the result is true
for `img.ent` and false for `img.dat`. -/
theorem can_write_file_iff (FileNameToWrite : String) (w : World) :
    ((CanWriteFile R FileNameToWrite w).1 = true ↔
      FileNameToWrite = R FileNameToWrite ++ ".ent") ∧
    (CanWriteFile R FileNameToWrite w).2 = w ∧
    (R "img.ent" = "img" → (CanWriteFile R "img.ent" w).1 = true) ∧
    (R "img.dat" = "img" → (CanWriteFile R "img.dat" w).1 = false) := by
  refine ⟨CanWriteFile_fst R _ w, CanWriteFile_snd R _ w, fun h => ?_, fun h => ?_⟩
  · rw [CanWriteFile_fst, h]; decide
  · cases hc : (CanWriteFile R "img.dat" w).1 with
    | false => rfl
    | true =>
      rw [CanWriteFile_fst, h] at hc
      exact absurd hc (by decide)

set_option maxRecDepth 100000 in
/-- Witness of C16: the root name function of the examples, on a disk that holds
the sample image. -/
theorem can_write_file_iff_witness :
    (rootSample "img.ent" = "img" ∧ rootSample "img.dat" = "img") ∧
    (CanWriteFile rootSample "img.ent"
      { fs := sampleDisk "foo" sampleData, codec := reader "img.ent" 0 0 }).1 = true ∧
    (CanWriteFile rootSample "img.dat"
      { fs := sampleDisk "foo" sampleData, codec := reader "img.ent" 0 0 }).1 = false ∧
    (CanWriteFile rootSample "img.dat"
      { fs := sampleDisk "foo" sampleData, codec := reader "img.ent" 0 0 }).2 =
      { fs := sampleDisk "foo" sampleData, codec := reader "img.ent" 0 0 } :=
  ⟨⟨by decide, by decide⟩,
    (can_write_file_iff rootSample "img.ent"
      { fs := sampleDisk "foo" sampleData, codec := reader "img.ent" 0 0 }).2.2.1 (by decide),
    (can_write_file_iff rootSample "img.dat"
      { fs := sampleDisk "foo" sampleData, codec := reader "img.ent" 0 0 }).2.2.2 (by decide),
    (can_write_file_iff rootSample "img.dat"
      { fs := sampleDisk "foo" sampleData, codec := reader "img.ent" 0 0 }).2.1⟩

set_option maxRecDepth 100000 in
/-- C17 (magic mismatch in `ReadImageInformation`), evaluated where it fails.
The data file is the one of the 2 x 1 sample image with its first four bytes
set to zero, which decode to 0 and not to 33554433. `ReadImageInformation`
reads these bytes and never compares them: it returns normally with the
geometry 2 x 1. -/
theorem magic_not_checked_by_read_header :
    leValue (readAt badMagicData 0 4) = 0 ∧
    failureOf (ReadImageInformation rootSample junkAA
      { fs := sampleDisk "foo" badMagicData, codec := reader "img.ent" 0 0 }) = none ∧
    geometryAfter (ReadImageInformation rootSample junkAA
      { fs := sampleDisk "foo" badMagicData, codec := reader "img.ent" 0 0 }) = some (2, 1) :=
  ⟨by decide, by decide, by decide⟩

set_option maxRecDepth 100000 in
/-- C18 (`CanReadFile` leaves no handle open), evaluated where it fails. On a
disk that holds `img.ent` and no `img.dat`, `CanReadFile` opens the header
file, fails to open the data file and returns false at once: the header stream
is still open on `img.ent`. On the three other exit paths (no header file; a
data file with a wrong magic number; a data file with the right one) both
streams are closed at the return. -/
theorem probe_leaves_header_open :
    (CanReadFile rootSample junkAA "img.ent"
      { fs := headerOnlyDisk, codec := reader "img.ent" 0 0 }).1 = false ∧
    (CanReadFile rootSample junkAA "img.ent"
      { fs := headerOnlyDisk, codec := reader "img.ent" 0 0 }).2.codec.m_Headerfile.file =
      some ("img.ent", OpenMode.input) ∧
    (CanReadFile rootSample junkAA "img.ent"
      { fs := headerOnlyDisk, codec := reader "img.ent" 0 0 }).2.codec.m_Headerfile.is_open =
      true ∧
    (CanReadFile rootSample junkAA "img.ent"
      { fs := headerOnlyDisk, codec := reader "img.ent" 0 0 }).2.codec.m_Datafile.is_open =
      false ∧
    ((CanReadFile rootSample junkAA "img.ent"
        { fs := dataOnlyDisk, codec := reader "img.ent" 0 0 }).1 = false ∧
      (CanReadFile rootSample junkAA "img.ent"
        { fs := dataOnlyDisk, codec := reader "img.ent" 0 0 }).2.codec.m_Headerfile.is_open =
        false ∧
      (CanReadFile rootSample junkAA "img.ent"
        { fs := dataOnlyDisk, codec := reader "img.ent" 0 0 }).2.codec.m_Datafile.is_open =
        false) ∧
    ((CanReadFile rootSample junkAA "img.ent"
        { fs := sampleDisk "foo" badMagicData, codec := reader "img.ent" 0 0 }).1 = false ∧
      (CanReadFile rootSample junkAA "img.ent"
        { fs := sampleDisk "foo" badMagicData,
          codec := reader "img.ent" 0 0 }).2.codec.m_Headerfile.is_open = false ∧
      (CanReadFile rootSample junkAA "img.ent"
        { fs := sampleDisk "foo" badMagicData,
          codec := reader "img.ent" 0 0 }).2.codec.m_Datafile.is_open = false) ∧
    ((CanReadFile rootSample junkAA "img.ent"
        { fs := sampleDisk "foo" sampleData, codec := reader "img.ent" 0 0 }).1 = true ∧
      (CanReadFile rootSample junkAA "img.ent"
        { fs := sampleDisk "foo" sampleData,
          codec := reader "img.ent" 0 0 }).2.codec.m_Headerfile.is_open = false ∧
      (CanReadFile rootSample junkAA "img.ent"
        { fs := sampleDisk "foo" sampleData,
          codec := reader "img.ent" 0 0 }).2.codec.m_Datafile.is_open = false) :=
  ⟨by decide, by decide, by decide, by decide, by decide, by decide, by decide⟩

set_option maxRecDepth 100000 in
/-- C19 (`ReadImageInformation` opens the header file), evaluated where it
fails. The disk holds the sample image with a header whose third line is
`cmplx_real_4`, and the instance has just run `CanReadFile`, which left both
streams closed. `ReadImageInformation` calls `OpenOneraDataFileForReading`
twice and never opens the header file: at its return the header stream is not
open (the data stream is), and the string it compared with the token is the
empty string that a closed stream yields, not the third line of the file. -/
theorem read_header_never_opens_header :
    ((sampleDisk "cmplx_real_4" sampleData).files "img.ent").map (nthLine 2) =
      some (stringBytes "cmplx_real_4") ∧
    (CanReadFile rootSample junkAA "img.ent"
      { fs := sampleDisk "cmplx_real_4" sampleData,
        codec := reader "img.ent" 0 0 }).2.codec.m_Headerfile.is_open = false ∧
    (CanReadFile rootSample junkAA "img.ent"
      { fs := sampleDisk "cmplx_real_4" sampleData,
        codec := reader "img.ent" 0 0 }).2.codec.m_Datafile.is_open = false ∧
    handlesAfter (ReadImageInformation rootSample junkAA
      (CanReadFile rootSample junkAA "img.ent"
        { fs := sampleDisk "cmplx_real_4" sampleData, codec := reader "img.ent" 0 0 }).2) =
      some (false, true) ∧
    headerToken (sampleDisk "cmplx_real_4" sampleData)
      (CanReadFile rootSample junkAA "img.ent"
        { fs := sampleDisk "cmplx_real_4" sampleData,
          codec := reader "img.ent" 0 0 }).2.codec.m_Headerfile = [] :=
  ⟨by decide, by decide, by decide, by decide, by decide⟩

set_option maxRecDepth 100000 in
/-- C20 as stated fails: in the header file that `WriteImageInformation` writes
for `img.ent`, line 3 is `Look.dat= <tab>img.dat`, not the token
`cmplx_real_4`. -/
theorem header_third_line_is_not_token :
    (fileAfter (WriteImageInformation rootSample junkAA
      { fs := emptyDisk, codec := writer "img.ent" 4 2 (fullExtent 4 2) 0 0 })
      "img.ent").map (nthLine 2) = some (stringBytes "Look.dat= \timg.dat") ∧
    stringBytes "Look.dat= \timg.dat" ≠ stringBytes "cmplx_real_4" :=
  ⟨by decide, by decide⟩

/-- C20 (header text layout), amended. For every instance and every file
system, with a root name that holds no line feed: whenever
`WriteImageInformation` returns normally, in the `.ent` file it has written
lines 1 and 2 are the comment lines (they start with `#`), line 3 is
`Look.dat= <tab>` followed by the name of the data file, and the token is on
line 8, which is `Format_valeurs_look=    <tab>cmplx_real_4`. The call does
return normally when both files can be created, the pixels are complex floats
and the width narrows to a `short` that is not negative. -/
theorem header_text_layout (tab0 : Uninit) (w : World)
    (hname : ∀ b ∈ stringBytes (R w.codec.m_FileName), b ≠ 10) :
    (∀ w1 : World, WriteImageInformation R tab0 w = Except.ok w1 →
      ∃ H : List Byte, w1.fs.files (R w.codec.m_FileName ++ ".ent") = some H ∧
        nthLine 0 H = stringBytes
          "#                    [fichier en-tete produit par les routines de otb (Orfeo ToolBox) ]" ∧
        nthLine 1 H = stringBytes "# Nom du look :" ∧
        (nthLine 0 H).head? = some 35 ∧ (nthLine 1 H).head? = some 35 ∧
        nthLine 2 H = stringBytes ("Look.dat= \t" ++ (R w.codec.m_FileName ++ ".dat")) ∧
        nthLine 7 H = stringBytes ("Format_valeurs_look=    \t" ++ "cmplx_real_4")) ∧
    (w.fs.writable (R w.codec.m_FileName ++ ".ent") = true →
      w.fs.writable (R w.codec.m_FileName ++ ".dat") = true →
      w.codec.m_PixelType = IOPixelType.COMPLEX →
      w.codec.m_ComponentType = IOComponentType.FLOAT →
      0 ≤ toShort (w.codec.m_Dimensions0 : Int) →
      ∃ w1 : World, WriteImageInformation R tab0 w = Except.ok w1) := by
  have hD : ∀ b ∈ stringBytes (R w.codec.m_FileName ++ ".dat"), b ≠ 10 := by
    intro b hb
    rw [stringBytes_append] at hb
    rcases List.mem_append.mp hb with h | h
    · exact hname b h
    · exact (show ∀ b ∈ stringBytes ".dat", b ≠ 10 by decide) b h
  obtain ⟨l0, l1, l2, l7⟩ := headerFile_lines (R w.codec.m_FileName ++ ".dat")
    w.codec.m_Dimensions0 w.codec.m_Dimensions1 hD
  constructor
  · intro w1 hok
    obtain ⟨hwe, hwd, hpix, hcomp, hcol⟩ := WriteImageInformation_ok_conditions R tab0 w w1 hok
    obtain ⟨w1', e1, hH⟩ := WriteImageInformation_header R tab0 w hwe hwd hpix hcomp hcol
    rw [hok] at e1
    have hw : w1 = w1' := Except.ok.inj e1
    subst hw
    refine ⟨_, hH, l0, l1, ?_, ?_, ?_, ?_⟩
    · rw [l0]; decide
    · rw [l1]; decide
    · rw [stringBytes_append]; exact l2
    · rw [l7]; decide
  · intro hwe hwd hpix hcomp hcol
    obtain ⟨w1, e1, -⟩ := WriteImageInformation_header R tab0 w hwe hwd hpix hcomp hcol
    exact ⟨w1, e1⟩

set_option maxRecDepth 100000 in
/-- Witness of C20: the header of a 4 x 2 image written to `img.ent` on an
empty disk by a fresh instance. -/
theorem header_text_layout_witness :
    (∀ b ∈ stringBytes (rootSample "img.ent"), b ≠ 10) ∧
    ∃ (w1 : World) (H : List Byte),
      WriteImageInformation rootSample junkAA
        { fs := emptyDisk, codec := writer "img.ent" 4 2 (fullExtent 4 2) 0 0 } =
        Except.ok w1 ∧
      w1.fs.files (rootSample "img.ent" ++ ".ent") = some H ∧
      nthLine 0 H = stringBytes
        "#                    [fichier en-tete produit par les routines de otb (Orfeo ToolBox) ]" ∧
      nthLine 1 H = stringBytes "# Nom du look :" ∧
      (nthLine 0 H).head? = some 35 ∧ (nthLine 1 H).head? = some 35 ∧
      nthLine 2 H = stringBytes ("Look.dat= \t" ++ (rootSample "img.ent" ++ ".dat")) ∧
      nthLine 7 H = stringBytes ("Format_valeurs_look=    \t" ++ "cmplx_real_4") := by
  have hn : ∀ b ∈ stringBytes (rootSample "img.ent"), b ≠ 10 := by decide
  obtain ⟨w1, e⟩ := (header_text_layout rootSample junkAA
    { fs := emptyDisk, codec := writer "img.ent" 4 2 (fullExtent 4 2) 0 0 } hn).2
    rfl rfl rfl rfl (by decide)
  obtain ⟨H, hH⟩ := (header_text_layout rootSample junkAA
    { fs := emptyDisk, codec := writer "img.ent" 4 2 (fullExtent 4 2) 0 0 } hn).1 w1 e
  exact ⟨hn, w1, H, e, hH⟩

set_option maxRecDepth 100000 in
/-- C21 (the byte swap covers exactly the output buffer), evaluated where it
fails. The full extent of the 2 x 1 sample image is read: 16 bytes, that is
4 floats (`2 * rowCount * colCount`), are copied into the caller buffer, and the
element count that `Read` hands to the range swapper is `cpt = 16`, the number
of bytes copied: four times the number of floats, so the swap would cover 64
bytes from the start of a buffer of 16. -/
theorem swap_count_is_byte_count :
    (Read rootSample
      { fs := sampleDisk "foo" sampleData,
        codec := { reader "img.ent" 2 1 with m_IORegion := fullExtent 2 1 } }).map
        (fun r => r.1) = Except.ok (sampleBuffer 16) ∧
    (sampleBuffer 16).length = 16 ∧ (sampleBuffer 16).length / 4 = 2 * 1 * 2 ∧
    ReadSwapCount rootSample
      { fs := sampleDisk "foo" sampleData,
        codec := { reader "img.ent" 2 1 with m_IORegion := fullExtent 2 1 } } =
      Except.ok (some 16) ∧
    (16 : Nat) ≠ 2 * 1 * 2 :=
  ⟨by rfl, by decide, by decide, by rfl, by decide⟩

set_option maxRecDepth 100000 in
/-- C22 (no bounds validation on read), evaluated where it fails. A 2 x 2 image
holding the bytes 100..131 (row 0 is 100..115, row 1 is 116..131) is written and
its header read back. `Read` of the region made of column 2 of row 0 (one
column, so `colOffset + colCount = 3 > 2 = width`; the bytes requested, 28..35,
lie inside the file of 52 bytes) raises no error and returns the bytes 108..115,
which are pixel 1 of row 0: none of them belongs to the following row, because
the column offset is scaled by 4 bytes where a pixel has 8. With the region of
columns 1 and 2 of row 0 the bytes returned, 104..119, do run into row 1. -/
theorem read_past_width_stays_in_row :
    writeThenRead rootSample junkAA emptyDisk "img.ent" 2 2 (sampleBuffer 32)
        { index0 := 2, index1 := 0, size0 := 1, size1 := 1 } =
      Except.ok [108, 109, 110, 111, 112, 113, 114, 115] ∧
    readAt (sampleBuffer 32) 0 16 =
      [100, 101, 102, 103, 104, 105, 106, 107, 108, 109, 110, 111, 112, 113, 114, 115] ∧
    readAt (sampleBuffer 32) 16 16 =
      [116, 117, 118, 119, 120, 121, 122, 123, 124, 125, 126, 127, 128, 129, 130, 131] ∧
    (∀ b ∈ ([108, 109, 110, 111, 112, 113, 114, 115] : List Byte),
      b ∉ readAt (sampleBuffer 32) 16 16) ∧
    (fileAfter (Write rootSample junkAA (sampleBuffer 32)
      { fs := emptyDisk, codec := writer "img.ent" 2 2 (fullExtent 2 2) 0 0 })
      "img.dat").map List.length = some 52 ∧
    writeThenRead rootSample junkAA emptyDisk "img.ent" 2 2 (sampleBuffer 32)
        { index0 := 1, index1 := 0, size0 := 2, size1 := 1 } =
      Except.ok [104, 105, 106, 107, 108, 109, 110, 111, 112, 113, 114, 115, 116, 117, 118,
        119] :=
  ⟨by rfl, by decide, by decide, by decide, by decide, by rfl⟩

set_option maxRecDepth 100000 in
/-- C23 as stated fails outside the range of a `short` and for an empty image.
For width 32768 and height 1 the only `Write` call raises the allocation
failure while it writes the header. For width 1 and height 32768 the data file
has 20 bytes after the strip made of row 0, not `4 + 32769 * 8`: the header
reserved no row. For height 0 (no strip, no call) there is no data file to
read, and for width 0 `ReadImageInformation` divides by zero. -/
theorem streamed_write_fails_for_wide_image :
    failureOf (writeStripsThenRead rootSample junkAA emptyDisk "img.ent" 32768 1
      (List.replicate (8 * 32768 * 1) 0) (stripsFrom 0 [1])) = some Failure.badAlloc ∧
    (fileAfter (WriteAll rootSample
        (stripCalls junkAA 1 (List.replicate (8 * 1 * 32768) 0) [(0, 1)])
        { fs := emptyDisk, codec := writer "img.ent" 1 32768 (fullExtent 1 32768) 0 0 })
      "img.dat").map List.length = some 20 ∧
    (20 : Nat) ≠ 4 + (32768 + 1) * (8 * 1) ∧
    failureOf (writeStripsThenRead rootSample junkAA emptyDisk "img.ent" 2 0 []
      (stripsFrom 0 [])) = some Failure.cannotReadRequestedFile ∧
    failureOf (writeStripsThenRead rootSample junkAA emptyDisk "img.ent" 0 1 []
      (stripsFrom 0 [1])) = some Failure.divisionByZero :=
  ⟨by decide, by decide, by decide, by decide, by decide⟩

/-- C23 (streamed write round trip), amended. For every width in [1, 32767],
every height of at least 1, every partition of the rows into consecutive strips
of full width (the heights `ks`, which add up to the height) and every order of
these strips: a fresh instance that writes the strips, one `Write` call each in
that order, returns normally from every call; once its streams are flushed the
data file has `4 + (height + 1) * 8 * width` bytes, and `ReadImageInformation`
followed by `Read` over the full extent returns the buffer of the image. The
reading is done by the instance that wrote, whose open closes the data stream
first, and as well by any other instance (whose header stream is not open for
reading, such as a fresh one) once the destructor of the writer has closed its
streams. For a height up to 32767 the data file has that size after every
call. -/
theorem streamed_write_round_trip (tab0 NbCol0 : Uninit) (fs : FileSystem) (FileName : String)
    (width height : Nat) (hw : 1 ≤ width ∧ width ≤ 32767) (hh : 1 ≤ height)
    (ks : List Nat) (hks : ks.sum = height)
    (order : List (Nat × Nat)) (hperm : order.Perm (stripsFrom 0 ks))
    (buffer : List Byte) (hbuf : buffer.length = 8 * width * height) (width0 height0 : Int)
    (hwe : fs.writable (R FileName ++ ".ent") = true)
    (hwd : fs.writable (R FileName ++ ".dat") = true) :
    (∃ (w2 : World) (F : List Byte),
      WriteAll R (stripCalls tab0 width buffer order)
        { fs := fs, codec := writer FileName width height (fullExtent width height)
            width0 height0 } = Except.ok w2 ∧
      (destructor w2).fs.files (R FileName ++ ".dat") = some F ∧
      F.length = 4 + (height + 1) * (8 * width) ∧
      (∃ w3 w4 : World,
        ReadImageInformation R NbCol0 w2 = Except.ok w3 ∧
        Read R (SetIORegion (fullExtent width height) w3) = Except.ok (buffer, w4)) ∧
      (∀ rc : ONERAImageIO, rc.m_FileName = FileName →
        (∀ p, rc.m_Headerfile.file ≠ some (p, OpenMode.input)) →
        ∃ w3 w4 : World,
          ReadImageInformation R NbCol0 { fs := (destructor w2).fs, codec := rc } =
            Except.ok w3 ∧
          Read R (SetIORegion (fullExtent width height) w3) = Except.ok (buffer, w4))) ∧
    (height ≤ 32767 → ∀ n, 0 < n → n ≤ order.length →
      ∃ (wn : World) (Fn : List Byte),
        WriteAll R (stripCalls tab0 width buffer (order.take n))
          { fs := fs, codec := writer FileName width height (fullExtent width height)
              width0 height0 } = Except.ok wn ∧
        wn.fs.files (R FileName ++ ".dat") = some Fn ∧
        Fn.length = 4 + (height + 1) * (8 * width)) := by
  obtain ⟨hw1, hw2⟩ := hw
  have hin : ∀ s ∈ order, s.1 + s.2 ≤ height := by
    intro s hs
    have := (stripsFrom_mem_range ks 0 s (hperm.mem_iff.mp hs)).2
    omega
  have hcover : ∀ r, r < height → ∃ s ∈ order, s.1 ≤ r ∧ r < s.1 + s.2 := by
    intro r hr
    obtain ⟨s, hs, h1, h2⟩ := stripsFrom_cover ks 0 r (by omega) (by omega)
    exact ⟨s, hperm.mem_iff.mpr hs, h1, h2⟩
  have hne : order ≠ [] := by
    obtain ⟨s, hs, -, -⟩ := hcover 0 (by omega)
    exact List.ne_nil_of_mem hs
  constructor
  · obtain ⟨w2, F, e, hF, hS⟩ := WriteAll_strips_fresh R tab0 fs FileName width height buffer hbuf
      hw1 hw2 (fullExtent width height) width0 height0 hwe hwd order hne hin
    obtain ⟨-, hcc, hle, -, hrowsS⟩ := hS
    have hrows : ∀ r, r < height → RowStored width buffer F r := by
      intro r hr
      obtain ⟨s, hs, h1, h2⟩ := hcover r hr
      exact hrowsS s (List.mem_reverse.mpr hs) r h1 h2
    have hlen : F.length = 4 + (height + 1) * (8 * width) := by
      have h1 := (hrows (height - 1) (by omega)).1
      have e1 : height - 1 + 2 = height + 1 := by omega
      rw [e1, Nat.mul_comm (8 * width) (height + 1)] at h1
      omega
    -- any reader that holds the file name and has no header stream open for reading
    have hread : ∀ rc : ONERAImageIO, rc.m_FileName = FileName →
        (∀ p, rc.m_Headerfile.file ≠ some (p, OpenMode.input)) →
        ∃ w3 w4 : World,
          ReadImageInformation R NbCol0 { fs := w2.fs, codec := rc } = Except.ok w3 ∧
          Read R (SetIORegion (fullExtent width height) w3) = Except.ok (buffer, w4) := by
      intro rc hname hclosed
      have hF' : w2.fs.files (R rc.m_FileName ++ ".dat") = some F := by rw [hname]; exact hF
      obtain ⟨hs3, ds3, e3⟩ := readHeader_of_layout R NbCol0 F w2.fs rc hw1 hw2 hh hF' hlen hcc
        hclosed
      obtain ⟨w4, e4⟩ := Read_full_extent R
        (SetIORegion (fullExtent width height)
          (headerRead { fs := w2.fs, codec := rc } (width : Int) (height : Int) hs3 ds3))
        F buffer width height hF' rfl rfl rfl hbuf hrows
      exact ⟨_, w4, e3, e4⟩
    obtain ⟨fname, hq⟩ := WriteAll_reader_frame R (stripCalls tab0 width buffer order)
      { fs := fs, codec := writer FileName width height (fullExtent width height) width0 height0 }
      w2 (fun _ h => nomatch h) e
    exact ⟨w2, F, e, hF, hlen, hread w2.codec fname hq, hread⟩
  · intro hh2 n hn1 hn2
    have hne' : order.take n ≠ [] := by
      intro h
      have h2 := List.length_take n order
      rw [h] at h2
      simp only [List.length_nil] at h2
      omega
    obtain ⟨wn, Fn, e, hF, hS⟩ := WriteAll_strips_fresh R tab0 fs FileName width height buffer
      hbuf hw1 hw2 (fullExtent width height) width0 height0 hwe hwd (order.take n) hne'
      (fun s hs => hin s (List.mem_of_mem_take hs))
    exact ⟨wn, Fn, e, hF, hS.2.2.2.1 hh2⟩

set_option maxRecDepth 100000 in
/-- Witness of C23: a 2 x 3 image of 48 bytes written to `img.ent` / `img.dat`
on an empty disk in two strips, rows 1 and 2 first and row 0 after them, read
back by the instance that wrote and, after its destructor, by any other one. -/
theorem streamed_write_round_trip_witness :
    ((1 ≤ 2 ∧ 2 ≤ 32767) ∧ 1 ≤ 3 ∧ ([1, 2] : List Nat).sum = 3 ∧
      List.Perm [((1 : Nat), (2 : Nat)), (0, 1)] (stripsFrom 0 [1, 2]) ∧
      (sampleBuffer 48).length = 8 * 2 * 3 ∧
      emptyDisk.writable (rootSample "img.ent" ++ ".ent") = true ∧
      emptyDisk.writable (rootSample "img.ent" ++ ".dat") = true) ∧
    (∃ (w2 : World) (F : List Byte),
      WriteAll rootSample (stripCalls junkAA 2 (sampleBuffer 48) [(1, 2), (0, 1)])
        { fs := emptyDisk, codec := writer "img.ent" 2 3 (fullExtent 2 3) 0 0 } = Except.ok w2 ∧
      (destructor w2).fs.files (rootSample "img.ent" ++ ".dat") = some F ∧
      F.length = 4 + (3 + 1) * (8 * 2) ∧
      (∃ w3 w4 : World,
        ReadImageInformation rootSample junkAA w2 = Except.ok w3 ∧
        Read rootSample (SetIORegion (fullExtent 2 3) w3) = Except.ok (sampleBuffer 48, w4)) ∧
      (∀ rc : ONERAImageIO, rc.m_FileName = "img.ent" →
        (∀ p, rc.m_Headerfile.file ≠ some (p, OpenMode.input)) →
        ∃ w3 w4 : World,
          ReadImageInformation rootSample junkAA { fs := (destructor w2).fs, codec := rc } =
            Except.ok w3 ∧
          Read rootSample (SetIORegion (fullExtent 2 3) w3) =
            Except.ok (sampleBuffer 48, w4))) ∧
    (3 ≤ 32767 → ∀ n, 0 < n → n ≤ ([((1 : Nat), (2 : Nat)), (0, 1)] : List (Nat × Nat)).length →
      ∃ (wn : World) (Fn : List Byte),
        WriteAll rootSample
          (stripCalls junkAA 2 (sampleBuffer 48) (([((1 : Nat), (2 : Nat)), (0, 1)]).take n))
          { fs := emptyDisk, codec := writer "img.ent" 2 3 (fullExtent 2 3) 0 0 } =
          Except.ok wn ∧
        wn.fs.files (rootSample "img.ent" ++ ".dat") = some Fn ∧
        Fn.length = 4 + (3 + 1) * (8 * 2)) :=
  ⟨⟨⟨by decide, by decide⟩, by decide, by decide, by decide, by decide, rfl, rfl⟩,
    streamed_write_round_trip rootSample junkAA junkAA emptyDisk "img.ent" 2 3
      ⟨by decide, by decide⟩ (by decide) [1, 2] (by decide) [(1, 2), (0, 1)] (by decide)
      (sampleBuffer 48) (by decide) 0 0 rfl rfl⟩

end Claims

end otb
